import Mathlib

/-!
# Per-tent kernels of the mapped tent pitching conservation-law solver

A shallow embedding of `src/cpp/conservationlaw.hpp` (the two `SolveM`
overloads, the equation capabilities, `CheckBC`) and of
`src/src/tconservationlaw_tp_impl.hpp` (the per-tent kernels).

Conventions of the embedding.

* The C++ `double` is modelled by exact rational arithmetic (`Scal`); rounding is
  not modelled, so every equality below is an equality of exact values.
* A `SIMD_IntegrationRule` is stored flat: point `q` of the model is lane
  `q % lanes` of SIMD vector `q / lanes`. The loops of the kernels act lane by lane;
  the one place where a whole SIMD value is read from point `0` (`meshSizeAt`) uses the
  number of lanes.
* The finite element, the integration rules and the mesh belong to the
  finite-element library and are taken as data (`DGFiniteElement`,
  `SIMD_IntegrationRule`, `SIMD_MappedIntegrationRule`, `MeshAccess`).
* A tent-local coefficient matrix (`FlatMatrixFixWidth<W>`) is a map from row
  number to its `W` entries; `Rows(dn)` is the block of `ndof` rows that starts at
  the range's first row.
* A kernel that can throw returns a `Run`: the exception, if one was thrown, and
  the content of the output buffer at that moment.
* Memory taken from the `LocalHeap` and handed to a capability of the equation before it
  is written holds what the heap held: that content is a parameter (`LocalHeap`).
-/

open BigOperators

namespace NgsTents

/-- The scalar type of the model: C++ `double` read as an exact rational. -/
abbrev Scal := ℚ

/-- A point of the reference element. -/
abbrev RefPt (DIM : ℕ) := Fin DIM → Scal

/-- A coefficient block of one element: `ndof` rows, `W` columns. -/
abbrev Block (ndof W : ℕ) := Fin ndof → Fin W → Scal

/-- Values at the points of a rule: one row per component, one column per point
(`FlatMatrix<SIMD<double>>(W, ir.Size())`, lanes flattened). -/
abbrev PntVals (W n : ℕ) := Fin W → Fin n → Scal

/-- Point values whose row index is computed (`flux(COMP*k+l, j)`): rows are
addressed by number. -/
abbrev TallVals (n : ℕ) := ℕ → Fin n → Scal

/-- A tent-local coefficient matrix `FlatMatrixFixWidth<W>`: row number to entries. -/
abbrev FlatMat (W : ℕ) := ℕ → Fin W → Scal

/-- The exceptions thrown by the kernels, with the data shown in the message. -/
inductive Exception where
  /-- `SolveM`: "Expected tent.fedata to be set!". -/
  | expectedFedata
  /-- The tent kernels: "fedata not set". -/
  | fedataNotSet
  /-- Boundary dispatch: "no implementation for your chosen boundary condition
  number " followed by the number `shown`. -/
  | noBoundaryCondition (shown : ℤ)
  /-- `CalcEntropyResidualTent`: "not yet implemented for more than one entropy
  function". -/
  | moreThanOneEntropy
  /-- An exception raised inside a capability of the equation. -/
  | equation (msg : String)
  deriving DecidableEq, Repr

/-- The text of an exception (`Exception::What`). -/
def Exception.what : Exception → String
  | .expectedFedata => "Expected tent.fedata to be set!"
  | .fedataNotSet => "fedata not set"
  | .noBoundaryCondition shown =>
      "no implementation for your chosen boundary condition number " ++ toString shown
  | .moreThanOneEntropy => "not yet implemented for more than one entropy function"
  | .equation msg => msg

/-- Outcome of a kernel: the exception thrown (if any) and the content of the
output buffer when the kernel returned or threw. -/
structure Run (σ : Type) where
  exc : Option Exception
  out : σ

/-- `SIMD_IntegrationRule` with `n` points (SIMD padding included); `nip` is
`GetNIP()`, the logical number of points. -/
structure SIMD_IntegrationRule (DIM n : ℕ) where
  nip : ℕ
  pt : Fin n → RefPt DIM
  weight : Fin n → Scal

/-- `SIMD_BaseMappedIntegrationRule` on `n` points: the rule it maps (`IR()`), and per
point `GetMeasure()`, `GetWeight()`, `GetJacobiDet()`, the inverse Jacobian used
for mapped gradients, and `GetNormals()`. -/
structure SIMD_MappedIntegrationRule (DIM n : ℕ) where
  IR : SIMD_IntegrationRule DIM n
  measure : Fin n → Scal
  weight : Fin n → Scal
  jacobidet : Fin n → Scal
  jacinv : Fin n → Fin DIM → Fin DIM → Scal
  normals : Fin n → Fin DIM → Scal

/-- `DGFiniteElement<DIM>`: number of dofs, order, the diagonal of the reference
mass matrix (`GetDiagMassMatrix`), the shape functions and their reference
gradients. -/
structure DGFiniteElement (DIM : ℕ) where
  ndof : ℕ
  order : ℕ
  diagmass : Fin ndof → Scal
  shape : RefPt DIM → Fin ndof → Scal
  dshape : RefPt DIM → Fin ndof → Fin DIM → Scal

/-- `fel.Evaluate(ir, coefs, vals)`: `vals(c,q) = Σ_k shape_k(x_q) · coefs(k,c)`. -/
def DGFiniteElement.Evaluate {DIM n W : ℕ} (fel : DGFiniteElement DIM)
    (ir : SIMD_IntegrationRule DIM n) (coefs : Block fel.ndof W) : PntVals W n :=
  fun c q => ∑ k, fel.shape (ir.pt q) k * coefs k c

/-- `fel.AddTrans(ir, vals, coefs)`: `coefs(k,c) += Σ_q shape_k(x_q) · vals(c,q)`. -/
def DGFiniteElement.AddTrans {DIM n W : ℕ} (fel : DGFiniteElement DIM)
    (ir : SIMD_IntegrationRule DIM n) (vals : PntVals W n) (coefs : Block fel.ndof W) :
    Block fel.ndof W :=
  fun k c => coefs k c + ∑ q, fel.shape (ir.pt q) k * vals c q

/-- Mapped gradient of shape function `k` at point `q` of a mapped rule. -/
def DGFiniteElement.mappedDShape {DIM n : ℕ} (fel : DGFiniteElement DIM)
    (mir : SIMD_MappedIntegrationRule DIM n) (q : Fin n) (k : Fin fel.ndof) (j : Fin DIM) :
    Scal :=
  ∑ l, fel.dshape (mir.IR.pt q) k l * mir.jacinv q l j

/-- `fel.EvaluateGrad(mir, coefs, grad)` for one component:
`grad(j,q) = Σ_k ∂_j shape_k(x_q) · coefs(k)`. -/
def DGFiniteElement.EvaluateGrad {DIM n : ℕ} (fel : DGFiniteElement DIM)
    (mir : SIMD_MappedIntegrationRule DIM n) (coefs : Fin fel.ndof → Scal) : PntVals DIM n :=
  fun j q => ∑ k, fel.mappedDShape mir q k j * coefs k

/-- `fel.AddGradTrans(mir, vals, coefs)` for one component:
`coefs(k) += Σ_q Σ_j ∂_j shape_k(x_q) · vals(j,q)`. -/
def DGFiniteElement.AddGradTrans1 {DIM n : ℕ} (fel : DGFiniteElement DIM)
    (mir : SIMD_MappedIntegrationRule DIM n) (vals : PntVals DIM n)
    (coefs : Fin fel.ndof → Scal) : Fin fel.ndof → Scal :=
  fun k => coefs k + ∑ q, ∑ j, fel.mappedDShape mir q k j * vals j q

/-- `fel.AddGradTrans(mir, vals, coefs)` for a coefficient matrix of width `W`:
component `c` reads the rows `c*DIM .. c*DIM+DIM-1` of `vals`. -/
def DGFiniteElement.AddGradTrans {DIM n W : ℕ} (fel : DGFiniteElement DIM)
    (mir : SIMD_MappedIntegrationRule DIM n) (vals : TallVals n)
    (coefs : Block fel.ndof W) : Block fel.ndof W :=
  fun k c => coefs k c + ∑ q, ∑ j : Fin DIM, fel.mappedDShape mir q k j * vals (c.val * DIM + j.val) q

/-- `mat.Rows(dn)` for the range that starts at row `first` and has `n` rows. -/
def FlatMat.Rows {W : ℕ} (M : FlatMat W) (first n : ℕ) : Block n W :=
  fun k c => M (first + k.val) c

/-- Writing a block back through the view `mat.Rows(dn)`. -/
def FlatMat.setRows {W : ℕ} (M : FlatMat W) (first n : ℕ) (B : Block n W) : FlatMat W :=
  fun r c => if h : first ≤ r ∧ r < first + n then B ⟨r - first, by omega⟩ c else M r c

/-- The part of `MeshAccess` the kernels and `CheckBC` read:
`GetElement(ElementId(VOL,nr)).is_curved` and `GetElFacets(nr)` of the volume elements,
the number of facets `GetNFacets()`, the number of boundary elements `GetNSE()`, and
`GetElFacets(ElementId(BND,i))` and `GetElIndex(ElementId(BND,i))` of the boundary
elements. -/
structure MeshAccess where
  is_curved : ℕ → Bool
  GetElFacets : ℕ → List ℕ
  GetNFacets : ℕ
  GetNSE : ℕ
  GetElFacetsBND : ℕ → List ℕ
  GetElIndexBND : ℕ → ℤ

/-- A mapped facet rule with its number of points (at least one). -/
structure FacetIntegration (DIM : ℕ) where
  n : ℕ
  n_pos : 0 < n
  mir : SIMD_MappedIntegrationRule DIM n

/-- `ElementTransformation`, as far as `CalcViscosityTent` uses it: for a facet rule of the
given order on local facet `locfacetnr`, the mapped rule
`trafo(transform(locfacetnr, fir, lh), lh)` after `ComputeNormalsAndMeasure`; its `IR` is
the facet rule in the coordinates of the element. -/
structure ElementTransformation (DIM : ℕ) where
  facetRule : (intorder locfacetnr : ℕ) → FacetIntegration DIM

/-- `TentDataFE` of a tent with `nels` elements and `nfac` facets. `nq i` is the size
of the volume rule of element `i` and `nqf f` the common size of the two facet rules
of facet `f`; every rule has at least one point (the kernels read point `0`).
`ranges i` is the first row of the dof range of element `i`, whose length is the
number of dofs of `fei i`. `felpos f` holds the local numbers of the two
neighbours of facet `f`, the second being `none` for the sentinel `size_t(-1)`. -/
structure TentDataFE (DIM nels nfac : ℕ) where
  fei : Fin nels → DGFiniteElement DIM
  nq : Fin nels → ℕ
  nq_pos : ∀ i, 0 < nq i
  iri : (i : Fin nels) → SIMD_IntegrationRule DIM (nq i)
  miri : (i : Fin nels) → SIMD_MappedIntegrationRule DIM (nq i)
  trafoi : Fin nels → ElementTransformation DIM
  ranges : Fin nels → ℕ
  agradphi_bot : (i : Fin nels) → PntVals DIM (nq i)
  agradphi_top : (i : Fin nels) → PntVals DIM (nq i)
  adelta : (i : Fin nels) → Fin (nq i) → Scal
  felpos : Fin nfac → Fin nels × Option (Fin nels)
  nqf : Fin nfac → ℕ
  nqf_pos : ∀ f, 0 < nqf f
  firi : (f : Fin nfac) → SIMD_IntegrationRule DIM (nqf f) × SIMD_IntegrationRule DIM (nqf f)
  mfiri1 : (f : Fin nfac) → SIMD_MappedIntegrationRule DIM (nqf f)
  mfiri2 : (f : Fin nfac) → SIMD_MappedIntegrationRule DIM (nqf f)
  anormals : (f : Fin nfac) → PntVals DIM (nqf f)
  adelta_facet : (f : Fin nfac) → Fin (nqf f) → Scal

/-- The fields of `Tent` the kernels read. `fedata` is `none` for a null pointer. -/
structure Tent (DIM : ℕ) where
  nels : ℕ
  els : Fin nels → ℕ
  nfac : ℕ
  internal_facets : Fin nfac → ℕ
  timebot : Scal
  tbot : Scal
  ttop : Scal
  fedata : Option (TentDataFE DIM nels nfac)

/-- Number of dofs of element `i` of the tent. -/
abbrev TentDataFE.ndof {DIM nels nfac : ℕ} (fd : TentDataFE DIM nels nfac) (i : Fin nels) : ℕ :=
  (fd.fei i).ndof

/-- `(*fedata->miri[i])[0].GetMeasure()[0]`: the measure at the first point. -/
def TentDataFE.measure0 {DIM nels nfac : ℕ} (fd : TentDataFE DIM nels nfac) (i : Fin nels) : Scal :=
  (fd.miri i).measure ⟨0, fd.nq_pos i⟩

/-- Body of the unweighted `SolveM` on the block `mat` once `fedata` is known to be
set: the curved branch (row-scale, evaluate, point-scale, transpose into the
zeroed block, row-scale) and the straight branch (multiply row `j` by
`1 / (diagmass(j) * measure)`, `measure` read at point `0`). -/
def SolveMBlock {DIM W : ℕ} (ma : MeshAccess) (tent : Tent DIM)
    (fd : TentDataFE DIM tent.nels tent.nfac) (loci : Fin tent.nels)
    (mat : Block (fd.ndof loci) W) : Block (fd.ndof loci) W :=
  let fel := fd.fei loci
  let curved := ma.is_curved (tent.els loci)
  if curved then
    let diagmass := fel.diagmass
    let ir := fd.iri loci
    let mir := fd.miri loci
    let mat1 : Block (fd.ndof loci) W := fun i c => mat i c / diagmass i
    let pntvals := fel.Evaluate ir mat1
    let pntvals1 : PntVals W (fd.nq loci) := fun comp i =>
      pntvals comp i * (ir.weight i / mir.measure i)
    let mat2 : Block (fd.ndof loci) W := fun _ _ => 0
    let mat3 := fel.AddTrans ir pntvals1 mat2
    fun i c => mat3 i c / diagmass i
  else
    let measure := fd.measure0 loci
    let diagmass : Fin (fd.ndof loci) → Scal := fun j => 1 / (fel.diagmass j * measure)
    fun j c => mat j c * diagmass j

/-- Unweighted `SolveM(tent, loci, mat, lh)`. The view `mat` is given by the matrix it
looks into and the first row of the range. Throws before touching `mat` when
`tent.fedata` is null. -/
def SolveM {DIM W : ℕ} (ma : MeshAccess) (tent : Tent DIM) (loci : Fin tent.nels)
    (mat : FlatMat W) (first : ℕ) : Run (FlatMat W) :=
  match tent.fedata with
  | none => ⟨some Exception.expectedFedata, mat⟩
  | some fd =>
      ⟨none, mat.setRows first (fd.ndof loci)
        (SolveMBlock ma tent fd loci (mat.Rows first (fd.ndof loci)))⟩

/-- Body of the delta-weighted `SolveM`: row-scale by `1/diagmass`, evaluate, scale
point `i` by `ir[i].Weight() * delta(i) / mir[i].GetMeasure()`, transpose into the zeroed
block, row-scale by `1/diagmass`. There is no branch on `is_curved`. -/
def SolveMDeltaBlock {DIM nels nfac W : ℕ} (fd : TentDataFE DIM nels nfac) (loci : Fin nels)
    (delta : Fin (fd.nq loci) → Scal) (mat : Block (fd.ndof loci) W) : Block (fd.ndof loci) W :=
  let fel := fd.fei loci
  let diagmass := fel.diagmass
  let ir := fd.iri loci
  let mir := fd.miri loci
  let mat1 : Block (fd.ndof loci) W := fun i c => mat i c / diagmass i
  let pntvals := fel.Evaluate ir mat1
  let pntvals1 : PntVals W (fd.nq loci) := fun comp i =>
    pntvals comp i * (ir.weight i * delta i / mir.measure i)
  let mat2 : Block (fd.ndof loci) W := fun _ _ => 0
  let mat3 := fel.AddTrans ir pntvals1 mat2
  fun i c => mat3 i c / diagmass i

/-- Delta-weighted `SolveM(tent, loci, delta, mat, lh)`. The vector `delta`
(`FlatVector<SIMD<double>>`) is addressed by point number. -/
def SolveMDelta {DIM W : ℕ} (tent : Tent DIM) (loci : Fin tent.nels)
    (delta : ℕ → Scal) (mat : FlatMat W) (first : ℕ) : Run (FlatMat W) :=
  match tent.fedata with
  | none => ⟨some Exception.expectedFedata, mat⟩
  | some fd =>
      ⟨none, mat.setRows first (fd.ndof loci)
        (SolveMDeltaBlock fd loci (fun q => delta q.val) (mat.Rows first (fd.ndof loci)))⟩

/-- The two-pass quadrature solve with point scale `s`:
`D⁻¹ · Bᵀ · diag(s) · B · D⁻¹ · mat`, entry by entry. -/
def twoPass {DIM nels nfac W : ℕ} (fd : TentDataFE DIM nels nfac) (i : Fin nels)
    (s : Fin (fd.nq i) → Scal) (mat : Block (fd.ndof i) W) : Block (fd.ndof i) W :=
  fun k c => (∑ q, (fd.fei i).shape ((fd.iri i).pt q) k *
      ((∑ j, (fd.fei i).shape ((fd.iri i).pt q) j * (mat j c / (fd.fei i).diagmass j)) * s q)) /
    (fd.fei i).diagmass k

/-! ### Mass matrices the claims compare `SolveM` with -/

/-- Product of a square matrix with a coefficient block. -/
def applyMat {n W : ℕ} (M : Fin n → Fin n → Scal) (x : Block n W) : Block n W :=
  fun i c => ∑ j, M i j * x j c

/-- The lumped mass matrix of a straight element: `diag(d_k · measure)`. -/
def lumpedMass {DIM nels nfac : ℕ} (fd : TentDataFE DIM nels nfac) (i : Fin nels) :
    Fin (fd.ndof i) → Fin (fd.ndof i) → Scal :=
  fun k j => if k = j then (fd.fei i).diagmass k * fd.measure0 i else 0

/-- Mass matrix of element `i` assembled with its own volume rule and a pointwise
weight `g`: entry `(k,j)` is `Σ_q w(q)·g(q)·φ_k(q)·φ_j(q)`. -/
def weightedMass {DIM nels nfac : ℕ} (fd : TentDataFE DIM nels nfac) (i : Fin nels)
    (g : Fin (fd.nq i) → Scal) : Fin (fd.ndof i) → Fin (fd.ndof i) → Scal :=
  fun k j => ∑ q, (fd.iri i).weight q * g q *
    (fd.fei i).shape ((fd.iri i).pt q) k * (fd.fei i).shape ((fd.iri i).pt q) j

/-- The element mass matrix: entries `Σ_q w(q)·|J|(q)·φ_k(q)·φ_j(q)`. -/
def massMatrix {DIM nels nfac : ℕ} (fd : TentDataFE DIM nels nfac) (i : Fin nels) :
    Fin (fd.ndof i) → Fin (fd.ndof i) → Scal :=
  weightedMass fd i (fd.miri i).measure

/-- The delta-weighted mass matrix: entries `Σ_q w(q)·δ(q)·|J|(q)·φ_k(q)·φ_j(q)`. -/
def deltaMass {DIM nels nfac : ℕ} (fd : TentDataFE DIM nels nfac) (i : Fin nels)
    (delta : Fin (fd.nq i) → Scal) : Fin (fd.ndof i) → Fin (fd.ndof i) → Scal :=
  weightedMass fd i (fun q => delta q * (fd.miri i).measure q)

/-- The volume rule of element `i` integrates the products of the basis functions to the
diagonal mass matrix of the element: the diagonal entries `d_k` are non-zero and
`Σ_q w(q)·φ_k(q)·φ_j(q) = d_k·[k = j]`. The sum runs over all slots of the SIMD rule; a
padding slot carries the weight zero and adds nothing. -/
def MassExact {DIM nels nfac : ℕ} (fd : TentDataFE DIM nels nfac) (i : Fin nels) : Prop :=
  (∀ k, (fd.fei i).diagmass k ≠ 0) ∧
  ∀ k j, (∑ q, (fd.iri i).weight q * (fd.fei i).shape ((fd.iri i).pt q) k *
    (fd.fei i).shape ((fd.iri i).pt q) j) = if k = j then (fd.fei i).diagmass k else 0

/-- Multiplication by the point function `g` maps the discrete space of element `i` into
itself on the points of non-zero weight: there are coefficients `C` with
`g(q)·φ_j(q) = Σ_k φ_k(q)·C(k,j)` at every point `q` with `w(q) ≠ 0`. -/
def PreservesSpace {DIM nels nfac : ℕ} (fd : TentDataFE DIM nels nfac) (i : Fin nels)
    (g : Fin (fd.nq i) → Scal) : Prop :=
  ∃ C : Fin (fd.ndof i) → Fin (fd.ndof i) → Scal, ∀ q, (fd.iri i).weight q ≠ 0 → ∀ j,
    g q * (fd.fei i).shape ((fd.iri i).pt q) j =
      ∑ k, (fd.fei i).shape ((fd.iri i).pt q) k * C k j

/-- The volume rule of element `i` is collocated with its basis: as many of its points
carry a non-zero weight as the element has dofs (the padding slots of the SIMD rule carry
the weight zero and are not counted), and the rule is `MassExact`. -/
def Collocated {DIM nels nfac : ℕ} (fd : TentDataFE DIM nels nfac) (i : Fin nels) : Prop :=
  (Finset.univ.filter fun q => (fd.iri i).weight q ≠ 0).card = fd.ndof i ∧ MassExact fd i

/-- The evaluation matrix `B` of element `i`: `B(q,k) = φ_k(x_q)`. -/
def shapeMat {DIM nels nfac : ℕ} (fd : TentDataFE DIM nels nfac) (i : Fin nels) :
    Matrix (Fin (fd.nq i)) (Fin (fd.ndof i)) ℚ :=
  Matrix.of fun q k => (fd.fei i).shape ((fd.iri i).pt q) k

/-- The matrix `D⁻¹ · Bᵀ · diag(w)` of element `i`. -/
def projMat {DIM nels nfac : ℕ} (fd : TentDataFE DIM nels nfac) (i : Fin nels) :
    Matrix (Fin (fd.ndof i)) (Fin (fd.nq i)) ℚ :=
  Matrix.of fun k q => ((fd.fei i).diagmass k)⁻¹ * (fd.fei i).shape ((fd.iri i).pt q) k *
    (fd.iri i).weight q

/-- The block `D⁻¹ · mat`. -/
def rowScaled {DIM nels nfac W : ℕ} (fd : TentDataFE DIM nels nfac) (i : Fin nels)
    (mat : Block (fd.ndof i) W) : Matrix (Fin (fd.ndof i)) (Fin W) ℚ :=
  Matrix.of fun k c => ((fd.fei i).diagmass k)⁻¹ * mat k c

/-- Point values scaled point by point: `diag(t) · X`. -/
def pntScaled {n W : ℕ} (t : Fin n → Scal) (X : Matrix (Fin n) (Fin W) ℚ) :
    Matrix (Fin n) (Fin W) ℚ :=
  Matrix.of fun q c => t q * X q c

/-! ### The conservation law and its equation -/

/-- `AutoDiff<1,SIMD<double>>`: a value and one derivative slot. -/
structure AutoDiff1 where
  Value : Scal
  DValue : Scal

/-- `CoefficientFunction` registered for a boundary: `Evaluate(mir, values)`. -/
structure CoefficientFunction (DIM COMP : ℕ) where
  Evaluate : {n : ℕ} → SIMD_MappedIntegrationRule DIM n → PntVals COMP n

/-- The capabilities reached through `Cast()`. `Flux`, `NumFlux`, `InverseMap` (in place on
`u`, for plain values and for `AutoDiff`) and `u_reflect` are supplied by the equation and
return what they write. `u_transparent` may throw (it returns the message of its
exception). `CalcEntropy`, `EntropyFlux` and `CalcViscCoeffEl` write into buffers of the
caller: they receive the content of the buffer and return its new content. -/
structure Equation (DIM COMP ECOMP : ℕ) where
  Flux : {n : ℕ} → SIMD_MappedIntegrationRule DIM n → PntVals COMP n → TallVals n
  NumFlux : {n : ℕ} → SIMD_MappedIntegrationRule DIM n → PntVals COMP n → PntVals COMP n →
    PntVals DIM n → PntVals COMP n
  InverseMap : {n : ℕ} → SIMD_MappedIntegrationRule DIM n → PntVals DIM n → PntVals COMP n →
    PntVals COMP n
  InverseMapAD : {n : ℕ} → SIMD_MappedIntegrationRule DIM n → (Fin DIM → Fin n → AutoDiff1) →
    (Fin COMP → Fin n → AutoDiff1) → (Fin COMP → Fin n → AutoDiff1)
  u_reflect : {n : ℕ} → SIMD_MappedIntegrationRule DIM n → PntVals COMP n → PntVals DIM n →
    PntVals COMP n
  u_transparent : {n : ℕ} → SIMD_MappedIntegrationRule DIM n → PntVals COMP n → PntVals DIM n →
    Except String (PntVals COMP n)
  CalcEntropy : {n : ℕ} → (Fin COMP → Fin n → AutoDiff1) → (Fin DIM → Fin n → AutoDiff1) →
    TallVals n × TallVals n → TallVals n × TallVals n
  EntropyFlux : {n : ℕ} → PntVals COMP n → PntVals COMP n → PntVals DIM n → PntVals ECOMP n →
    PntVals ECOMP n
  CalcViscCoeffEl : {n : ℕ} → SIMD_MappedIntegrationRule DIM n → PntVals COMP n →
    PntVals ECOMP n → Scal → Scal → Scal

/-- `T_ConservationLaw::u_transparent`, the fallback of the base class: it throws. -/
def T_ConservationLaw.u_transparent {DIM COMP n : ℕ} (_mir : SIMD_MappedIntegrationRule DIM n)
    (_u : PntVals COMP n) (_normals : PntVals DIM n) : Except String (PntVals COMP n) :=
  Except.error "Transparent boundary just available for wave equation!"

/-- `T_ConservationLaw::EntropyFlux` for SIMD matrices, the fallback of the base class: it
prints a diagnostic and leaves `flux` as it was. -/
def T_ConservationLaw.EntropyFlux {DIM COMP ECOMP n : ℕ} (_ml _mr : PntVals COMP n)
    (_n : PntVals DIM n) (flux : PntVals ECOMP n) : PntVals ECOMP n :=
  flux

/-- `T_ConservationLaw::CalcEntropy`, the fallback of the base class: it prints a
diagnostic and leaves `dEdt` and `F` as they were. -/
def T_ConservationLaw.CalcEntropy {DIM COMP n : ℕ} (_adu : Fin COMP → Fin n → AutoDiff1)
    (_grad : Fin DIM → Fin n → AutoDiff1) (dEdt_F : TallVals n × TallVals n) :
    TallVals n × TallVals n :=
  dEdt_F

/-- `T_ConservationLaw::CalcViscCoeffEl`, the fallback of the base class: it prints a
diagnostic and leaves `coeff` as it was. -/
def T_ConservationLaw.CalcViscCoeffEl {DIM COMP ECOMP n : ℕ}
    (_mir : SIMD_MappedIntegrationRule DIM n) (_elu : PntVals COMP n) (_res : PntVals ECOMP n)
    (_hi : Scal) (coeff : Scal) : Scal :=
  coeff

/-- The members of `T_ConservationLaw` the kernels read: the equation, the mesh, the
boundary condition numbers `bcnr` (by facet number), the registered boundary
coefficient functions `cf_bnd` (by condition number, `none` for a null pointer),
the order of the finite element space, the number of lanes of `SIMD<double>` and the
library function `pow`. -/
structure T_ConservationLaw (DIM COMP ECOMP : ℕ) where
  eq : Equation DIM COMP ECOMP
  ma : MeshAccess
  bcnr : ℕ → ℤ
  cf_bnd : ℤ → Option (CoefficientFunction DIM COMP)
  order : ℕ
  lanes : ℕ
  pow : Scal → Scal → Scal

/-- A loop whose body may throw: the bodies run in order on the state, and the first
exception ends the loop with the state reached. -/
def runLoop {α σ : Type} : List α → (α → σ → Run σ) → σ → Run σ
  | [], _, s => ⟨none, s⟩
  | a :: l, f, s =>
      match f a s with
      | ⟨none, s'⟩ => runLoop l f s'
      | ⟨some e, s'⟩ => ⟨some e, s'⟩

/-- `mat.Col(j).Range(dn)`. -/
def FlatMat.ColRange {W : ℕ} (M : FlatMat W) (j : Fin W) (first n : ℕ) : Fin n → Scal :=
  fun k => M (first + k.val) j

/-- Writing through the view `mat.Col(j).Range(dn)`. -/
def FlatMat.setColRange {W : ℕ} (M : FlatMat W) (j : Fin W) (first n : ℕ) (v : Fin n → Scal) :
    FlatMat W :=
  fun r c => if h : (first ≤ r ∧ r < first + n) ∧ c = j then v ⟨r - first, by omega⟩ else M r c

/-! ### `CalcFluxTent` -/

/-- The loop `flux_iptsa2.Row(i*DIM+j) = flux_iptsa.Row(j*COMP+i)` over `i < COMP`,
`j < DIM`, run on the content `dst` of `flux_iptsa2`. -/
def relayout {n : ℕ} (DIM COMP : ℕ) (src dst : TallVals n) : TallVals n :=
  (List.range COMP).foldl
    (fun d i => (List.range DIM).foldl
      (fun d' j => Function.update d' (i * DIM + j) (src (j * COMP + i))) d)
    dst

/-- Volume part of `CalcFluxTent` for element `i`: evaluate `u`, call `Flux`, scale column
`k` by `simd_mir[k].GetWeight() * di(k)`, re-layout, `AddGradTrans` into `flux.Rows(dn)`.
The matrix `flux_iptsa2` starts from the content `0`; the loop writes every row that is
read. -/
def CalcFluxTent.volume {DIM COMP ECOMP nels nfac : ℕ} (law : T_ConservationLaw DIM COMP ECOMP)
    (fd : TentDataFE DIM nels nfac) (u : FlatMat COMP) (i : Fin nels) (flux : FlatMat COMP) :
    FlatMat COMP :=
  let fel := fd.fei i
  let simd_ir := fd.iri i
  let simd_mir := fd.miri i
  let dn := fd.ranges i
  let u_iptsa := fel.Evaluate simd_ir (u.Rows dn fel.ndof)
  let flux_iptsa := law.eq.Flux simd_mir u_iptsa
  let di := fd.adelta i
  let flux_iptsa1 : TallVals (fd.nq i) := fun r k => flux_iptsa r k * (simd_mir.weight k * di k)
  let flux_iptsa2 := relayout DIM COMP flux_iptsa1 (fun _ _ => 0)
  flux.setRows dn fel.ndof (fel.AddGradTrans simd_mir flux_iptsa2 (flux.Rows dn fel.ndof))

/-- Inner facet `i` of `CalcFluxTent` with neighbours `elnr1`, `elnr2`. -/
def CalcFluxTent.innerFacet {DIM COMP ECOMP nels nfac : ℕ} (law : T_ConservationLaw DIM COMP ECOMP)
    (fd : TentDataFE DIM nels nfac) (u : FlatMat COMP) (i : Fin nfac) (elnr1 elnr2 : Fin nels)
    (flux : FlatMat COMP) : FlatMat COMP :=
  let fel1 := fd.fei elnr1
  let fel2 := fd.fei elnr2
  let dn1 := fd.ranges elnr1
  let dn2 := fd.ranges elnr2
  let simd_ir_facet_vol1 := (fd.firi i).1
  let simd_ir_facet_vol2 := (fd.firi i).2
  let u1 := fel1.Evaluate simd_ir_facet_vol1 (u.Rows dn1 fel1.ndof)
  let u2 := fel2.Evaluate simd_ir_facet_vol2 (u.Rows dn2 fel2.ndof)
  let simd_mir1 := fd.mfiri1 i
  let fn := law.eq.NumFlux simd_mir1 u1 u2 (fd.anormals i)
  let di := fd.adelta_facet i
  let fn1 : PntVals COMP (fd.nqf i) := fun c j => fn c j * (-1 * di j * simd_mir1.weight j)
  let flux1 := flux.setRows dn1 fel1.ndof
    (fel1.AddTrans simd_ir_facet_vol1 fn1 (flux.Rows dn1 fel1.ndof))
  let fn2 : PntVals COMP (fd.nqf i) := fun c j => fn1 c j * -1
  flux1.setRows dn2 fel2.ndof (fel2.AddTrans simd_ir_facet_vol2 fn2 (flux1.Rows dn2 fel2.ndof))

/-- Boundary dispatch of `CalcFluxTent`: the exterior trace `u2` for condition number
`bc`, or the exception thrown. -/
def CalcFluxTent.boundaryTrace {DIM COMP ECOMP nels nfac : ℕ}
    (law : T_ConservationLaw DIM COMP ECOMP) (fd : TentDataFE DIM nels nfac) (u0 : FlatMat COMP)
    (i : Fin nfac) (elnr1 : Fin nels) (u1 : PntVals COMP (fd.nqf i)) (bc : ℤ) :
    Except Exception (PntVals COMP (fd.nqf i)) :=
  let fel1 := fd.fei elnr1
  let dn1 := fd.ranges elnr1
  let simd_ir_facet_vol1 := (fd.firi i).1
  let simd_mir := fd.mfiri1 i
  if bc = 0 then
    Except.ok u1
  else if bc = 1 then
    Except.ok (law.eq.u_reflect simd_mir u1 (fd.anormals i))
  else if bc = 2 then
    Except.ok (fel1.Evaluate simd_ir_facet_vol1 (u0.Rows dn1 fel1.ndof))
  else if bc = 3 then
    match law.eq.u_transparent simd_mir u1 (fd.anormals i) with
    | Except.ok u2 => Except.ok u2
    | Except.error msg => Except.error (Exception.equation msg)
  else
    match law.cf_bnd bc with
    | some cf => Except.ok (cf.Evaluate simd_mir)
    | none => Except.error (Exception.noBoundaryCondition (bc + 1))

/-- Boundary facet `i` of `CalcFluxTent` with neighbour `elnr1`; `facetnr` is
`tent.internal_facets[i]`. -/
def CalcFluxTent.boundaryFacet {DIM COMP ECOMP nels nfac : ℕ}
    (law : T_ConservationLaw DIM COMP ECOMP) (fd : TentDataFE DIM nels nfac) (u u0 : FlatMat COMP)
    (i : Fin nfac) (facetnr : ℕ) (elnr1 : Fin nels) (flux : FlatMat COMP) : Run (FlatMat COMP) :=
  let fel1 := fd.fei elnr1
  let dn1 := fd.ranges elnr1
  let simd_ir_facet_vol1 := (fd.firi i).1
  let u1 := fel1.Evaluate simd_ir_facet_vol1 (u.Rows dn1 fel1.ndof)
  let simd_mir := fd.mfiri1 i
  let bc := law.bcnr facetnr
  match CalcFluxTent.boundaryTrace law fd u0 i elnr1 u1 bc with
  | Except.error e => ⟨some e, flux⟩
  | Except.ok u2 =>
      let fn := law.eq.NumFlux simd_mir u1 u2 (fd.anormals i)
      let di := fd.adelta_facet i
      let fn1 : PntVals COMP (fd.nqf i) := fun c j => fn c j * (-1 * di j * simd_mir.weight j)
      ⟨none, flux.setRows dn1 fel1.ndof
        (fel1.AddTrans simd_ir_facet_vol1 fn1 (flux.Rows dn1 fel1.ndof))⟩

/-- One pass of the facet loop of `CalcFluxTent`. -/
def CalcFluxTent.facet {DIM COMP ECOMP : ℕ} (law : T_ConservationLaw DIM COMP ECOMP)
    (tent : Tent DIM) (fd : TentDataFE DIM tent.nels tent.nfac) (u u0 : FlatMat COMP)
    (i : Fin tent.nfac) (flux : FlatMat COMP) : Run (FlatMat COMP) :=
  let elnr1 := (fd.felpos i).1
  match (fd.felpos i).2 with
  | some elnr2 => ⟨none, CalcFluxTent.innerFacet law fd u i elnr1 elnr2 flux⟩
  | none => CalcFluxTent.boundaryFacet law fd u u0 i (tent.internal_facets i) elnr1 flux

/-- What `CalcFluxTent` writes: the matrix `flux` and `*(tent.time)`. -/
structure FluxOut (COMP : ℕ) where
  flux : FlatMat COMP
  time : Scal

/-- `CalcFluxTent(tent, u, u0, flux, tstar, lh)`. -/
def CalcFluxTent {DIM COMP ECOMP : ℕ} (law : T_ConservationLaw DIM COMP ECOMP) (tent : Tent DIM)
    (u u0 : FlatMat COMP) (out : FluxOut COMP) (tstar : Scal) : Run (FluxOut COMP) :=
  match tent.fedata with
  | none => ⟨some Exception.fedataNotSet, out⟩
  | some fd =>
      let time := tent.timebot + tstar * (tent.ttop - tent.tbot)
      let flux0 : FlatMat COMP := fun _ _ => 0
      let flux1 := (List.finRange tent.nels).foldl
        (fun flux i => CalcFluxTent.volume law fd u i flux) flux0
      match runLoop (List.finRange tent.nfac)
          (fun i flux => CalcFluxTent.facet law tent fd u u0 i flux) flux1 with
      | ⟨some e, flux2⟩ => ⟨some e, ⟨flux2, time⟩⟩
      | ⟨none, flux2⟩ =>
          match runLoop (List.finRange tent.nels)
              (fun i flux => SolveM law.ma tent i flux (fd.ranges i)) flux2 with
          | ⟨exc, flux3⟩ => ⟨exc, ⟨flux3, time⟩⟩

/-! ### `CalcViscosityTent` -/

/-- A vector held by its points, read as a `FlatVector` addressed by point number. -/
def toFlatVec {n : ℕ} (v : Fin n → Scal) : ℕ → Scal :=
  fun q => if h : q < n then v ⟨q, h⟩ else 0

/-- The point of the first SIMD vector that lies in the lane of point `k`. -/
def laneOfFirst {n : ℕ} (lanes : ℕ) (k : Fin n) : Fin n :=
  ⟨k.val % lanes, lt_of_le_of_lt (Nat.mod_le _ _) k.isLt⟩

/-- The SIMD value `fabs(mir[0].GetJacobiDet()) / mir[0].GetMeasure()` as seen from point `k`. -/
def meshSizeAt {DIM n : ℕ} (lanes : ℕ) (mir : SIMD_MappedIntegrationRule DIM n) (k : Fin n) : Scal :=
  |mir.jacobidet (laneOfFirst lanes k)| / mir.measure (laneOfFirst lanes k)

/-- Volume part of `CalcViscosityTent` for element `i`: for every component `j`,
`EvaluateGrad`, scale column `k` by `nu(i) * weight(k)`, `AddGradTrans` into
`visc.Col(j).Range(dn)`. -/
def CalcViscosityTent.volume {DIM COMP nels nfac : ℕ} (fd : TentDataFE DIM nels nfac)
    (u : FlatMat COMP) (nu : ℕ → Scal) (i : Fin nels) (visc : FlatMat COMP) : FlatMat COMP :=
  let fel := fd.fei i
  let simd_mir := fd.miri i
  let dn := fd.ranges i
  (List.finRange COMP).foldl
    (fun visc j =>
      let gradu := fel.EvaluateGrad simd_mir (u.ColRange j dn fel.ndof)
      let gradu1 : PntVals DIM (fd.nq i) := fun d k => gradu d k * (nu i.val * simd_mir.weight k)
      visc.setColRange j dn fel.ndof
        (fel.AddGradTrans1 simd_mir gradu1 (visc.ColRange j dn fel.ndof)))
    visc

/-- The "quick hack" of `CalcViscosityTent` for the facet with local number `locfacetnr` of
element `i`, a facet that is not among the internal facets of the tent. Row `j` of
`dudn` is written in pass `j` of the loop over the components and read after it. -/
def CalcViscosityTent.outerFacet {DIM COMP ECOMP nels nfac : ℕ}
    (law : T_ConservationLaw DIM COMP ECOMP) (fd : TentDataFE DIM nels nfac)
    (u ubnd : FlatMat COMP) (nu : ℕ → Scal) (alpha : Scal) (i : Fin nels) (locfacetnr : ℕ)
    (visc : FlatMat COMP) : FlatMat COMP :=
  let fel := fd.fei i
  let dn := fd.ranges i
  let fr := (fd.trafoi i).facetRule (2 * fel.order + 1) locfacetnr
  let simd_mfir := fr.mir
  let simd_ir_facet_vol := fr.mir.IR
  let u1 := fel.Evaluate simd_ir_facet_vol (u.Rows dn fel.ndof)
  let u2 := fel.Evaluate simd_ir_facet_vol (ubnd.Rows dn fel.ndof)
  let fac : Fin fr.n → Scal := fun k => nu i.val * simd_mfir.weight k
  let jumpu : PntVals COMP fr.n := fun c k => (u1 c k - u2 c k) * fac k
  let normal := simd_mfir.normals
  let dudn : PntVals COMP fr.n := fun j k =>
    -fac k * ∑ d, fel.EvaluateGrad simd_mfir (u.ColRange j dn fel.ndof) d k * normal k d
  let visc1 := (List.finRange COMP).foldl
    (fun visc j =>
      let temp : PntVals DIM fr.n := fun d k => -jumpu j k * normal k d
      visc.setColRange j dn fel.ndof
        (fel.AddGradTrans1 simd_mfir temp (visc.ColRange j dn fel.ndof)))
    visc
  let jumpu1 : PntVals COMP fr.n := fun c k => jumpu c k * (alpha / meshSizeAt law.lanes simd_mfir k)
  let dudn1 : PntVals COMP fr.n := fun c k => dudn c k + jumpu1 c k
  visc1.setRows dn fel.ndof (fel.AddTrans simd_ir_facet_vol dudn1 (visc1.Rows dn fel.ndof))

/-- The element loop body of `CalcViscosityTent`: the volume part, then the facets
`fnums[j]` of the element that the tent does not list among its internal facets. -/
def CalcViscosityTent.element {DIM COMP ECOMP : ℕ} (law : T_ConservationLaw DIM COMP ECOMP)
    (tent : Tent DIM) (fd : TentDataFE DIM tent.nels tent.nfac) (u ubnd : FlatMat COMP)
    (nu : ℕ → Scal) (alpha : Scal) (i : Fin tent.nels) (visc : FlatMat COMP) : FlatMat COMP :=
  let visc1 := CalcViscosityTent.volume fd u nu i visc
  let fnums := law.ma.GetElFacets (tent.els i)
  fnums.enum.foldl
    (fun visc jf =>
      if ∃ f, tent.internal_facets f = jf.2 then visc
      else CalcViscosityTent.outerFacet law fd u ubnd nu alpha i jf.1 visc)
    visc1

/-- Inner facet `i` of `CalcViscosityTent` with neighbours `elnr1`, `elnr2`. Row `j` of
`dudn` is written in pass `j` of the loop over the components and read after it. -/
def CalcViscosityTent.innerFacet {DIM COMP ECOMP nels nfac : ℕ}
    (law : T_ConservationLaw DIM COMP ECOMP) (fd : TentDataFE DIM nels nfac)
    (u : FlatMat COMP) (nu : ℕ → Scal) (alpha : Scal) (i : Fin nfac) (elnr1 elnr2 : Fin nels)
    (visc : FlatMat COMP) : FlatMat COMP :=
  let fel1 := fd.fei elnr1
  let fel2 := fd.fei elnr2
  let dn1 := fd.ranges elnr1
  let dn2 := fd.ranges elnr2
  let simd_ir_facet_vol1 := (fd.firi i).1
  let simd_ir_facet_vol2 := (fd.firi i).2
  let simd_mir := fd.mfiri1 i
  let simd_mir2 := fd.mfiri2 i
  let u1 := fel1.Evaluate simd_ir_facet_vol1 (u.Rows dn1 fel1.ndof)
  let u2 := fel2.Evaluate simd_ir_facet_vol2 (u.Rows dn2 fel2.ndof)
  let fac : Fin (fd.nqf i) → Scal := fun k => simd_mir.weight k
  let jumpu : PntVals COMP (fd.nqf i) := fun c k =>
    (nu elnr1.val * u1 c k - nu elnr2.val * u2 c k) * fac k
  let normal := fd.anormals i
  let dudn : PntVals COMP (fd.nqf i) := fun j k =>
    (∑ d, (nu elnr1.val * fel1.EvaluateGrad simd_mir (u.ColRange j dn1 fel1.ndof) d k +
           nu elnr2.val * fel2.EvaluateGrad simd_mir2 (u.ColRange j dn2 fel2.ndof) d k) *
        normal d k) * (-(1 / 2) * fac k)
  let visc1 := (List.finRange COMP).foldl
    (fun visc j =>
      let temp : PntVals DIM (fd.nqf i) := fun d k => -(1 / 2) * jumpu j k * normal d k
      let visc' := visc.setColRange j dn1 fel1.ndof
        (fel1.AddGradTrans1 simd_mir temp (visc.ColRange j dn1 fel1.ndof))
      let temp1 : PntVals DIM (fd.nqf i) := fun d k => temp d k * -1
      visc'.setColRange j dn2 fel2.ndof
        (fel2.AddGradTrans1 simd_mir2 temp1 (visc'.ColRange j dn2 fel2.ndof)))
    visc
  let jumpu1 : PntVals COMP (fd.nqf i) := fun c k =>
    jumpu c k * (alpha / meshSizeAt law.lanes simd_mir k)
  let dudn1 : PntVals COMP (fd.nqf i) := fun c k => dudn c k + jumpu1 c k
  let visc2 := visc1.setRows dn1 fel1.ndof
    (fel1.AddTrans simd_ir_facet_vol1 dudn1 (visc1.Rows dn1 fel1.ndof))
  let dudn2 : PntVals COMP (fd.nqf i) := fun c k => dudn1 c k * -1
  visc2.setRows dn2 fel2.ndof (fel2.AddTrans simd_ir_facet_vol2 dudn2 (visc2.Rows dn2 fel2.ndof))

/-- One pass of the facet loop of `CalcViscosityTent`: boundary facets are skipped. -/
def CalcViscosityTent.facet {DIM COMP ECOMP nels nfac : ℕ}
    (law : T_ConservationLaw DIM COMP ECOMP) (fd : TentDataFE DIM nels nfac)
    (u : FlatMat COMP) (nu : ℕ → Scal) (alpha : Scal) (i : Fin nfac) (visc : FlatMat COMP) :
    FlatMat COMP :=
  match (fd.felpos i).2 with
  | some elnr2 => CalcViscosityTent.innerFacet law fd u nu alpha i (fd.felpos i).1 elnr2 visc
  | none => visc

/-- `CalcViscosityTent(tent, u, ubnd, nu, visc, lh)`. -/
def CalcViscosityTent {DIM COMP ECOMP : ℕ} (law : T_ConservationLaw DIM COMP ECOMP)
    (tent : Tent DIM) (u ubnd : FlatMat COMP) (nu : ℕ → Scal) (visc : FlatMat COMP) :
    Run (FlatMat COMP) :=
  let alpha : Scal := 4 * (law.order : Scal) ^ 2
  match tent.fedata with
  | none => ⟨some Exception.fedataNotSet, visc⟩
  | some fd =>
      let visc0 : FlatMat COMP := fun _ _ => 0
      let visc1 := (List.finRange tent.nels).foldl
        (fun visc i => CalcViscosityTent.element law tent fd u ubnd nu alpha i visc) visc0
      let visc2 := (List.finRange tent.nfac).foldl
        (fun visc i => CalcViscosityTent.facet law fd u nu alpha i visc) visc1
      runLoop (List.finRange tent.nels)
        (fun i visc => SolveMDelta tent i (toFlatVec (fd.adelta i)) visc (fd.ranges i)) visc2

/-! ### The coordinate maps -/

/-- The front gradient at pseudo-time `tstar`:
`(1-tstar)*agradphi_bot[i] + tstar*agradphi_top[i]`. -/
def TentDataFE.gradphi {DIM nels nfac : ℕ} (fd : TentDataFE DIM nels nfac) (tstar : Scal)
    (i : Fin nels) : PntVals DIM (fd.nq i) :=
  fun d k => (1 - tstar) * fd.agradphi_bot i d k + tstar * fd.agradphi_top i d k

/-- One pass of the element loop of `Cyl2Tent`. The evaluation and the transposition run
component by component on the rule `simd_mir.IR()`. -/
def Cyl2Tent.element {DIM COMP ECOMP : ℕ} (law : T_ConservationLaw DIM COMP ECOMP)
    (tent : Tent DIM) (fd : TentDataFE DIM tent.nels tent.nfac) (tstar : Scal)
    (uhat : FlatMat COMP) (i : Fin tent.nels) (u : FlatMat COMP) : Run (FlatMat COMP) :=
  let fel := fd.fei i
  let simd_mir := fd.miri i
  let dn := fd.ranges i
  let u_ipts := fel.Evaluate simd_mir.IR (uhat.Rows dn fel.ndof)
  let gradphi_mat := fd.gradphi tstar i
  let u_ipts1 := law.eq.InverseMap simd_mir gradphi_mat u_ipts
  let u_ipts2 : PntVals COMP (fd.nq i) := fun c k => u_ipts1 c k * simd_mir.weight k
  let u1 := u.setRows dn fel.ndof (fun _ _ => 0)
  let u2 := u1.setRows dn fel.ndof (fel.AddTrans simd_mir.IR u_ipts2 (u1.Rows dn fel.ndof))
  SolveM law.ma tent i u2 dn

/-- `Cyl2Tent(tent, tstar, uhat, u, lh)`. -/
def Cyl2Tent {DIM COMP ECOMP : ℕ} (law : T_ConservationLaw DIM COMP ECOMP) (tent : Tent DIM)
    (tstar : Scal) (uhat u : FlatMat COMP) : Run (FlatMat COMP) :=
  match tent.fedata with
  | none => ⟨some Exception.fedataNotSet, u⟩
  | some fd =>
      runLoop (List.finRange tent.nels) (fun i u => Cyl2Tent.element law tent fd tstar uhat i u) u

/-- The point values `temp` of `ApplyM1` on element `i`:
`temp(l,j) = Σ_k graddelta(k,j) * weight(j) * flux(COMP*k+l, j)`. -/
def ApplyM1.pointValues {DIM COMP ECOMP nels nfac : ℕ} (law : T_ConservationLaw DIM COMP ECOMP)
    (fd : TentDataFE DIM nels nfac) (u : FlatMat COMP) (i : Fin nels) : PntVals COMP (fd.nq i) :=
  let fel := fd.fei i
  let simd_ir := fd.iri i
  let dn := fd.ranges i
  let graddelta_mat : PntVals DIM (fd.nq i) := fun k j =>
    fd.agradphi_top i k j - fd.agradphi_bot i k j
  let u_ipts := fel.Evaluate simd_ir (u.Rows dn fel.ndof)
  let simd_mir := fd.miri i
  let flux := law.eq.Flux simd_mir u_ipts
  fun l j => ∑ k : Fin DIM, graddelta_mat k j * simd_mir.weight j * flux (COMP * k.val + l.val) j

/-- One pass of the element loop of `ApplyM1`. -/
def ApplyM1.element {DIM COMP ECOMP : ℕ} (law : T_ConservationLaw DIM COMP ECOMP)
    (tent : Tent DIM) (fd : TentDataFE DIM tent.nels tent.nfac) (u : FlatMat COMP)
    (i : Fin tent.nels) (res : FlatMat COMP) : Run (FlatMat COMP) :=
  let fel := fd.fei i
  let simd_ir := fd.iri i
  let dn := fd.ranges i
  let temp := ApplyM1.pointValues law fd u i
  let res1 := res.setRows dn fel.ndof (fel.AddTrans simd_ir temp (res.Rows dn fel.ndof))
  SolveM law.ma tent i res1 dn

/-- `ApplyM1(tent, tstar, u, res, lh)`. -/
def ApplyM1 {DIM COMP ECOMP : ℕ} (law : T_ConservationLaw DIM COMP ECOMP) (tent : Tent DIM)
    (_tstar : Scal) (u res : FlatMat COMP) : Run (FlatMat COMP) :=
  match tent.fedata with
  | none => ⟨some Exception.fedataNotSet, res⟩
  | some fd =>
      runLoop (List.finRange tent.nels) (fun i res => ApplyM1.element law tent fd u i res)
        (fun _ _ => 0)

/-- The point values `res` of `Tent2Cyl` on element `i`:
`res(l,j) = u_ipts(l,j) * weight(j) - Σ_k gradphi(k,j) * weight(j) * flux(COMP*k+l, j)`. -/
def Tent2Cyl.pointValues {DIM COMP ECOMP nels nfac : ℕ} (law : T_ConservationLaw DIM COMP ECOMP)
    (fd : TentDataFE DIM nels nfac) (tstar : Scal) (u : FlatMat COMP) (i : Fin nels) :
    PntVals COMP (fd.nq i) :=
  let fel := fd.fei i
  let simd_ir := fd.iri i
  let dn := fd.ranges i
  let gradphi_mat := fd.gradphi tstar i
  let u_ipts := fel.Evaluate simd_ir (u.Rows dn fel.ndof)
  let simd_mir := fd.miri i
  let flux := law.eq.Flux simd_mir u_ipts
  fun l j => u_ipts l j * simd_mir.weight j -
    ∑ k : Fin DIM, gradphi_mat k j * simd_mir.weight j * flux (COMP * k.val + l.val) j

/-- One pass of the element loop of `Tent2Cyl`. -/
def Tent2Cyl.element {DIM COMP ECOMP : ℕ} (law : T_ConservationLaw DIM COMP ECOMP)
    (tent : Tent DIM) (fd : TentDataFE DIM tent.nels tent.nfac) (tstar : Scal) (u : FlatMat COMP)
    (solvemass : Bool) (i : Fin tent.nels) (uhat : FlatMat COMP) : Run (FlatMat COMP) :=
  let fel := fd.fei i
  let simd_ir := fd.iri i
  let dn := fd.ranges i
  let res := Tent2Cyl.pointValues law fd tstar u i
  let uhat1 := uhat.setRows dn fel.ndof (fel.AddTrans simd_ir res (uhat.Rows dn fel.ndof))
  if solvemass then SolveM law.ma tent i uhat1 dn else ⟨none, uhat1⟩

/-- `Tent2Cyl(tent, tstar, u, uhat, solvemass, lh)`. -/
def Tent2Cyl {DIM COMP ECOMP : ℕ} (law : T_ConservationLaw DIM COMP ECOMP) (tent : Tent DIM)
    (tstar : Scal) (u uhat : FlatMat COMP) (solvemass : Bool) : Run (FlatMat COMP) :=
  match tent.fedata with
  | none => ⟨some Exception.fedataNotSet, uhat⟩
  | some fd =>
      runLoop (List.finRange tent.nels)
        (fun i uhat => Tent2Cyl.element law tent fd tstar u solvemass i uhat) (fun _ _ => 0)

/-! ### `CalcEntropyResidualTent` -/

/-- What a fresh allocation on the `LocalHeap` holds before it is written: by allocation
site, pass of the enclosing loop, row and column. -/
abbrev LocalHeap := ℕ → ℕ → ℕ → ℕ → Scal

/-- One pass of the loop over the points `k` in the volume part of
`CalcEntropyResidualTent`: scale `Ei(0,k)` by the weight and `Fi(l,k)`, `l < DIM`, by
`-weight * di(k)`, then throw if `ECOMP > 1`. -/
def CalcEntropyResidualTent.scalePoint {DIM n : ℕ} (ECOMP : ℕ)
    (mir : SIMD_MappedIntegrationRule DIM n) (di : Fin n → Scal) (k : Fin n)
    (EF : TallVals n × TallVals n) : Run (TallVals n × TallVals n) :=
  let Ei : TallVals n := fun r q => if r = 0 ∧ q = k then EF.1 r q * mir.weight k else EF.1 r q
  let fac := -1 * mir.weight k * di k
  let Fi : TallVals n := fun r q => if r < DIM ∧ q = k then EF.2 r q * fac else EF.2 r q
  if 1 < ECOMP then ⟨some Exception.moreThanOneEntropy, (Ei, Fi)⟩ else ⟨none, (Ei, Fi)⟩

/-- Volume part of `CalcEntropyResidualTent` for element `i`. `Ei` and `Fi` are fresh
allocations handed to `CalcEntropy`. -/
def CalcEntropyResidualTent.volume {DIM COMP ECOMP nels nfac : ℕ}
    (law : T_ConservationLaw DIM COMP ECOMP) (fd : TentDataFE DIM nels nfac)
    (u ut : FlatMat COMP) (tstar : Scal) (lh : LocalHeap) (i : Fin nels)
    (res : FlatMat ECOMP) : Run (FlatMat ECOMP) :=
  let fel := fd.fei i
  let simd_ir := fd.iri i
  let dn := fd.ranges i
  let ui := fel.Evaluate simd_ir (u.Rows dn fel.ndof)
  let uti := fel.Evaluate simd_ir (ut.Rows dn fel.ndof)
  let adu : Fin COMP → Fin (fd.nq i) → AutoDiff1 := fun k l => ⟨ui k l, uti k l⟩
  let simd_mir := fd.miri i
  let gradbot := fd.agradphi_bot i
  let gradtop := fd.agradphi_top i
  let gradphi_mat : Fin DIM → Fin (fd.nq i) → AutoDiff1 := fun k l =>
    ⟨(1 - tstar) * gradbot k l + tstar * gradtop k l, gradtop k l - gradbot k l⟩
  let adu1 := law.eq.InverseMapAD simd_mir gradphi_mat adu
  let Ei0 : TallVals (fd.nq i) := fun r q => lh 0 i.val r q.val
  let Fi0 : TallVals (fd.nq i) := fun r q => lh 1 i.val r q.val
  let EF := law.eq.CalcEntropy adu1 gradphi_mat (Ei0, Fi0)
  let di := fd.adelta i
  match runLoop (List.finRange (fd.nq i))
      (fun k EF => CalcEntropyResidualTent.scalePoint ECOMP simd_mir di k EF) EF with
  | ⟨some e, _⟩ => ⟨some e, res⟩
  | ⟨none, (Ei, Fi)⟩ =>
      let res1 := res.setRows dn fel.ndof
        (fel.AddTrans simd_ir (fun c q => Ei c.val q) (res.Rows dn fel.ndof))
      if h : 0 < ECOMP then
        ⟨none, res1.setColRange ⟨0, h⟩ dn fel.ndof
          (fel.AddGradTrans1 simd_mir (fun d q => Fi d.val q) (res1.ColRange ⟨0, h⟩ dn fel.ndof))⟩
      else ⟨none, res1⟩

/-- Inner facet `i` of `CalcEntropyResidualTent`; the traces are taken from `temp`. -/
def CalcEntropyResidualTent.innerFacet {DIM COMP ECOMP nels nfac : ℕ}
    (law : T_ConservationLaw DIM COMP ECOMP) (fd : TentDataFE DIM nels nfac)
    (temp : FlatMat COMP) (lh : LocalHeap) (i : Fin nfac) (elnr1 elnr2 : Fin nels)
    (res : FlatMat ECOMP) : FlatMat ECOMP :=
  let fel1 := fd.fei elnr1
  let fel2 := fd.fei elnr2
  let dn1 := fd.ranges elnr1
  let dn2 := fd.ranges elnr2
  let simd_ir_facet_vol1 := (fd.firi i).1
  let simd_ir_facet_vol2 := (fd.firi i).2
  let u1 := fel1.Evaluate simd_ir_facet_vol1 (temp.Rows dn1 fel1.ndof)
  let u2 := fel2.Evaluate simd_ir_facet_vol2 (temp.Rows dn2 fel2.ndof)
  let Fn0 : PntVals ECOMP (fd.nqf i) := fun c q => lh 3 i.val c.val q.val
  let Fn := law.eq.EntropyFlux u1 u2 (fd.anormals i) Fn0
  let simd_mir := fd.mfiri1 i
  let di := fd.adelta_facet i
  let Fn1 : PntVals ECOMP (fd.nqf i) := fun c j => Fn c j * (di j * simd_mir.weight j)
  let res1 := res.setRows dn1 fel1.ndof
    (fel1.AddTrans simd_ir_facet_vol1 Fn1 (res.Rows dn1 fel1.ndof))
  let Fn2 : PntVals ECOMP (fd.nqf i) := fun c j => Fn1 c j * -1
  res1.setRows dn2 fel2.ndof (fel2.AddTrans simd_ir_facet_vol2 Fn2 (res1.Rows dn2 fel2.ndof))

/-- Boundary dispatch of `CalcEntropyResidualTent`: the exterior trace `u2` for condition
number `bc`, or the exception thrown. -/
def CalcEntropyResidualTent.boundaryTrace {DIM COMP ECOMP nels nfac : ℕ}
    (law : T_ConservationLaw DIM COMP ECOMP) (fd : TentDataFE DIM nels nfac) (u0 : FlatMat COMP)
    (i : Fin nfac) (elnr1 : Fin nels) (u1 : PntVals COMP (fd.nqf i)) (bc : ℤ) :
    Except Exception (PntVals COMP (fd.nqf i)) :=
  let fel1 := fd.fei elnr1
  let dn1 := fd.ranges elnr1
  let simd_ir_facet_vol1 := (fd.firi i).1
  let simd_mir1 := fd.mfiri1 i
  if bc = 0 then
    Except.ok u1
  else if bc = 1 then
    Except.ok (law.eq.u_reflect simd_mir1 u1 (fd.anormals i))
  else if bc = 2 then
    Except.ok (fel1.Evaluate simd_ir_facet_vol1 (u0.Rows dn1 fel1.ndof))
  else if bc = 3 then
    match law.eq.u_transparent simd_mir1 u1 (fd.anormals i) with
    | Except.ok u2 => Except.ok u2
    | Except.error msg => Except.error (Exception.equation msg)
  else
    Except.error (Exception.noBoundaryCondition (bc + 1))

/-- Boundary facet `i` of `CalcEntropyResidualTent` with neighbour `elnr1`; `facetnr` is
`tent.internal_facets[i]`. -/
def CalcEntropyResidualTent.boundaryFacet {DIM COMP ECOMP nels nfac : ℕ}
    (law : T_ConservationLaw DIM COMP ECOMP) (fd : TentDataFE DIM nels nfac)
    (temp u0 : FlatMat COMP) (lh : LocalHeap) (i : Fin nfac) (facetnr : ℕ) (elnr1 : Fin nels)
    (res : FlatMat ECOMP) : Run (FlatMat ECOMP) :=
  let fel1 := fd.fei elnr1
  let dn1 := fd.ranges elnr1
  let simd_ir_facet_vol1 := (fd.firi i).1
  let u1 := fel1.Evaluate simd_ir_facet_vol1 (temp.Rows dn1 fel1.ndof)
  let simd_mir1 := fd.mfiri1 i
  let bc := law.bcnr facetnr
  match CalcEntropyResidualTent.boundaryTrace law fd u0 i elnr1 u1 bc with
  | Except.error e => ⟨some e, res⟩
  | Except.ok u2 =>
      let Fn0 : PntVals ECOMP (fd.nqf i) := fun c q => lh 4 i.val c.val q.val
      let Fn := law.eq.EntropyFlux u1 u2 (fd.anormals i) Fn0
      let di := fd.adelta_facet i
      let Fn1 : PntVals ECOMP (fd.nqf i) := fun c j => Fn c j * (di j * simd_mir1.weight j)
      if bc ≠ 1 then
        ⟨none, res.setRows dn1 fel1.ndof
          (fel1.AddTrans simd_ir_facet_vol1 Fn1 (res.Rows dn1 fel1.ndof))⟩
      else ⟨none, res⟩

/-- One pass of the facet loop of `CalcEntropyResidualTent`. -/
def CalcEntropyResidualTent.facet {DIM COMP ECOMP : ℕ} (law : T_ConservationLaw DIM COMP ECOMP)
    (tent : Tent DIM) (fd : TentDataFE DIM tent.nels tent.nfac) (temp u0 : FlatMat COMP)
    (lh : LocalHeap) (i : Fin tent.nfac) (res : FlatMat ECOMP) : Run (FlatMat ECOMP) :=
  let elnr1 := (fd.felpos i).1
  match (fd.felpos i).2 with
  | some elnr2 => ⟨none, CalcEntropyResidualTent.innerFacet law fd temp lh i elnr1 elnr2 res⟩
  | none =>
      CalcEntropyResidualTent.boundaryFacet law fd temp u0 lh i (tent.internal_facets i) elnr1 res

/-- `CalcEntropyResidualTent(tent, u, ut, res, u0, tstar, lh)`. The matrix `temp` is a fresh
allocation filled by `Cyl2Tent(tent, tstar, u, temp, lh)`. -/
def CalcEntropyResidualTent {DIM COMP ECOMP : ℕ} (law : T_ConservationLaw DIM COMP ECOMP)
    (tent : Tent DIM) (u ut : FlatMat COMP) (res : FlatMat ECOMP) (u0 : FlatMat COMP)
    (tstar : Scal) (lh : LocalHeap) : Run (FlatMat ECOMP) :=
  match tent.fedata with
  | none => ⟨some Exception.fedataNotSet, res⟩
  | some fd =>
      match runLoop (List.finRange tent.nels)
          (fun i res => CalcEntropyResidualTent.volume law fd u ut tstar lh i res)
          (fun _ _ => 0) with
      | ⟨some e, res1⟩ => ⟨some e, res1⟩
      | ⟨none, res1⟩ =>
          let temp0 : FlatMat COMP := fun r c => lh 2 0 r c.val
          match Cyl2Tent law tent tstar u temp0 with
          | ⟨some e, _⟩ => ⟨some e, res1⟩
          | ⟨none, temp⟩ =>
              match runLoop (List.finRange tent.nfac)
                  (fun i res => CalcEntropyResidualTent.facet law tent fd temp u0 lh i res)
                  res1 with
              | ⟨some e, res2⟩ => ⟨some e, res2⟩
              | ⟨none, res2⟩ =>
                  runLoop (List.finRange tent.nels)
                    (fun i res => SolveM law.ma tent i res (fd.ranges i)) res2

/-! ### `CalcViscosityCoefficientTent` -/

/-- What `CalcViscosityCoefficientTent` writes: the global vector `nu` (by mesh element
number) and its local `nu_tent`, which it returns. -/
structure ViscCoeffOut where
  nu : ℕ → Scal
  nu_tent : Scal

/-- "clear overhead": the entries of the point values whose flat point number is
`nip` or more are set to zero. -/
def clearOverhead {W n : ℕ} (nip : ℕ) (vals : PntVals W n) : PntVals W n :=
  fun c q => if nip ≤ q.val then 0 else vals c q

/-- The values handed to `InverseMap` and `CalcViscCoeffEl` for element `i`: `ui`
(evaluated, overhead cleared) and `resi` (evaluated, divided by `di`, overhead cleared). -/
def CalcViscosityCoefficientTent.pointValues {DIM COMP ECOMP nels nfac : ℕ}
    (fd : TentDataFE DIM nels nfac) (u : FlatMat COMP) (res : FlatMat ECOMP) (i : Fin nels) :
    PntVals COMP (fd.nq i) × PntVals ECOMP (fd.nq i) :=
  let fel := fd.fei i
  let simd_ir := fd.iri i
  let dn := fd.ranges i
  let ui := fel.Evaluate simd_ir (u.Rows dn fel.ndof)
  let resi := fel.Evaluate simd_ir (res.Rows dn fel.ndof)
  let di := fd.adelta i
  let resi1 : PntVals ECOMP (fd.nq i) := fun c k => resi c k / di k
  (clearOverhead simd_ir.nip ui, clearOverhead simd_ir.nip resi1)

/-- One pass of the element loop of `CalcViscosityCoefficientTent`. -/
def CalcViscosityCoefficientTent.element {DIM COMP ECOMP : ℕ}
    (law : T_ConservationLaw DIM COMP ECOMP) (tent : Tent DIM)
    (fd : TentDataFE DIM tent.nels tent.nfac) (u : FlatMat COMP) (res : FlatMat ECOMP)
    (tstar : Scal) (i : Fin tent.nels) (st : ViscCoeffOut) : ViscCoeffOut :=
  let ei := tent.els i
  let fel := fd.fei i
  let simd_mir := fd.miri i
  let hi0 := law.pow (fd.measure0 i / (DIM : Scal)) (1 / (DIM : Scal))
  let hi := if 0 < fel.order then hi0 / (fel.order : Scal) else hi0
  let vals := CalcViscosityCoefficientTent.pointValues fd u res i
  let gradphi_mat := fd.gradphi tstar i
  let ui := law.eq.InverseMap simd_mir gradphi_mat vals.1
  let coeff := law.eq.CalcViscCoeffEl simd_mir ui vals.2 hi (st.nu ei)
  let nu := Function.update st.nu ei coeff
  ⟨nu, if nu ei > st.nu_tent then nu ei else st.nu_tent⟩

/-- `CalcViscosityCoefficientTent(tent, u, res, tstar, lh)`, run on the global `nu`; the
value returned is `nu_tent` of the outcome. -/
def CalcViscosityCoefficientTent {DIM COMP ECOMP : ℕ} (law : T_ConservationLaw DIM COMP ECOMP)
    (tent : Tent DIM) (u : FlatMat COMP) (res : FlatMat ECOMP) (tstar : Scal) (nu : ℕ → Scal) :
    Run ViscCoeffOut :=
  match tent.fedata with
  | none => ⟨some Exception.fedataNotSet, ⟨nu, 0⟩⟩
  | some fd =>
      ⟨none, (List.finRange tent.nels).foldl
        (fun st i => CalcViscosityCoefficientTent.element law tent fd u res tstar i st) ⟨nu, 0⟩⟩

/-! ### Quantities of the statements -/

/-- The flat matrix that holds the block `inc` on the rows of the range that starts at
`first` and zero elsewhere: what an `AddTrans` into `mat.Rows(dn)` adds to `mat`. -/
def rowInc {W : ℕ} (first n : ℕ) (inc : Block n W) : FlatMat W :=
  fun r c => if h : first ≤ r ∧ r < first + n then inc ⟨r - first, by omega⟩ c else 0

/-- The discrete gradient of the tent height tested with shape function `k` of element `e`
in direction `j`: the volume sum `Σ_q w(q)·δ_e(q)·∂_jφ_k(x_q)` minus the facet sums
`Σ_q δ_f(q)·w_f(q)·n_j(q)·φ_k(x_q)` over the facets of the tent whose first neighbour is
`e`, plus the same sums over the facets whose second neighbour is `e`. -/
def heightDefect {DIM nels nfac : ℕ} (fd : TentDataFE DIM nels nfac) (e : Fin nels)
    (k : Fin (fd.ndof e)) (j : Fin DIM) : Scal :=
  (∑ q, (fd.fei e).mappedDShape (fd.miri e) q k j * ((fd.miri e).weight q * fd.adelta e q))
  - (∑ f, if (fd.felpos f).1 = e then
      ∑ q, (fd.fei e).shape ((fd.firi f).1.pt q) k *
        (fd.anormals f j q * (fd.adelta_facet f q * (fd.mfiri1 f).weight q)) else 0)
  + (∑ f, if (fd.felpos f).2 = some e then
      ∑ q, (fd.fei e).shape ((fd.firi f).2.pt q) k *
        (fd.anormals f j q * (fd.adelta_facet f q * (fd.mfiri1 f).weight q)) else 0)

/-- The rules of the tent satisfy the discrete divergence theorem for the tent height:
on every element `e`, for every shape function `k` and direction `j`, the volume sum
`Σ_q w(q)·δ_e(q)·∂_jφ_k(x_q)` minus the facet sums of `δ_f·w_f·n_j·φ_k` (with the sign of
the side) is `-Σ_q (∂_jδ)(q)·w(q)·φ_k(x_q)`, where `∂_jδ = gradphi_top - gradphi_bot` and
`w` is the weight of the mapped volume rule. -/
def HeightGreen {DIM nels nfac : ℕ} (fd : TentDataFE DIM nels nfac) : Prop :=
  ∀ (e : Fin nels) (k : Fin (fd.ndof e)) (j : Fin DIM),
    heightDefect fd e k j =
      -∑ q, (fd.agradphi_top e j q - fd.agradphi_bot e j q) * (fd.miri e).weight q *
        (fd.fei e).shape ((fd.iri e).pt q) k

/-- The coefficients `D⁻¹ · Bᵀ · diag(w) · y` of the point values `y` on element `i`. -/
def projBlock {DIM nels nfac W : ℕ} (fd : TentDataFE DIM nels nfac) (i : Fin nels)
    (y : PntVals W (fd.nq i)) : Block (fd.ndof i) W :=
  projMat fd i * Matrix.of (fun q c => y c q)

/-- The point values `u - gradphi·Flux(u)` that `Tent2Cyl` projects, before the weight. -/
def cylValues {DIM COMP ECOMP nels nfac : ℕ} (law : T_ConservationLaw DIM COMP ECOMP)
    (fd : TentDataFE DIM nels nfac) (tstar : Scal) (i : Fin nels) (v : PntVals COMP (fd.nq i)) :
    PntVals COMP (fd.nq i) :=
  fun l j => v l j - ∑ k : Fin DIM, fd.gradphi tstar i k j *
    law.eq.Flux (fd.miri i) v (COMP * k.val + l.val) j

/-- The fedata is as the finite element library builds it: the mapped weight is the
weight of the rule times the measure, the mapped volume rule is built on the volume rule,
the measure does not vanish, it is constant on an element that is not curved, and the dof
ranges of different elements are disjoint. -/
structure TentDataFE.Consistent {DIM : ℕ} (ma : MeshAccess) (tent : Tent DIM)
    (fd : TentDataFE DIM tent.nels tent.nfac) : Prop where
  weight_eq : ∀ i q, (fd.miri i).weight q = (fd.iri i).weight q * (fd.miri i).measure q
  IR_eq : ∀ i, (fd.miri i).IR = fd.iri i
  measure_ne : ∀ i q, (fd.miri i).measure q ≠ 0
  measure_const : ∀ i, ma.is_curved (tent.els i) = false →
    ∀ q, (fd.miri i).measure q = fd.measure0 i
  ranges_disjoint : ∀ i j, i ≠ j →
    fd.ranges i + fd.ndof i ≤ fd.ranges j ∨ fd.ranges j + fd.ndof j ≤ fd.ranges i

/-! ### Concrete data used to evaluate the kernels -/

/-- A mapped rule in one space dimension with the given measures; the mapped weight is
`weight · measure`, the Jacobian is the measure. -/
def mkMir {n : ℕ} (ir : SIMD_IntegrationRule 1 n) (measure : Fin n → Scal) :
    SIMD_MappedIntegrationRule 1 n where
  IR := ir
  measure := measure
  weight := fun q => ir.weight q * measure q
  jacobidet := measure
  jacinv := fun q _ _ => 1 / measure q
  normals := fun _ _ => 1

/-- Fedata of a tent that consists of one element and has no facets. -/
def mkFedata1 (fel : DGFiniteElement 1) (n : ℕ) (hn : 0 < n) (ir : SIMD_IntegrationRule 1 n)
    (measure : Fin n → Scal) (gradbot gradtop : PntVals 1 n) (delta : Fin n → Scal) :
    TentDataFE 1 1 0 where
  fei := fun _ => fel
  nq := fun _ => n
  nq_pos := fun _ => hn
  iri := fun _ => ir
  miri := fun _ => mkMir ir measure
  trafoi := fun _ => ⟨fun _ _ => ⟨n, hn, mkMir ir measure⟩⟩
  ranges := fun _ => 0
  agradphi_bot := fun _ => gradbot
  agradphi_top := fun _ => gradtop
  adelta := fun _ => delta
  felpos := fun f => f.elim0
  nqf := fun _ => 1
  nqf_pos := fun _ => Nat.one_pos
  firi := fun f => f.elim0
  mfiri1 := fun f => f.elim0
  mfiri2 := fun f => f.elim0
  anormals := fun f => f.elim0
  adelta_facet := fun f => f.elim0

/-- The tent with one element (mesh element `0`) and no facets around `mkFedata1`. -/
@[reducible] def mkTent1 (fd : TentDataFE 1 1 0) : Tent 1 where
  nels := 1
  els := fun _ => 0
  nfac := 0
  internal_facets := fun f => f.elim0
  timebot := 0
  tbot := 0
  ttop := 1
  fedata := some fd

/-- The constant element: one dof, shape function `1`, diagonal mass `1`. -/
def felConst : DGFiniteElement 1 where
  ndof := 1
  order := 0
  diagmass := fun _ => 1
  shape := fun _ _ => 1
  dshape := fun _ _ _ => 0

/-- One-point rule of weight `1` at `x = 1/2`. -/
def irMid : SIMD_IntegrationRule 1 1 where
  nip := 1
  pt := fun _ _ => 1 / 2
  weight := fun _ => 1

/-- Two-point rule with weights `1/2`, `1/2` at `x = 0` and `x = 1`. -/
def irTrap : SIMD_IntegrationRule 1 2 where
  nip := 2
  pt := fun q _ => if q = 0 then 0 else 1
  weight := fun _ => 1 / 2

/-- A mesh all of whose elements are straight; it has no boundary elements. -/
def meshStraight : MeshAccess where
  is_curved := fun _ => false
  GetElFacets := fun _ => []
  GetNFacets := 0
  GetNSE := 0
  GetElFacetsBND := fun _ => []
  GetElIndexBND := fun _ => 0

/-- A mesh all of whose elements are curved; it has no boundary elements. -/
def meshCurved : MeshAccess where
  is_curved := fun _ => true
  GetElFacets := fun _ => []
  GetNFacets := 0
  GetNSE := 0
  GetElFacetsBND := fun _ => []
  GetElIndexBND := fun _ => 0

/-- Element data: constant element, one-point rule, measure `2`, tent height `3`. -/
def fdStraight : TentDataFE 1 1 0 :=
  mkFedata1 felConst 1 Nat.one_pos irMid (fun _ => 2) (fun _ _ => 0) (fun _ _ => 0) (fun _ => 3)

/-- Element data: constant element with the two-point rule and measures `1` and `2`:
the rule integrates the mass `1` of the basis exactly but has more points than the
element has dofs. -/
def fdCurved : TentDataFE 1 1 0 :=
  mkFedata1 felConst 2 (by decide) irTrap (fun q => if q = 0 then 1 else 2)
    (fun _ _ => 0) (fun _ _ => 0) (fun _ => 1)

/-- The coefficient matrix with one row holding `v`, viewed from row `0`. -/
def oneRow (v : Scal) : FlatMat 1 := fun r _ => if r = 0 then v else 0

/-! ### Concrete tents in one space dimension -/

/-- The linear element on the unit interval: shape functions `1` and `2ξ - 1`, diagonal
mass `(1, 1/3)`. -/
def felP1 : DGFiniteElement 1 where
  ndof := 2
  order := 1
  diagmass := fun k => if k.val = 0 then 1 else 1 / 3
  shape := fun x k => if k.val = 0 then 1 else 2 * x 0 - 1
  dshape := fun _ k _ => if k.val = 0 then 0 else 2

/-- Simpson's rule on the unit interval: points `0, 1/2, 1`, weights `1/6, 2/3, 1/6`. -/
def irSimpson : SIMD_IntegrationRule 1 3 where
  nip := 3
  pt := fun q _ => if q.val = 0 then 0 else if q.val = 1 then 1 / 2 else 1
  weight := fun q => if q.val = 1 then 2 / 3 else 1 / 6

/-- The rule with the single point `x` and weight `1` (a facet of an interval). -/
def irPoint (x : Scal) : SIMD_IntegrationRule 1 1 where
  nip := 1
  pt := fun _ _ => x
  weight := fun _ => 1

/-- Fedata of a tent of two unit intervals `[0,1]`, `[1,2]` around the vertex `x = 1`, with
the facet `x = 1` between them (point `ξ = 1` of the first, `ξ = 0` of the second element,
normal `+1`, tent height `1` on the facet). -/
def mkFedata2 (fel : DGFiniteElement 1) (n : ℕ) (hn : 0 < n) (ir : SIMD_IntegrationRule 1 n)
    (delta1 delta2 : Fin n → Scal) (gradbot gradtop : Fin 2 → PntVals 1 n) :
    TentDataFE 1 2 1 where
  fei := fun _ => fel
  nq := fun _ => n
  nq_pos := fun _ => hn
  iri := fun _ => ir
  miri := fun _ => mkMir ir (fun _ => 1)
  trafoi := fun _ => ⟨fun _ _ => ⟨n, hn, mkMir ir (fun _ => 1)⟩⟩
  ranges := fun i => i.val * fel.ndof
  agradphi_bot := gradbot
  agradphi_top := gradtop
  adelta := fun i => if i.val = 0 then delta1 else delta2
  felpos := fun _ => (0, some 1)
  nqf := fun _ => 1
  nqf_pos := fun _ => Nat.one_pos
  firi := fun _ => (irPoint 1, irPoint 0)
  mfiri1 := fun _ => mkMir (irPoint 1) (fun _ => 1)
  mfiri2 := fun _ => mkMir (irPoint 0) (fun _ => 1)
  anormals := fun _ _ _ => 1
  adelta_facet := fun _ _ => 1

/-- The tent of two elements (mesh elements `0`, `1`) and one facet (mesh facet `1`). -/
@[reducible] def mkTent2 (fd : Option (TentDataFE 1 2 1)) : Tent 1 where
  nels := 2
  els := fun i => i.val
  nfac := 1
  internal_facets := fun _ => 1
  timebot := 0
  tbot := 0
  ttop := 1
  fedata := fd

/-- Fedata of a tent of the unit interval `[0,1]` with the boundary facet `x = 1` (point
`ξ = 1`, normal `+1`, tent height `delta_f` on the facet). -/
def mkFedataB (fel : DGFiniteElement 1) (n : ℕ) (hn : 0 < n) (ir : SIMD_IntegrationRule 1 n)
    (delta : Fin n → Scal) (delta_f : Scal) : TentDataFE 1 1 1 where
  fei := fun _ => fel
  nq := fun _ => n
  nq_pos := fun _ => hn
  iri := fun _ => ir
  miri := fun _ => mkMir ir (fun _ => 1)
  trafoi := fun _ => ⟨fun _ _ => ⟨n, hn, mkMir ir (fun _ => 1)⟩⟩
  ranges := fun _ => 0
  agradphi_bot := fun _ _ _ => 0
  agradphi_top := fun _ _ _ => 0
  adelta := fun _ => delta
  felpos := fun _ => (0, none)
  nqf := fun _ => 1
  nqf_pos := fun _ => Nat.one_pos
  firi := fun _ => (irPoint 1, irPoint 1)
  mfiri1 := fun _ => mkMir (irPoint 1) (fun _ => 1)
  mfiri2 := fun _ => mkMir (irPoint 1) (fun _ => 1)
  anormals := fun _ _ _ => 1
  adelta_facet := fun _ _ => delta_f

/-- The tent of one element (mesh element `0`) and one facet (mesh facet `1`). -/
@[reducible] def mkTentB (fd : Option (TentDataFE 1 1 1)) : Tent 1 where
  nels := 1
  els := fun _ => 0
  nfac := 1
  internal_facets := fun _ => 1
  timebot := 0
  tbot := 0
  ttop := 1
  fedata := fd

/-- Linear advection `u_t + u_x = 0` in one dimension: `Flux(u) = u`, the upwind
numerical flux, `InverseMap` dividing by `1 - gradphi`, the reflection `u ↦ -u`, the
entropy `u²/2`; `u_transparent` and `CalcViscCoeffEl` are the fallbacks of the base
class. -/
def eqAdvection : Equation 1 1 1 where
  Flux := fun _ u _ q => u 0 q
  NumFlux := fun _ u1 u2 n c q => (if 0 ≤ n 0 q then u1 c q else u2 c q) * n 0 q
  InverseMap := fun _ grad u c q => u c q / (1 - grad 0 q)
  InverseMapAD := fun _ grad u c q =>
    ⟨(u c q).Value / (1 - (grad 0 q).Value),
      ((u c q).DValue + (grad 0 q).DValue * ((u c q).Value / (1 - (grad 0 q).Value))) /
        (1 - (grad 0 q).Value)⟩
  u_reflect := fun _ u _ c q => -u c q
  u_transparent := T_ConservationLaw.u_transparent
  CalcEntropy := fun adu _ _ =>
    (fun _ q => (adu 0 q).Value * (adu 0 q).DValue, fun _ q => (adu 0 q).Value ^ 2 / 2)
  EntropyFlux := fun u1 _ n _ _ q => u1 0 q ^ 2 / 2 * n 0 q
  CalcViscCoeffEl := T_ConservationLaw.CalcViscCoeffEl

/-- The advection law on a straight mesh where every boundary facet carries the
condition number `bc` and one coefficient function, the constant `7`, is registered,
for the condition number `4`. -/
def lawAdvection (bc : ℤ) : T_ConservationLaw 1 1 1 where
  eq := eqAdvection
  ma := meshStraight
  bcnr := fun _ => bc
  cf_bnd := fun b => if b = 4 then some ⟨fun _ _ _ => 7⟩ else none
  order := 1
  lanes := 1
  pow := fun x _ => x

/-- The constant element on the unit interval with the boundary facet `x = 1`: one-point
rule, tent height `1` in the element and `2` on the facet. -/
def fdBoundary : TentDataFE 1 1 1 :=
  mkFedataB felConst 1 Nat.one_pos irMid (fun _ => 1) 2

/-- The tent of two unit intervals around `x = 1` with linear elements, Simpson's rule and
the hat-shaped tent height `δ(x) = 1 - |x - 1|` (values `0, 1/2, 1` and `1, 1/2, 0` at the
points, `1` on the facet); the bottom front is flat, the top front has gradient `+1` and
`-1`. -/
def fdHat : TentDataFE 1 2 1 :=
  mkFedata2 felP1 3 (by decide) irSimpson
    (fun q => if q.val = 0 then 0 else if q.val = 1 then 1 / 2 else 1)
    (fun q => if q.val = 0 then 1 else if q.val = 1 then 1 / 2 else 0)
    (fun _ _ _ => 0) (fun i _ _ => if i.val = 0 then 1 else -1)

/-- The coefficients of the constant function `c` on the tent of two linear elements:
rows `0` and `2` hold `c`, rows `1` and `3` hold `0`. -/
def constP1 (c : Scal) : FlatMat 1 := fun r _ => if r = 0 ∨ r = 2 then c else 0

/-- The constant element on the unit interval with the boundary facet `x = 1`: one-point
rule, tent height `1` in the element and `0` on the facet. -/
def fdBoundary0 : TentDataFE 1 1 1 :=
  mkFedataB felConst 1 Nat.one_pos irMid (fun _ => 1) 0

/-- The advection law (outflow on every boundary facet) on a mesh whose elements are all
curved. -/
def lawAdvectionCurved : T_ConservationLaw 1 1 1 :=
  { lawAdvection 0 with ma := meshCurved }

/-- The advection equation of `eqAdvection` declared with two entropy components. -/
def eqAdvection2 : Equation 1 1 2 where
  Flux := fun _ u _ q => u 0 q
  NumFlux := fun _ u1 u2 n c q => (if 0 ≤ n 0 q then u1 c q else u2 c q) * n 0 q
  InverseMap := fun _ grad u c q => u c q / (1 - grad 0 q)
  InverseMapAD := fun _ grad u c q =>
    ⟨(u c q).Value / (1 - (grad 0 q).Value),
      ((u c q).DValue + (grad 0 q).DValue * ((u c q).Value / (1 - (grad 0 q).Value))) /
        (1 - (grad 0 q).Value)⟩
  u_reflect := fun _ u _ c q => -u c q
  u_transparent := T_ConservationLaw.u_transparent
  CalcEntropy := fun adu _ _ =>
    (fun _ q => (adu 0 q).Value * (adu 0 q).DValue, fun _ q => (adu 0 q).Value ^ 2 / 2)
  EntropyFlux := fun u1 _ n _ _ q => u1 0 q ^ 2 / 2 * n 0 q
  CalcViscCoeffEl := T_ConservationLaw.CalcViscCoeffEl

/-- The advection law with two entropy components, outflow on every boundary facet. -/
def lawAdvection2 : T_ConservationLaw 1 1 2 where
  eq := eqAdvection2
  ma := meshStraight
  bcnr := fun _ => 0
  cf_bnd := fun _ => none
  order := 1
  lanes := 1
  pow := fun x _ => x

/-- Fedata of a tent without elements and facets. -/
def fdEmpty : TentDataFE 1 0 0 where
  fei := fun i => i.elim0
  nq := fun _ => 1
  nq_pos := fun _ => Nat.one_pos
  iri := fun i => i.elim0
  miri := fun i => i.elim0
  trafoi := fun i => i.elim0
  ranges := fun _ => 0
  agradphi_bot := fun i => i.elim0
  agradphi_top := fun i => i.elim0
  adelta := fun i => i.elim0
  felpos := fun f => f.elim0
  nqf := fun _ => 1
  nqf_pos := fun _ => Nat.one_pos
  firi := fun f => f.elim0
  mfiri1 := fun f => f.elim0
  mfiri2 := fun f => f.elim0
  anormals := fun f => f.elim0
  adelta_facet := fun f => f.elim0

/-- The tent without elements and facets, with its fedata set. -/
@[reducible] def mkTent0 : Tent 1 where
  nels := 0
  els := fun i => i.elim0
  nfac := 0
  internal_facets := fun f => f.elim0
  timebot := 0
  tbot := 0
  ttop := 1
  fedata := some fdEmpty

/-- The condition number `b` is accepted by the boundary dispatch of
`CalcEntropyResidualTent`: it is `0`, `1` or `2`, or it is `3` and the equation supplies a
`u_transparent` that does not throw. -/
def AcceptedEntropy {DIM COMP ECOMP : ℕ} (law : T_ConservationLaw DIM COMP ECOMP) (b : ℤ) :
    Prop :=
  b = 0 ∨ b = 1 ∨ b = 2 ∨
    (b = 3 ∧ ∀ (n : ℕ) (mir : SIMD_MappedIntegrationRule DIM n) (u : PntVals COMP n)
      (nv : PntVals DIM n), ∃ u2, law.eq.u_transparent mir u nv = Except.ok u2)

/-- The advection equation of `eqAdvection` that overloads neither `CalcEntropy` nor
`EntropyFlux`: both are the fallbacks of the base class. -/
def eqDefaults : Equation 1 1 1 :=
  { eqAdvection with
    CalcEntropy := T_ConservationLaw.CalcEntropy
    EntropyFlux := T_ConservationLaw.EntropyFlux }

/-- The law of `eqDefaults` on a straight mesh, outflow on every boundary facet. -/
def lawDefaults : T_ConservationLaw 1 1 1 :=
  { lawAdvection 0 with eq := eqDefaults }

/-- The coefficient `CalcViscCoeffEl` produces for element `i` of the tent when the entry
of `nu` it is handed holds `coeff0`. -/
def viscCoeffEl {DIM COMP ECOMP : ℕ} (law : T_ConservationLaw DIM COMP ECOMP) (tent : Tent DIM)
    (fd : TentDataFE DIM tent.nels tent.nfac) (u : FlatMat COMP) (res : FlatMat ECOMP)
    (tstar : Scal) (i : Fin tent.nels) (coeff0 : Scal) : Scal :=
  let hi0 := law.pow (fd.measure0 i / (DIM : Scal)) (1 / (DIM : Scal))
  let hi := if 0 < (fd.fei i).order then hi0 / ((fd.fei i).order : Scal) else hi0
  let vals := CalcViscosityCoefficientTent.pointValues fd u res i
  law.eq.CalcViscCoeffEl (fd.miri i)
    (law.eq.InverseMap (fd.miri i) (fd.gradphi tstar i) vals.1) vals.2 hi coeff0

/-- The advection equation of `eqAdvection` with a `CalcViscCoeffEl` that sets the
coefficient to `-1`. -/
def eqNegVisc : Equation 1 1 1 :=
  { eqAdvection with CalcViscCoeffEl := fun _ _ _ _ _ => -1 }

/-- The law of `eqNegVisc` on a straight mesh, outflow on every boundary facet. -/
def lawNegVisc : T_ConservationLaw 1 1 1 :=
  { lawAdvection 0 with eq := eqNegVisc }

/-- The matrix `D⁻¹ = diag(1/d_k)` of element `i`, `d` the diagonal of its mass matrix. -/
def diagMassInv {DIM nels nfac : ℕ} (fd : TentDataFE DIM nels nfac) (i : Fin nels) :
    Matrix (Fin (fd.ndof i)) (Fin (fd.ndof i)) ℚ :=
  Matrix.diagonal fun k => ((fd.fei i).diagmass k)⁻¹

/-- The matrix `diag(w(q)/|J|(q))` of the volume rule of element `i`. -/
def pointWeightMat {DIM nels nfac : ℕ} (fd : TentDataFE DIM nels nfac) (i : Fin nels) :
    Matrix (Fin (fd.nq i)) (Fin (fd.nq i)) ℚ :=
  Matrix.diagonal fun q => (fd.iri i).weight q / (fd.miri i).measure q

/-- The one-point rule of `irMid` stored in a vector of two lanes: the second slot is
overhead (`nip = 1`, two slots), holding the point `1` with weight `0`. -/
def irPadded : SIMD_IntegrationRule 1 2 where
  nip := 1
  pt := fun q _ => if q = 0 then 1 / 2 else 1
  weight := fun q => if q = 0 then 1 else 0

/-- Element data: constant element with the padded one-point rule, measure `2`, tent
height `3`. -/
def fdPadded : TentDataFE 1 1 0 :=
  mkFedata1 felConst 2 (by decide) irPadded (fun _ => 2) (fun _ _ => 0) (fun _ _ => 0)
    (fun _ => 3)

/-! ### `bcnr` and `CheckBC` -/

/-- The array `bcnr` as the constructor of `T_ConservationLaw` leaves it:
`bcnr = FlatArray<int>(ama->GetNFacets(),*pylh); bcnr = -1;`. The array is addressed by
facet number. -/
def T_ConservationLaw.initialBcnr (_ma : MeshAccess) : ℕ → ℤ :=
  fun _ => -1

/-- One pass of the loop of `CheckBC`: `bcnr[fnums[0]] = ma->GetElIndex(sel)` for the
boundary element `i`. There is no result when `fnums` is empty or `fnums[0]` is not an
index of `bcnr`. -/
def T_ConservationLaw.CheckBC.step (ma : MeshAccess) (i : ℕ) (bcnr : ℕ → ℤ) : Option (ℕ → ℤ) :=
  match ma.GetElFacetsBND i with
  | [] => none
  | f :: _ =>
      if f < ma.GetNFacets then some (Function.update bcnr f (ma.GetElIndexBND i)) else none

/-- `CheckBC()`, run on the array `bcnr`. -/
def T_ConservationLaw.CheckBC (ma : MeshAccess) (def_bcnr : Bool) (bcnr : ℕ → ℤ) :
    Option (ℕ → ℤ) :=
  if !def_bcnr then
    (List.range ma.GetNSE).foldlM (fun b i => T_ConservationLaw.CheckBC.step ma i b) bcnr
  else some bcnr

/-- A mesh with three facets and three boundary elements: the boundary elements `0` and
`2` lie on facet `0` and carry the indices `1` and `3`, the boundary element `1` lies on
facet `2` and carries the index `2`; facet `1` is interior. -/
def meshBoundary : MeshAccess where
  is_curved := fun _ => false
  GetElFacets := fun _ => []
  GetNFacets := 3
  GetNSE := 3
  GetElFacetsBND := fun i => if i = 1 then [2] else [0]
  GetElIndexBND := fun i => (i : ℤ) + 1

/-- The matrix `diag(w(q)·delta(q)/|J|(q))` of the volume rule of element `i`. -/
def pointWeightDeltaMat {DIM nels nfac : ℕ} (fd : TentDataFE DIM nels nfac) (i : Fin nels)
    (delta : Fin (fd.nq i) → Scal) : Matrix (Fin (fd.nq i)) (Fin (fd.nq i)) ℚ :=
  Matrix.diagonal fun q => (fd.iri i).weight q * delta q / (fd.miri i).measure q

/-- The two-point Radau rule on the unit interval (points `0` and `2/3`, weights `1/4` and
`3/4`, exact for polynomials of degree two) stored in three slots: the third slot is
overhead of weight `0`. -/
def irRadauPadded : SIMD_IntegrationRule 1 3 where
  nip := 2
  pt := fun q _ => if q.val = 0 then 0 else if q.val = 1 then 2 / 3 else 1
  weight := fun q => if q.val = 0 then 1 / 4 else if q.val = 1 then 3 / 4 else 0

/-- Element data: the linear element `felP1` with the padded Radau rule, measures
`|J| = (1, 2, 3)` that vary from point to point, a flat bottom front, a top front of
gradient `1/2`, and tent height `δ = (1, 2, 3)`. -/
def fdRadau : TentDataFE 1 1 0 :=
  mkFedata1 felP1 3 (by decide) irRadauPadded (fun q => (q.val : Scal) + 1)
    (fun _ _ => 0) (fun _ _ => 1 / 2) (fun q => (q.val : Scal) + 1)

/-- Element data: the constant element with the two-point rule `irTrap` and the constant
measure `|J| = 2`: more points of non-zero weight than dofs. -/
def fdTrapConst : TentDataFE 1 1 0 :=
  mkFedata1 felConst 2 (by decide) irTrap (fun _ => 2) (fun _ _ => 0) (fun _ _ => 0)
    (fun _ => 1)

/-- The coefficient matrix with the rows `a` and `b`, viewed from row `0`. -/
def twoRows (a b : Scal) : FlatMat 1 := fun r _ => if r = 0 then a else if r = 1 then b else 0

/-! ## Theorems -/

/-! ### Views -/

theorem Rows_setRows {W : ℕ} (M : FlatMat W) (first n : ℕ) (B : Block n W) :
    (M.setRows first n B).Rows first n = B := by
  funext k c
  have h : first ≤ first + k.val ∧ first + k.val < first + n := ⟨by omega, by omega⟩
  simp only [FlatMat.Rows, FlatMat.setRows, h, and_self, dite_true]
  congr 1
  apply Fin.ext
  simp

theorem setRows_setRows {W : ℕ} (M : FlatMat W) (first n : ℕ) (B B' : Block n W) :
    (M.setRows first n B).setRows first n B' = M.setRows first n B' := by
  funext r c
  by_cases h : first ≤ r ∧ r < first + n <;> simp [FlatMat.setRows, h]

theorem setRows_outside {W : ℕ} (M : FlatMat W) (first n : ℕ) (B : Block n W) (r : ℕ)
    (h : ¬ (first ≤ r ∧ r < first + n)) : M.setRows first n B r = M r := by
  funext c
  simp [FlatMat.setRows, h]

theorem setRows_inside {W : ℕ} (M : FlatMat W) (first n : ℕ) (B : Block n W) (k : Fin n) :
    M.setRows first n B (first + k.val) = B k := by
  have := congrFun (Rows_setRows M first n B) k
  simpa [FlatMat.Rows] using this

/-! ### The mass solves -/

theorem SolveMBlock_straight {DIM W : ℕ} (ma : MeshAccess) (tent : Tent DIM)
    (fd : TentDataFE DIM tent.nels tent.nfac) (loci : Fin tent.nels)
    (h : ma.is_curved (tent.els loci) = false) (mat : Block (fd.ndof loci) W) :
    SolveMBlock ma tent fd loci mat =
      fun j c => mat j c * (1 / ((fd.fei loci).diagmass j * fd.measure0 loci)) := by
  simp [SolveMBlock, h]

theorem SolveMBlock_curved {DIM W : ℕ} (ma : MeshAccess) (tent : Tent DIM)
    (fd : TentDataFE DIM tent.nels tent.nfac) (loci : Fin tent.nels)
    (h : ma.is_curved (tent.els loci) = true) (mat : Block (fd.ndof loci) W) :
    SolveMBlock ma tent fd loci mat =
      twoPass fd loci (fun q => (fd.iri loci).weight q / (fd.miri loci).measure q) mat := by
  funext k c
  simp [SolveMBlock, h, twoPass, DGFiniteElement.Evaluate, DGFiniteElement.AddTrans]

theorem SolveMDeltaBlock_eq {DIM nels nfac W : ℕ} (fd : TentDataFE DIM nels nfac)
    (loci : Fin nels) (delta : Fin (fd.nq loci) → Scal) (mat : Block (fd.ndof loci) W) :
    SolveMDeltaBlock fd loci delta mat =
      twoPass fd loci
        (fun q => (fd.iri loci).weight q * delta q / (fd.miri loci).measure q) mat := by
  funext k c
  simp [SolveMDeltaBlock, twoPass, DGFiniteElement.Evaluate, DGFiniteElement.AddTrans]

theorem twoPass_eq_mul {DIM nels nfac W : ℕ} (fd : TentDataFE DIM nels nfac) (i : Fin nels)
    (t : Fin (fd.nq i) → Scal) (mat : Block (fd.ndof i) W) :
    twoPass fd i (fun q => (fd.iri i).weight q * t q) mat =
      projMat fd i * pntScaled t (shapeMat fd i * rowScaled fd i mat) := by
  funext k c
  simp only [twoPass, projMat, rowScaled, pntScaled, shapeMat, Matrix.mul_apply,
    Matrix.of_apply]
  rw [Finset.sum_div]
  apply Finset.sum_congr rfl
  intro q _
  have : (∑ j, (fd.fei i).shape ((fd.iri i).pt q) j * (mat j c / (fd.fei i).diagmass j)) =
      ∑ j, (fd.fei i).shape ((fd.iri i).pt q) j * (((fd.fei i).diagmass j)⁻¹ * mat j c) := by
    apply Finset.sum_congr rfl
    intro j _
    ring
  rw [this]
  ring

theorem rowScaled_mass {DIM nels nfac W : ℕ} (fd : TentDataFE DIM nels nfac) (i : Fin nels)
    (g : Fin (fd.nq i) → Scal) (x : Block (fd.ndof i) W) :
    rowScaled fd i (applyMat (weightedMass fd i g) x) =
      projMat fd i * pntScaled g (shapeMat fd i * Matrix.of x) := by
  ext k c
  simp only [applyMat, weightedMass, projMat, rowScaled, pntScaled, shapeMat, Matrix.mul_apply,
    Matrix.of_apply]
  simp only [Finset.sum_mul, Finset.mul_sum]
  rw [Finset.sum_comm]
  apply Finset.sum_congr rfl
  intro q _
  apply Finset.sum_congr rfl
  intro j _
  ring

theorem MassExact.left {DIM nels nfac : ℕ} {fd : TentDataFE DIM nels nfac} {i : Fin nels}
    (h : MassExact fd i) : projMat fd i * shapeMat fd i = 1 := by
  obtain ⟨hd, hq⟩ := h
  ext k j
  simp only [projMat, shapeMat, Matrix.mul_apply, Matrix.of_apply, Matrix.one_apply]
  have := hq k j
  have hk := hd k
  rw [show (∑ q, ((fd.fei i).diagmass k)⁻¹ * (fd.fei i).shape ((fd.iri i).pt q) k *
        (fd.iri i).weight q * (fd.fei i).shape ((fd.iri i).pt q) j)
      = ((fd.fei i).diagmass k)⁻¹ * (∑ q, (fd.iri i).weight q *
        (fd.fei i).shape ((fd.iri i).pt q) k * (fd.fei i).shape ((fd.iri i).pt q) j) from by
    rw [Finset.mul_sum]
    apply Finset.sum_congr rfl
    intro q _
    ring]
  rw [this]
  by_cases hkj : k = j
  · subst hkj
    simp [hk]
  · simp [hkj]

theorem Collocated.massExact {DIM nels nfac : ℕ} {fd : TentDataFE DIM nels nfac} {i : Fin nels}
    (h : Collocated fd i) : MassExact fd i :=
  h.2

theorem projMat_zero_weight {DIM nels nfac : ℕ} (fd : TentDataFE DIM nels nfac) (i : Fin nels)
    (k : Fin (fd.ndof i)) (q : Fin (fd.nq i)) (h : (fd.iri i).weight q = 0) :
    projMat fd i k q = 0 := by
  simp [projMat, h]

/-- The matrix `D⁻¹·Bᵀ·diag(w)` does not see the rows of the points of weight zero. -/
theorem projMat_mul_congr {DIM nels nfac W : ℕ} (fd : TentDataFE DIM nels nfac) (i : Fin nels)
    (Z Z' : Matrix (Fin (fd.nq i)) (Fin W) ℚ)
    (h : ∀ q, (fd.iri i).weight q ≠ 0 → ∀ c, Z q c = Z' q c) :
    projMat fd i * Z = projMat fd i * Z' := by
  ext k c
  simp only [Matrix.mul_apply]
  apply Finset.sum_congr rfl
  intro q _
  by_cases hq : (fd.iri i).weight q = 0
  · rw [projMat_zero_weight fd i k q hq, zero_mul, zero_mul]
  · rw [h q hq c]

/-- On a collocated rule, interpolation at the points of non-zero weight reproduces the
point values there: `(B·D⁻¹·Bᵀ·diag(w)·Z)(q) = Z(q)` when `w(q) ≠ 0`. -/
theorem Collocated.right {DIM nels nfac W : ℕ} {fd : TentDataFE DIM nels nfac} {i : Fin nels}
    (h : Collocated fd i) (Z : Matrix (Fin (fd.nq i)) (Fin W) ℚ) (q : Fin (fd.nq i))
    (hq : (fd.iri i).weight q ≠ 0) (c : Fin W) :
    (shapeMat fd i * (projMat fd i * Z)) q c = Z q c := by
  have hPB : (Matrix.of fun (k : Fin (fd.ndof i))
        (a : {q : Fin (fd.nq i) // (fd.iri i).weight q ≠ 0}) => projMat fd i k a.1) *
      (Matrix.of fun (a : {q : Fin (fd.nq i) // (fd.iri i).weight q ≠ 0})
        (k : Fin (fd.ndof i)) => shapeMat fd i a.1 k) = 1 := by
    ext k j
    have hkj := congrFun (congrFun h.massExact.left k) j
    rw [Matrix.mul_apply] at hkj
    rw [Matrix.mul_apply, ← hkj]
    simp only [Matrix.of_apply]
    rw [← Finset.sum_subtype (Finset.univ.filter fun q => (fd.iri i).weight q ≠ 0)
      (fun x => by simp) (fun q => projMat fd i k q * shapeMat fd i q j)]
    apply Finset.sum_filter_of_ne
    intro x _ hx h0
    apply hx
    rw [projMat_zero_weight fd i k x h0, zero_mul]
  have hcard : Fintype.card (Fin (fd.ndof i)) =
      Fintype.card {q : Fin (fd.nq i) // (fd.iri i).weight q ≠ 0} := by
    rw [Fintype.card_fin, Fintype.card_subtype]
    exact h.1.symm
  have hBP := (Matrix.mul_eq_one_comm_of_equiv (Fintype.equivOfCardEq hcard)).mp hPB
  have hentry : ∀ q', (shapeMat fd i * projMat fd i) q q' = if q = q' then 1 else 0 := by
    intro q'
    by_cases hq' : (fd.iri i).weight q' = 0
    · have hne : q ≠ q' := fun hqq => hq (hqq ▸ hq')
      rw [Matrix.mul_apply, if_neg hne]
      apply Finset.sum_eq_zero
      intro k _
      rw [projMat_zero_weight fd i k q' hq', mul_zero]
    · have := congrFun (congrFun hBP ⟨q, hq⟩) ⟨q', hq'⟩
      simp only [Matrix.mul_apply, Matrix.of_apply, Matrix.one_apply, Subtype.mk.injEq] at this
      rw [Matrix.mul_apply]
      exact this
  rw [← Matrix.mul_assoc, Matrix.mul_apply]
  simp only [hentry]
  simp

theorem Collocated.preservesSpace {DIM nels nfac : ℕ} {fd : TentDataFE DIM nels nfac}
    {i : Fin nels} (h : Collocated fd i) (g : Fin (fd.nq i) → Scal) :
    PreservesSpace fd i g := by
  refine ⟨fun k j => (projMat fd i * pntScaled g (shapeMat fd i)) k j, ?_⟩
  intro q hq j
  have := h.right (pntScaled g (shapeMat fd i)) q hq j
  simp only [Matrix.mul_apply] at this
  simp only [Matrix.mul_apply]
  rw [show (∑ k, (fd.fei i).shape ((fd.iri i).pt q) k *
      ∑ x, projMat fd i k x * pntScaled g (shapeMat fd i) x j) =
      ∑ k, shapeMat fd i q k * ∑ x, projMat fd i k x * pntScaled g (shapeMat fd i) x j from rfl,
    this]
  rfl

theorem PreservesSpace.of_const {DIM nels nfac : ℕ} {fd : TentDataFE DIM nels nfac}
    {i : Fin nels} (g : Fin (fd.nq i) → Scal) (c : Scal)
    (h : ∀ q, (fd.iri i).weight q ≠ 0 → g q = c) : PreservesSpace fd i g := by
  refine ⟨fun k j => if k = j then c else 0, ?_⟩
  intro q hq j
  rw [h q hq]
  simp [mul_comm]

theorem pntScaled_inv {n W : ℕ} (g : Fin n → Scal) (hg : ∀ q, g q ≠ 0)
    (X : Matrix (Fin n) (Fin W) ℚ) : pntScaled (fun q => (g q)⁻¹) (pntScaled g X) = X := by
  ext q c
  simp [pntScaled, hg q]

/-- The two-pass solve with point scale `w/g` undoes the mass matrix weighted by `g`,
when the rule is `MassExact`, `g` does not vanish on the points of non-zero weight and
multiplication by `g` preserves the discrete space there. -/
theorem twoPass_mass {DIM nels nfac W : ℕ} {fd : TentDataFE DIM nels nfac} {i : Fin nels}
    (hm : MassExact fd i) (g : Fin (fd.nq i) → Scal)
    (hg : ∀ q, (fd.iri i).weight q ≠ 0 → g q ≠ 0) (hp : PreservesSpace fd i g)
    (x : Block (fd.ndof i) W) :
    twoPass fd i (fun q => (fd.iri i).weight q * (g q)⁻¹) (applyMat (weightedMass fd i g) x) = x := by
  obtain ⟨C, hC⟩ := hp
  have h1 : projMat fd i * pntScaled g (shapeMat fd i * Matrix.of x) =
      projMat fd i * (shapeMat fd i * (Matrix.of C * Matrix.of x)) := by
    apply projMat_mul_congr
    intro q hq c
    simp only [pntScaled, shapeMat, Matrix.mul_apply, Matrix.of_apply, Finset.mul_sum,
      Finset.sum_mul]
    rw [Finset.sum_comm]
    apply Finset.sum_congr rfl
    intro j _
    rw [← mul_assoc, hC q hq j, Finset.sum_mul]
    apply Finset.sum_congr rfl
    intro k _
    ring
  have h2 : projMat fd i *
      pntScaled (fun q => (g q)⁻¹) (shapeMat fd i * (Matrix.of C * Matrix.of x)) =
      projMat fd i * (shapeMat fd i * Matrix.of x) := by
    apply projMat_mul_congr
    intro q hq c
    have hgq := hg q hq
    simp only [pntScaled, shapeMat, Matrix.mul_apply, Matrix.of_apply, Finset.mul_sum,
      Finset.sum_mul]
    rw [Finset.sum_comm]
    apply Finset.sum_congr rfl
    intro j _
    have := hC q hq j
    rw [show (∑ k, (g q)⁻¹ * ((fd.fei i).shape ((fd.iri i).pt q) k * (C k j * x j c))) =
        (g q)⁻¹ * (∑ k, (fd.fei i).shape ((fd.iri i).pt q) k * C k j) * x j c from by
      rw [Finset.mul_sum, Finset.sum_mul]
      apply Finset.sum_congr rfl
      intro k _
      ring]
    rw [← this, ← mul_assoc, inv_mul_cancel₀ hgq, one_mul]
  rw [twoPass_eq_mul, rowScaled_mass, h1, ← Matrix.mul_assoc (projMat fd i), hm.left,
    Matrix.one_mul, h2, ← Matrix.mul_assoc, hm.left, Matrix.one_mul]
  rfl

theorem twoPass_linear {DIM nels nfac W : ℕ} (fd : TentDataFE DIM nels nfac) (i : Fin nels)
    (s : Fin (fd.nq i) → Scal) (mat : Block (fd.ndof i) W) :
    twoPass fd i s mat =
      applyMat (twoPass fd i s (fun k j => if k = j then 1 else 0)) mat := by
  funext k c
  simp only [twoPass, applyMat]
  have hin : ∀ (j : Fin (fd.ndof i)) (q : Fin (fd.nq i)),
      (∑ j', (fd.fei i).shape ((fd.iri i).pt q) j' *
        ((if j' = j then (1 : Scal) else 0) / (fd.fei i).diagmass j')) =
      (fd.fei i).shape ((fd.iri i).pt q) j * (1 / (fd.fei i).diagmass j) := by
    intro j q
    rw [Finset.sum_eq_single j]
    · simp
    · intro j' _ hj'
      simp [hj']
    · simp
  simp only [hin]
  rw [Finset.sum_div]
  simp only [Finset.sum_div, Finset.sum_mul, Finset.mul_sum]
  rw [Finset.sum_comm]
  apply Finset.sum_congr rfl
  intro j _
  apply Finset.sum_congr rfl
  intro q _
  ring

/-- Under the hypotheses of `twoPass_mass` the two-pass solve is also a right inverse of
the weighted mass matrix: both are square. -/
theorem mass_twoPass {DIM nels nfac W : ℕ} {fd : TentDataFE DIM nels nfac} {i : Fin nels}
    (hm : MassExact fd i) (g : Fin (fd.nq i) → Scal)
    (hg : ∀ q, (fd.iri i).weight q ≠ 0 → g q ≠ 0) (hp : PreservesSpace fd i g)
    (mat : Block (fd.ndof i) W) :
    applyMat (weightedMass fd i g) (twoPass fd i (fun q => (fd.iri i).weight q * (g q)⁻¹) mat) = mat := by
  have hone : applyMat (weightedMass fd i g) (fun k j => if k = j then (1 : Scal) else 0) =
      weightedMass fd i g := by
    funext k j
    simp [applyMat]
  have hSM : (Matrix.of (twoPass fd i (fun q => (fd.iri i).weight q * (g q)⁻¹)
      (fun k j => if k = j then 1 else 0)) : Matrix (Fin (fd.ndof i)) (Fin (fd.ndof i)) ℚ) *
      Matrix.of (weightedMass fd i g) = 1 := by
    have h := twoPass_mass hm g hg hp (fun k j => if k = j then (1 : Scal) else 0)
    rw [hone, twoPass_linear] at h
    ext k j
    have := congrFun (congrFun h k) j
    simpa [applyMat, Matrix.mul_apply, Matrix.one_apply] using this
  have hMS := Matrix.mul_eq_one_comm.mp hSM
  have hM : (Matrix.of (weightedMass fd i g) : Matrix (Fin (fd.ndof i)) (Fin (fd.ndof i)) ℚ) *
      (Matrix.of (twoPass fd i (fun q => (fd.iri i).weight q * (g q)⁻¹)
        (fun k j => if k = j then 1 else 0)) * Matrix.of mat) = Matrix.of mat := by
    rw [← Matrix.mul_assoc, hMS, Matrix.one_mul]
  rw [twoPass_linear]
  funext k c
  have := congrFun (congrFun hM k) c
  simpa [applyMat, Matrix.mul_apply] using this

/-! ### C1 – C3: exactness of the mass solves -/

/-- C1. On a straight element with non-zero diagonal mass entries and non-zero
measure the unweighted `SolveM` applied to `M·x`, `M = diag(d_k · measure)`, returns
`x` without an exception; and for every `mat` it replaces row `k` of the range by
`mat[k] / (d_k · measure)` and leaves the other rows alone. -/
theorem SolveM_straight_exact {DIM W : ℕ} (ma : MeshAccess) (tent : Tent DIM)
    (fd : TentDataFE DIM tent.nels tent.nfac) (hfd : tent.fedata = some fd)
    (loci : Fin tent.nels) (hstraight : ma.is_curved (tent.els loci) = false)
    (hd : ∀ k, (fd.fei loci).diagmass k ≠ 0) (hm : fd.measure0 loci ≠ 0)
    (x : Block (fd.ndof loci) W) (mat : FlatMat W) (first : ℕ) :
    SolveM ma tent loci (mat.setRows first _ (applyMat (lumpedMass fd loci) x)) first
        = ⟨none, mat.setRows first _ x⟩ ∧
    ∀ mat' : FlatMat W, SolveM ma tent loci mat' first =
      ⟨none, mat'.setRows first _
        (fun k c => mat' (first + k.val) c / ((fd.fei loci).diagmass k * fd.measure0 loci))⟩ := by
  have hb : (fun j c => applyMat (lumpedMass fd loci) x j c *
      (1 / ((fd.fei loci).diagmass j * fd.measure0 loci))) = x := by
    funext k c
    have hk := hd k
    simp only [applyMat, lumpedMass]
    rw [Finset.sum_eq_single k]
    · simp only [if_true]
      field_simp
    · intro j _ hj
      simp [Ne.symm hj]
    · simp
  constructor
  · simp only [SolveM, hfd, Rows_setRows, setRows_setRows,
      SolveMBlock_straight ma tent fd loci hstraight, hb]
  · intro mat'
    have hb' : (fun j c => mat'.Rows first (fd.ndof loci) j c *
        (1 / ((fd.fei loci).diagmass j * fd.measure0 loci))) =
        (fun k c => mat' (first + k.val) c / ((fd.fei loci).diagmass k * fd.measure0 loci)) := by
      funext k c
      simp only [FlatMat.Rows]
      ring
    simp only [SolveM, hfd, SolveMBlock_straight ma tent fd loci hstraight, hb']

/-- C1, evaluated: the one-dof element with `d = 1`, measure `2`, `x = 5`. -/
theorem SolveM_straight_exact_witness :
    SolveM meshStraight (mkTent1 fdStraight) (0 : Fin 1)
        ((oneRow 0).setRows 0 1 (applyMat (lumpedMass fdStraight 0) (fun _ _ => 5))) 0
      = ⟨none, (oneRow 0).setRows 0 1 (fun _ _ => 5)⟩ :=
  (SolveM_straight_exact (W := 1) meshStraight (mkTent1 fdStraight) fdStraight rfl (0 : Fin 1) rfl
    (by intro k; simp [fdStraight, mkFedata1, felConst])
    (by simp [TentDataFE.measure0, fdStraight, mkFedata1, mkMir])
    (fun _ _ => 5) (oneRow 0) 0).1

/-- C2 as stated fails. The one-dof element (`φ = 1`, `d = 1`) with the two-point rule
`w = (1/2, 1/2)` and measures `|J| = (1, 2)` is curved and has non-zero measures; its
mass matrix is `3/2`, and `SolveM` applied to `M·x` for `x = 1` returns `9/8`. -/
theorem SolveM_curved_not_exact :
    meshCurved.is_curved ((mkTent1 fdCurved).els (0 : Fin 1)) = true ∧
    (∀ q, (fdCurved.miri 0).measure q ≠ 0) ∧
    (SolveM meshCurved (mkTent1 fdCurved) (0 : Fin 1)
        ((oneRow 0).setRows 0 1 (applyMat (massMatrix fdCurved 0) (fun _ _ => 1))) 0).out 0 0
      = 9 / 8 ∧
    ((oneRow 0).setRows 0 1 (fun _ _ => (1 : Scal))) 0 0 = 1 := by
  refine ⟨rfl, ?_, ?_, ?_⟩
  · intro q
    simp only [fdCurved, mkFedata1, mkMir]
    split <;> norm_num
  · simp [SolveM, SolveMBlock, meshCurved, FlatMat.setRows, FlatMat.Rows, DGFiniteElement.Evaluate,
      DGFiniteElement.AddTrans, applyMat, massMatrix, weightedMass, fdCurved, mkFedata1, mkMir,
      felConst, irTrap, Fin.sum_univ_two, TentDataFE.ndof]
    norm_num
  · simp [FlatMat.setRows]

/-- C2, amended. On a curved element whose volume rule integrates the products of the
basis functions to the diagonal mass matrix (`MassExact`), whose `|J|` is non-zero at the
points of non-zero weight, and for which `|J|` times each basis function agrees, at the
points of non-zero weight, with a combination of basis functions (`PreservesSpace`), the
unweighted `SolveM` applied to `M·x` returns `x`, `M` being the mass matrix assembled with
the element's rule. `PreservesSpace` holds in particular when the rule has as many points
of non-zero weight as the element has dofs (`Collocated.preservesSpace`: padding slots are
not counted) and when `|J|` is constant over those points (`PreservesSpace.of_const`). -/
theorem SolveM_curved_exact_of_collocated {DIM W : ℕ} (ma : MeshAccess) (tent : Tent DIM)
    (fd : TentDataFE DIM tent.nels tent.nfac) (hfd : tent.fedata = some fd)
    (loci : Fin tent.nels) (hcurved : ma.is_curved (tent.els loci) = true)
    (hmass : MassExact fd loci)
    (hJ : ∀ q, (fd.iri loci).weight q ≠ 0 → (fd.miri loci).measure q ≠ 0)
    (hspace : PreservesSpace fd loci (fd.miri loci).measure)
    (x : Block (fd.ndof loci) W) (mat : FlatMat W) (first : ℕ) :
    SolveM ma tent loci (mat.setRows first _ (applyMat (massMatrix fd loci) x)) first
      = ⟨none, mat.setRows first _ x⟩ := by
  have hb := twoPass_mass hmass (fd.miri loci).measure hJ hspace x
  simp only [SolveM, hfd, Rows_setRows, setRows_setRows,
    SolveMBlock_curved ma tent fd loci hcurved, massMatrix, div_eq_mul_inv, hb]

theorem collocated_fdStraight : Collocated fdStraight 0 := by
  refine ⟨rfl, ?_, ?_⟩
  · intro k
    simp [fdStraight, mkFedata1, felConst]
  · intro k j
    have : k = j := by
      apply Fin.ext
      have hk : k.val < 1 := k.isLt
      have hj : j.val < 1 := j.isLt
      omega
    simp [fdStraight, mkFedata1, felConst, irMid, this]

theorem collocated_fdRadau : Collocated fdRadau 0 := by
  have hA : (Finset.univ.filter fun q : Fin 3 => irRadauPadded.weight q ≠ 0) =
      ({0, 1} : Finset (Fin 3)) := by
    ext q
    fin_cases q <;> simp [irRadauPadded]
  refine ⟨?_, ?_, ?_⟩
  · show (Finset.univ.filter fun q : Fin 3 => irRadauPadded.weight q ≠ 0).card = 2
    rw [hA]
    rfl
  · intro k
    fin_cases k <;> simp [fdRadau, mkFedata1, felP1]
  · intro k j
    fin_cases k <;> fin_cases j <;>
      simp [fdRadau, mkFedata1, felP1, irRadauPadded, Fin.sum_univ_three] <;> norm_num

theorem collocated_fdPadded : Collocated fdPadded 0 := by
  have hA : (Finset.univ.filter fun q : Fin 2 => irPadded.weight q ≠ 0) =
      ({0} : Finset (Fin 2)) := by
    ext q
    fin_cases q <;> simp [irPadded]
  refine ⟨?_, ?_, ?_⟩
  · show (Finset.univ.filter fun q : Fin 2 => irPadded.weight q ≠ 0).card = 1
    rw [hA]
    rfl
  · intro k
    simp [fdPadded, mkFedata1, felConst]
  · intro k j
    have : k = j := by
      apply Fin.ext
      have hk : k.val < 1 := k.isLt
      have hj : j.val < 1 := j.isLt
      omega
    simp [fdPadded, mkFedata1, felConst, irPadded, this, Fin.sum_univ_two]

theorem massExact_fdTrapConst : MassExact fdTrapConst 0 := by
  refine ⟨?_, ?_⟩
  · intro k
    simp [fdTrapConst, mkFedata1, felConst]
  · intro k j
    have : k = j := by
      apply Fin.ext
      have hk : k.val < 1 := k.isLt
      have hj : j.val < 1 := j.isLt
      omega
    simp [fdTrapConst, mkFedata1, felConst, irTrap, this, Fin.sum_univ_two]

/-- C2 amended, evaluated. (1) The linear element with the padded two-point Radau rule and
measures `|J| = (1, 2, 3)` that vary from point to point: `SolveM (M·x)` returns
`x = (5, 7)`. (2) The constant element with the two-point rule and the constant measure
`2` (more points than dofs): `SolveM (M·x)` returns `x = 5`. -/
theorem SolveM_curved_exact_of_collocated_witness :
    SolveM meshCurved (mkTent1 fdRadau) (0 : Fin 1)
        ((twoRows 0 0).setRows 0 2 (applyMat (massMatrix fdRadau 0)
          (fun k _ => if k.val = 0 then 5 else 7))) 0
      = ⟨none, (twoRows 0 0).setRows 0 2 (fun k _ => if k.val = 0 then 5 else 7)⟩ ∧
    SolveM meshCurved (mkTent1 fdTrapConst) (0 : Fin 1)
        ((oneRow 0).setRows 0 1 (applyMat (massMatrix fdTrapConst 0) (fun _ _ => 5))) 0
      = ⟨none, (oneRow 0).setRows 0 1 (fun _ _ => 5)⟩ :=
  ⟨SolveM_curved_exact_of_collocated (W := 1) meshCurved (mkTent1 fdRadau) fdRadau rfl
      (0 : Fin 1) rfl collocated_fdRadau.massExact
      (by
        intro q _
        simp only [fdRadau, mkFedata1, mkMir]
        positivity)
      (collocated_fdRadau.preservesSpace _)
      (fun k _ => if k.val = 0 then 5 else 7) (twoRows 0 0) 0,
    SolveM_curved_exact_of_collocated (W := 1) meshCurved (mkTent1 fdTrapConst) fdTrapConst rfl
      (0 : Fin 1) rfl massExact_fdTrapConst
      (by intro q _; simp [fdTrapConst, mkFedata1, mkMir])
      (PreservesSpace.of_const _ 2 (fun _ _ => rfl))
      (fun _ _ => 5) (oneRow 0) 0⟩

/-- C3 as stated fails, in two ways. (1) On the one-dof element with the one-point rule
(`φ = 1`, `w = 1`, `|J| = 2`, `d = 1`, collocated) and `δ = 3 > 0`, the delta-weighted mass
matrix is `M_δ = 6`, so `M_δ⁻¹·mat = 1/6` for `mat = 1`, but the delta-weighted `SolveM`
returns `3/2`: `M_δ` times the result is `9`, not `mat`. (2) On the one-dof element with
the two-point rule and measures `(1, 2)` and `δ = 1`, `M_δ = 3/2` and `SolveM` returns
`3/4` for `mat = 1`: `M_δ` times the result is `9/8`. -/
theorem SolveMDelta_not_inverse_of_deltaMass :
    (0 < (3 : Scal) ∧
      (SolveMDelta (mkTent1 fdStraight) (0 : Fin 1) (fun _ => 3) (oneRow 1) 0).out 0 0 = 3 / 2 ∧
      applyMat (deltaMass fdStraight 0 (fun _ => 3))
        ((SolveMDelta (mkTent1 fdStraight) (0 : Fin 1) (fun _ => 3) (oneRow 1) 0).out.Rows 0 1)
        (0 : Fin 1) 0 = 9 ∧ (oneRow 1) 0 0 = 1) ∧
    (0 < (1 : Scal) ∧
      (SolveMDelta (mkTent1 fdCurved) (0 : Fin 1) (fun _ => 1) (oneRow 1) 0).out 0 0 = 3 / 4 ∧
      applyMat (deltaMass fdCurved 0 (fun _ => 1))
        ((SolveMDelta (mkTent1 fdCurved) (0 : Fin 1) (fun _ => 1) (oneRow 1) 0).out.Rows 0 1)
        (0 : Fin 1) 0 = 9 / 8) := by
  refine ⟨⟨by norm_num, ?_, ?_, ?_⟩, by norm_num, ?_, ?_⟩
  · simp [SolveMDelta, SolveMDeltaBlock, FlatMat.setRows, FlatMat.Rows, DGFiniteElement.Evaluate,
      DGFiniteElement.AddTrans, fdStraight, mkFedata1, mkMir, felConst, irMid, oneRow,
      TentDataFE.ndof]
  · simp [SolveMDelta, SolveMDeltaBlock, FlatMat.setRows, FlatMat.Rows, DGFiniteElement.Evaluate,
      DGFiniteElement.AddTrans, fdStraight, mkFedata1, mkMir, felConst, irMid, oneRow,
      TentDataFE.ndof, applyMat, deltaMass, weightedMass]
    norm_num
  · simp [oneRow]
  · simp [SolveMDelta, SolveMDeltaBlock, FlatMat.setRows, FlatMat.Rows, DGFiniteElement.Evaluate,
      DGFiniteElement.AddTrans, fdCurved, mkFedata1, mkMir, felConst, irTrap, oneRow,
      TentDataFE.ndof, Fin.sum_univ_two]
    norm_num
  · simp [SolveMDelta, SolveMDeltaBlock, FlatMat.setRows, FlatMat.Rows, DGFiniteElement.Evaluate,
      DGFiniteElement.AddTrans, fdCurved, mkFedata1, mkMir, felConst, irTrap, oneRow,
      TentDataFE.ndof, applyMat, deltaMass, weightedMass, Fin.sum_univ_two]
    norm_num

/-- C3, amended. On an element whose volume rule is `MassExact`, with `|J|` non-zero at
the points of non-zero weight, positive `δ` at every point, and such that `|J|/δ` times
each basis function agrees, at the points of non-zero weight, with a combination of basis
functions (`PreservesSpace`; in particular on a collocated rule, padding slots not
counted), the delta-weighted `SolveM` overwrites the range of `mat` with `M⁻¹·mat`, where
`M` is the mass matrix weighted by `1/δ` (entries `Σ_q w(q)·|J|(q)/δ(q)·φ_k(q)·φ_j(q)`): no
exception is thrown, `M` times the new rows is the old rows, the rows outside the range
are unchanged, and applied to `M·x` it returns `x`. -/
theorem SolveMDelta_inverse_of_invDeltaMass {DIM W : ℕ} (tent : Tent DIM)
    (fd : TentDataFE DIM tent.nels tent.nfac) (hfd : tent.fedata = some fd)
    (loci : Fin tent.nels) (hmass : MassExact fd loci)
    (hJ : ∀ q, (fd.iri loci).weight q ≠ 0 → (fd.miri loci).measure q ≠ 0)
    (delta : ℕ → Scal) (hdelta : ∀ q : Fin (fd.nq loci), 0 < delta q.val)
    (hspace : PreservesSpace fd loci (fun q => (fd.miri loci).measure q / delta q.val))
    (mat : FlatMat W) (first : ℕ) (x : Block (fd.ndof loci) W) :
    (SolveMDelta tent loci delta mat first).exc = none ∧
    applyMat (weightedMass fd loci (fun q => (fd.miri loci).measure q / delta q.val))
      ((SolveMDelta tent loci delta mat first).out.Rows first (fd.ndof loci))
      = mat.Rows first (fd.ndof loci) ∧
    (∀ r, ¬ (first ≤ r ∧ r < first + fd.ndof loci) →
      (SolveMDelta tent loci delta mat first).out r = mat r) ∧
    SolveMDelta tent loci delta (mat.setRows first _ (applyMat
        (weightedMass fd loci (fun q => (fd.miri loci).measure q / delta q.val)) x)) first
      = ⟨none, mat.setRows first _ x⟩ := by
  have hg : ∀ q : Fin (fd.nq loci), (fd.iri loci).weight q ≠ 0 →
      (fd.miri loci).measure q / delta q.val ≠ 0 :=
    fun q hq => div_ne_zero (hJ q hq) (ne_of_gt (hdelta q))
  have hs : (fun q : Fin (fd.nq loci) =>
      (fd.iri loci).weight q * delta q.val / (fd.miri loci).measure q) =
      fun q => (fd.iri loci).weight q * ((fd.miri loci).measure q / delta q.val)⁻¹ := by
    funext q
    rw [inv_div, mul_div_assoc]
  refine ⟨?_, ?_, ?_, ?_⟩
  · simp only [SolveMDelta, hfd]
  · simp only [SolveMDelta, hfd, Rows_setRows, SolveMDeltaBlock_eq, hs]
    exact mass_twoPass hmass _ hg hspace _
  · intro r hr
    simp only [SolveMDelta, hfd]
    exact setRows_outside _ _ _ _ _ hr
  · simp only [SolveMDelta, hfd, Rows_setRows, setRows_setRows, SolveMDeltaBlock_eq, hs,
      twoPass_mass hmass _ hg hspace x]

/-- C3 amended, evaluated on the linear element with the padded two-point Radau rule,
`|J| = (1, 2, 3)` and `δ = (1, 2, 3)`: the delta-weighted `SolveM` applied to `M·x` returns
`x = (5, 7)`. -/
theorem SolveMDelta_inverse_of_invDeltaMass_witness :
    SolveMDelta (mkTent1 fdRadau) (0 : Fin 1) (fun q => (q : Scal) + 1)
        ((twoRows 0 0).setRows 0 2 (applyMat
          (weightedMass fdRadau 0 (fun q => (fdRadau.miri 0).measure q / ((q.val : Scal) + 1)))
          (fun k _ => if k.val = 0 then 5 else 7))) 0
      = ⟨none, (twoRows 0 0).setRows 0 2 (fun k _ => if k.val = 0 then 5 else 7)⟩ :=
  (SolveMDelta_inverse_of_invDeltaMass (W := 1) (mkTent1 fdRadau) fdRadau rfl
    (0 : Fin 1) collocated_fdRadau.massExact
    (by
      intro q _
      simp only [fdRadau, mkFedata1, mkMir]
      positivity)
    (fun q => (q : Scal) + 1) (by intro q; positivity)
    (collocated_fdRadau.preservesSpace _)
    (twoRows 0 0) 0 (fun k _ => if k.val = 0 then 5 else 7)).2.2.2

/-! ### Loops with exceptions -/

theorem runLoop_exc_none {α σ : Type} (l : List α) (f : α → σ → Run σ) (s : σ)
    (h : ∀ a ∈ l, ∀ s', (f a s').exc = none) : (runLoop l f s).exc = none := by
  induction l generalizing s with
  | nil => rfl
  | cons a l ih =>
      have ha := h a (List.mem_cons_self a l) s
      unfold runLoop
      cases hf : f a s with
      | mk exc out =>
          rw [hf] at ha
          simp only at ha
          subst ha
          exact ih out (fun b hb s' => h b (List.mem_cons_of_mem a hb) s')

theorem runLoop_exc_some {α σ : Type} (l : List α) (f : α → σ → Run σ) (s : σ) (e : Exception)
    (h : (runLoop l f s).exc = some e) : ∃ a ∈ l, ∃ s', (f a s').exc = some e := by
  induction l generalizing s with
  | nil => simp [runLoop] at h
  | cons a l ih =>
      unfold runLoop at h
      cases hf : f a s with
      | mk exc out =>
          rw [hf] at h
          cases exc with
          | none =>
              obtain ⟨b, hb, s', hs'⟩ := ih out h
              exact ⟨b, List.mem_cons_of_mem a hb, s', hs'⟩
          | some e' =>
              simp only at h
              exact ⟨a, List.mem_cons_self a l, s, by rw [hf]; exact h⟩

/-- C6. On a boundary facet of `CalcFluxTent` (second neighbour is the sentinel) with
condition number `b = bcnr[facet]`, the exterior trace is `u1` for `b = 0`,
`u_reflect(mir, u1, n)` for `b = 1`, the evaluation of `u0` at the facet points of the
first neighbour for `b = 2`, what `u_transparent(mir, u1, n)` returns for `b = 3`, and
the evaluation of `cf_bnd[b]` for every other `b` that has one; and with the trace `u2`
the facet adds `-δ_f(q)·w(q)·NumFlux(mir, u1, u2, n)`, transposed, to the rows of the
range of the first neighbour, once, and leaves every other row as it was. -/
theorem CalcFluxTent_boundary_facet {DIM COMP ECOMP : ℕ} (law : T_ConservationLaw DIM COMP ECOMP)
    (tent : Tent DIM) (fd : TentDataFE DIM tent.nels tent.nfac) (u u0 flux : FlatMat COMP)
    (i : Fin tent.nfac) (hb : (fd.felpos i).2 = none) :
    let e1 := (fd.felpos i).1
    let b := law.bcnr (tent.internal_facets i)
    let u1 := (fd.fei e1).Evaluate (fd.firi i).1 (u.Rows (fd.ranges e1) (fd.ndof e1))
    let trace := CalcFluxTent.boundaryTrace law fd u0 i e1 u1 b
    (b = 0 → trace = Except.ok u1) ∧
    (b = 1 → trace = Except.ok (law.eq.u_reflect (fd.mfiri1 i) u1 (fd.anormals i))) ∧
    (b = 2 → trace = Except.ok
      ((fd.fei e1).Evaluate (fd.firi i).1 (u0.Rows (fd.ranges e1) (fd.ndof e1)))) ∧
    (b = 3 → ∀ u2, law.eq.u_transparent (fd.mfiri1 i) u1 (fd.anormals i) = Except.ok u2 →
      trace = Except.ok u2) ∧
    (b ≠ 0 → b ≠ 1 → b ≠ 2 → b ≠ 3 → ∀ cf, law.cf_bnd b = some cf →
      trace = Except.ok (cf.Evaluate (fd.mfiri1 i))) ∧
    (∀ u2, trace = Except.ok u2 →
      (CalcFluxTent.facet law tent fd u u0 i flux).exc = none ∧
      (∀ (k : Fin (fd.ndof e1)) (c : Fin COMP),
        (CalcFluxTent.facet law tent fd u u0 i flux).out (fd.ranges e1 + k.val) c =
          flux (fd.ranges e1 + k.val) c +
            ∑ q, (fd.fei e1).shape ((fd.firi i).1.pt q) k *
              (law.eq.NumFlux (fd.mfiri1 i) u1 u2 (fd.anormals i) c q *
                (-1 * fd.adelta_facet i q * (fd.mfiri1 i).weight q))) ∧
      (∀ r, ¬ (fd.ranges e1 ≤ r ∧ r < fd.ranges e1 + fd.ndof e1) →
        (CalcFluxTent.facet law tent fd u u0 i flux).out r = flux r)) := by
  intro e1 b u1 trace
  refine ⟨?_, ?_, ?_, ?_, ?_, ?_⟩
  · intro h0
    simp [trace, CalcFluxTent.boundaryTrace, h0]
  · intro h1
    simp [trace, CalcFluxTent.boundaryTrace, h1]
  · intro h2
    simp [trace, CalcFluxTent.boundaryTrace, h2, e1, TentDataFE.ndof]
  · intro h3 u2 hu2
    simp [trace, CalcFluxTent.boundaryTrace, h3, hu2]
  · intro h0 h1 h2 h3 cf hcf
    simp [trace, CalcFluxTent.boundaryTrace, h0, h1, h2, h3, hcf]
  · intro u2 hu2
    have hstep : CalcFluxTent.facet law tent fd u u0 i flux =
        ⟨none, flux.setRows (fd.ranges e1) (fd.ndof e1)
          ((fd.fei e1).AddTrans (fd.firi i).1
            (fun c j => law.eq.NumFlux (fd.mfiri1 i) u1 u2 (fd.anormals i) c j *
              (-1 * fd.adelta_facet i j * (fd.mfiri1 i).weight j))
            (flux.Rows (fd.ranges e1) (fd.ndof e1)))⟩ := by
      simp only [CalcFluxTent.facet, hb, CalcFluxTent.boundaryFacet]
      have : CalcFluxTent.boundaryTrace law fd u0 i (fd.felpos i).1
          ((fd.fei (fd.felpos i).1).Evaluate (fd.firi i).1
            (u.Rows (fd.ranges (fd.felpos i).1) (fd.fei (fd.felpos i).1).ndof))
          (law.bcnr (tent.internal_facets i)) = Except.ok u2 := hu2
      rw [this]
    rw [hstep]
    refine ⟨rfl, ?_, ?_⟩
    · intro k c
      simp only [setRows_inside, DGFiniteElement.AddTrans, FlatMat.Rows]
    · intro r hr
      exact setRows_outside _ _ _ _ _ hr

/-- C6, evaluated on the interval with the boundary facet `x = 1`, condition number `0`
(outflow), `u = 3`, tent height `2` on the facet: the trace is `u1`, and the facet adds
`-2·1·3 = -6` to row `0`. -/
theorem CalcFluxTent_boundary_facet_witness :
    (CalcFluxTent.facet (lawAdvection 0) (mkTentB (some fdBoundary)) fdBoundary (oneRow 3)
      (oneRow 0) (0 : Fin 1) (oneRow 10)).exc = none ∧
    (CalcFluxTent.facet (lawAdvection 0) (mkTentB (some fdBoundary)) fdBoundary (oneRow 3)
      (oneRow 0) (0 : Fin 1) (oneRow 10)).out 0 0 = 4 := by
  have h := CalcFluxTent_boundary_facet (lawAdvection 0) (mkTentB (some fdBoundary)) fdBoundary
    (oneRow 3) (oneRow 0) (oneRow 10) (0 : Fin 1) rfl
  have h6 := h.2.2.2.2.2 _ (h.1 rfl)
  refine ⟨h6.1, ?_⟩
  have h7 := h6.2.1 (0 : Fin 1) 0
  simp only [Fin.val_zero, add_zero] at h7
  have hr : fdBoundary.ranges (fdBoundary.felpos 0).1 = 0 := rfl
  rw [hr] at h7
  rw [h7]
  simp [fdBoundary, mkFedataB, mkMir, felConst, irPoint, lawAdvection, eqAdvection, oneRow,
    DGFiniteElement.Evaluate, FlatMat.Rows]
  norm_num

theorem SolveM_exc_of_fedata {DIM W : ℕ} (ma : MeshAccess) (tent : Tent DIM)
    (fd : TentDataFE DIM tent.nels tent.nfac) (hfd : tent.fedata = some fd)
    (loci : Fin tent.nels) (mat : FlatMat W) (first : ℕ) :
    (SolveM ma tent loci mat first).exc = none := by
  simp only [SolveM, hfd]

/-- C8 fails on the code. On the interval with the boundary facet `x = 1`, condition
number `4` and the coefficient function `7` registered for it, with the same interior
trace `u1 = 3`, the dispatch of `CalcFluxTent` yields the exterior trace `7` and its facet
does not throw, while the dispatch of `CalcEntropyResidualTent` throws "no
implementation for your chosen boundary condition number 5": it has no branch for
`cf_bnd`. -/
theorem boundary_dispatch_differs_on_registered_code :
    (lawAdvection 4).bcnr ((mkTentB (some fdBoundary)).internal_facets (0 : Fin 1)) = 4 ∧
    ((lawAdvection 4).cf_bnd 4).isSome = true ∧
    CalcFluxTent.boundaryTrace (lawAdvection 4) fdBoundary (oneRow 0) (0 : Fin 1) (0 : Fin 1)
      (fun _ _ => 3) 4 = Except.ok (fun _ _ => 7) ∧
    CalcEntropyResidualTent.boundaryTrace (lawAdvection 4) fdBoundary (oneRow 0) (0 : Fin 1)
      (0 : Fin 1) (fun _ _ => 3) 4 = Except.error (Exception.noBoundaryCondition 5) ∧
    (CalcFluxTent.facet (lawAdvection 4) (mkTentB (some fdBoundary)) fdBoundary (oneRow 3)
      (oneRow 0) (0 : Fin 1) (oneRow 0)).exc = none ∧
    (CalcEntropyResidualTent.facet (lawAdvection 4) (mkTentB (some fdBoundary)) fdBoundary
      (oneRow 3) (oneRow 0) (fun _ _ _ _ => 0) (0 : Fin 1) (oneRow 0)).exc =
        some (Exception.noBoundaryCondition 5) ∧
    (Exception.noBoundaryCondition 5).what =
      "no implementation for your chosen boundary condition number 5" := by
  refine ⟨rfl, ?_, ?_, ?_, ?_, ?_, ?_⟩
  · simp [lawAdvection]
  · simp [CalcFluxTent.boundaryTrace, lawAdvection]
  · simp [CalcEntropyResidualTent.boundaryTrace]
  · simp [CalcFluxTent.facet, CalcFluxTent.boundaryFacet, CalcFluxTent.boundaryTrace,
      lawAdvection, fdBoundary, mkFedataB]
  · simp [CalcEntropyResidualTent.facet, CalcEntropyResidualTent.boundaryFacet,
      CalcEntropyResidualTent.boundaryTrace, lawAdvection, fdBoundary, mkFedataB]
  · decide

/-- C9. On a boundary facet of `CalcEntropyResidualTent` with condition number `1` (wall)
the residual is left as it was and nothing is thrown; with condition number `0`, `2` or
`3` and exterior trace `u2` the facet adds `EntropyFlux(u1, u2, n)·δ_f(q)·w(q)`,
transposed, to the rows of the range of the first neighbour and leaves every other row as
it was. -/
theorem CalcEntropyResidualTent_boundary_facet {DIM COMP ECOMP : ℕ}
    (law : T_ConservationLaw DIM COMP ECOMP) (tent : Tent DIM)
    (fd : TentDataFE DIM tent.nels tent.nfac) (temp u0 : FlatMat COMP) (lh : LocalHeap)
    (res : FlatMat ECOMP) (i : Fin tent.nfac) (hb : (fd.felpos i).2 = none) :
    let e1 := (fd.felpos i).1
    let b := law.bcnr (tent.internal_facets i)
    let u1 := (fd.fei e1).Evaluate (fd.firi i).1 (temp.Rows (fd.ranges e1) (fd.ndof e1))
    let trace := CalcEntropyResidualTent.boundaryTrace law fd u0 i e1 u1 b
    (b = 1 → CalcEntropyResidualTent.facet law tent fd temp u0 lh i res = ⟨none, res⟩) ∧
    (b = 0 ∨ b = 2 ∨ b = 3 → ∀ u2, trace = Except.ok u2 →
      (CalcEntropyResidualTent.facet law tent fd temp u0 lh i res).exc = none ∧
      (∀ (k : Fin (fd.ndof e1)) (c : Fin ECOMP),
        (CalcEntropyResidualTent.facet law tent fd temp u0 lh i res).out (fd.ranges e1 + k.val) c =
          res (fd.ranges e1 + k.val) c +
            ∑ q, (fd.fei e1).shape ((fd.firi i).1.pt q) k *
              (law.eq.EntropyFlux u1 u2 (fd.anormals i) (fun c q => lh 4 i.val c.val q.val) c q *
                (fd.adelta_facet i q * (fd.mfiri1 i).weight q))) ∧
      (∀ r, ¬ (fd.ranges e1 ≤ r ∧ r < fd.ranges e1 + fd.ndof e1) →
        (CalcEntropyResidualTent.facet law tent fd temp u0 lh i res).out r = res r)) := by
  intro e1 b u1 trace
  constructor
  · intro h1
    have hb1 : law.bcnr (tent.internal_facets i) = 1 := h1
    simp [CalcEntropyResidualTent.facet, hb, CalcEntropyResidualTent.boundaryFacet,
      CalcEntropyResidualTent.boundaryTrace, hb1]
  · intro hcode u2 hu2
    have hne : law.bcnr (tent.internal_facets i) ≠ 1 := by
      rcases hcode with h | h | h <;>
        · have h' : law.bcnr (tent.internal_facets i) = _ := h
          rw [h']
          decide
    have hstep : CalcEntropyResidualTent.facet law tent fd temp u0 lh i res =
        ⟨none, res.setRows (fd.ranges e1) (fd.ndof e1)
          ((fd.fei e1).AddTrans (fd.firi i).1
            (fun c j => law.eq.EntropyFlux u1 u2 (fd.anormals i)
                (fun c q => lh 4 i.val c.val q.val) c j *
              (fd.adelta_facet i j * (fd.mfiri1 i).weight j))
            (res.Rows (fd.ranges e1) (fd.ndof e1)))⟩ := by
      simp only [CalcEntropyResidualTent.facet, hb, CalcEntropyResidualTent.boundaryFacet]
      have : CalcEntropyResidualTent.boundaryTrace law fd u0 i (fd.felpos i).1
          ((fd.fei (fd.felpos i).1).Evaluate (fd.firi i).1
            (temp.Rows (fd.ranges (fd.felpos i).1) (fd.fei (fd.felpos i).1).ndof))
          (law.bcnr (tent.internal_facets i)) = Except.ok u2 := hu2
      rw [this]
      simp only [hne, ne_eq, not_false_eq_true, if_true]
    rw [hstep]
    refine ⟨rfl, ?_, ?_⟩
    · intro k c
      simp only [setRows_inside, DGFiniteElement.AddTrans, FlatMat.Rows]
    · intro r hr
      exact setRows_outside _ _ _ _ _ hr

/-- C9, evaluated on the interval with the boundary facet `x = 1` and condition number
`1` (wall): the residual `10` stays `10`. -/
theorem CalcEntropyResidualTent_boundary_facet_witness :
    CalcEntropyResidualTent.facet (lawAdvection 1) (mkTentB (some fdBoundary)) fdBoundary
      (oneRow 3) (oneRow 0) (fun _ _ _ _ => 0) (0 : Fin 1) (oneRow 10) = ⟨none, oneRow 10⟩ :=
  (CalcEntropyResidualTent_boundary_facet (lawAdvection 1) (mkTentB (some fdBoundary)) fdBoundary
    (oneRow 3) (oneRow 0) (fun _ _ _ _ => 0) (oneRow 10) (0 : Fin 1) rfl).1 rfl

/-! ### C10: the null check -/

/-- C10. When `tent.fedata` is null every per-tent kernel throws (`SolveM` with
"Expected tent.fedata to be set!", the others with "fedata not set") and its output
buffer holds what it held before the call. -/
theorem kernels_throw_on_null_fedata {DIM COMP ECOMP W : ℕ}
    (law : T_ConservationLaw DIM COMP ECOMP) (tent : Tent DIM) (hnull : tent.fedata = none)
    (loci : Fin tent.nels) (delta : ℕ → Scal) (mat : FlatMat W) (first : ℕ)
    (u u0 ut ubnd uhat : FlatMat COMP) (flux : FluxOut COMP) (visc : FlatMat COMP)
    (res : FlatMat ECOMP) (nuvec nu : ℕ → Scal) (tstar : Scal) (solvemass : Bool)
    (lh : LocalHeap) :
    SolveM law.ma tent loci mat first = ⟨some Exception.expectedFedata, mat⟩ ∧
    SolveMDelta tent loci delta mat first = ⟨some Exception.expectedFedata, mat⟩ ∧
    CalcFluxTent law tent u u0 flux tstar = ⟨some Exception.fedataNotSet, flux⟩ ∧
    CalcViscosityTent law tent u ubnd nuvec visc = ⟨some Exception.fedataNotSet, visc⟩ ∧
    CalcEntropyResidualTent law tent u ut res u0 tstar lh = ⟨some Exception.fedataNotSet, res⟩ ∧
    ((CalcViscosityCoefficientTent law tent u res tstar nu).exc = some Exception.fedataNotSet ∧
      (CalcViscosityCoefficientTent law tent u res tstar nu).out.nu = nu) ∧
    Cyl2Tent law tent tstar uhat u = ⟨some Exception.fedataNotSet, u⟩ ∧
    ApplyM1 law tent tstar u visc = ⟨some Exception.fedataNotSet, visc⟩ ∧
    Tent2Cyl law tent tstar u uhat solvemass = ⟨some Exception.fedataNotSet, uhat⟩ ∧
    Exception.expectedFedata.what = "Expected tent.fedata to be set!" ∧
    Exception.fedataNotSet.what = "fedata not set" := by
  refine ⟨?_, ?_, ?_, ?_, ?_, ⟨?_, ?_⟩, ?_, ?_, ?_, rfl, rfl⟩
  · simp only [SolveM, hnull]
  · simp only [SolveMDelta, hnull]
  · simp only [CalcFluxTent, hnull]
  · simp only [CalcViscosityTent, hnull]
  · simp only [CalcEntropyResidualTent, hnull]
  · simp only [CalcViscosityCoefficientTent, hnull]
  · simp only [CalcViscosityCoefficientTent, hnull]
  · simp only [Cyl2Tent, hnull]
  · simp only [ApplyM1, hnull]
  · simp only [Tent2Cyl, hnull]

/-- C10, evaluated on the tent of two intervals whose `fedata` is null: `CalcFluxTent`
throws "fedata not set" and the flux matrix and the time are the ones passed in. -/
theorem kernels_throw_on_null_fedata_witness :
    CalcFluxTent (lawAdvection 0) (mkTent2 none) (oneRow 3) (oneRow 0) ⟨oneRow 10, 5⟩ 0 =
      ⟨some Exception.fedataNotSet, ⟨oneRow 10, 5⟩⟩ :=
  (kernels_throw_on_null_fedata (W := 1) (lawAdvection 0) (mkTent2 none) rfl (0 : Fin 2)
    (fun _ => 1) (oneRow 10) 0 (oneRow 3) (oneRow 0) (oneRow 0) (oneRow 0) (oneRow 0)
    ⟨oneRow 10, 5⟩ (oneRow 0) (oneRow 0) (fun _ => 0) (fun _ => 0) 0 true
    (fun _ _ _ _ => 0)).2.2.1

/-! ### Additive updates of a flat matrix -/

theorem setRows_add {W : ℕ} (M : FlatMat W) (first n : ℕ) (inc : Block n W) :
    M.setRows first n (fun k c => M.Rows first n k c + inc k c) = M + rowInc first n inc := by
  funext r c
  by_cases h : first ≤ r ∧ r < first + n
  · have hr : first + (r - first) = r := by omega
    simp [FlatMat.setRows, rowInc, h, FlatMat.Rows, hr]
  · simp [FlatMat.setRows, rowInc, h]

theorem setRows_AddTrans {DIM n W : ℕ} (fel : DGFiniteElement DIM)
    (ir : SIMD_IntegrationRule DIM n) (vals : PntVals W n) (M : FlatMat W) (first : ℕ) :
    M.setRows first fel.ndof (fel.AddTrans ir vals (M.Rows first fel.ndof)) =
      M + rowInc first fel.ndof (fun k c => ∑ q, fel.shape (ir.pt q) k * vals c q) :=
  setRows_add M first fel.ndof _

theorem setRows_AddGradTrans {DIM n W : ℕ} (fel : DGFiniteElement DIM)
    (mir : SIMD_MappedIntegrationRule DIM n) (vals : TallVals n) (M : FlatMat W) (first : ℕ) :
    M.setRows first fel.ndof (fel.AddGradTrans mir vals (M.Rows first fel.ndof)) =
      M + rowInc first fel.ndof
        (fun k c => ∑ q, ∑ j : Fin DIM, fel.mappedDShape mir q k j * vals (c.val * DIM + j.val) q) :=
  setRows_add M first fel.ndof _

theorem rowInc_zero {W : ℕ} (first n : ℕ) : rowInc first n (fun _ _ => (0 : Scal)) = (0 : FlatMat W) := by
  funext r c
  simp [rowInc]

theorem rowInc_add {W : ℕ} (first n : ℕ) (a b : Block n W) :
    rowInc first n (fun k c => a k c + b k c) = rowInc first n a + rowInc first n b := by
  funext r c
  by_cases h : first ≤ r ∧ r < first + n <;> simp [rowInc, h]

theorem rowInc_neg {W : ℕ} (first n : ℕ) (a : Block n W) :
    rowInc first n (fun k c => -a k c) = -rowInc first n a := by
  funext r c
  by_cases h : first ≤ r ∧ r < first + n <;> simp [rowInc, h]

theorem rowInc_sum {W : ℕ} {ι : Type} (s : Finset ι) (first n : ℕ) (a : ι → Block n W) :
    rowInc first n (fun k c => ∑ i ∈ s, a i k c) = ∑ i ∈ s, rowInc first n (a i) := by
  funext r c
  by_cases h : first ≤ r ∧ r < first + n
  · simp [rowInc, h, Finset.sum_apply]
  · simp [rowInc, h, Finset.sum_apply]

theorem foldl_add_eq {α σ : Type} [AddCommMonoid σ] (l : List α) (g : α → σ) (s : σ) :
    l.foldl (fun m a => m + g a) s = s + (l.map g).sum := by
  induction l generalizing s with
  | nil => simp
  | cons a l ih => simp [ih, add_assoc]

theorem runLoop_add_eq {α σ : Type} [AddCommMonoid σ] (l : List α) (f : α → σ → Run σ)
    (g : α → σ) (h : ∀ a ∈ l, ∀ s, f a s = ⟨none, s + g a⟩) (s : σ) :
    runLoop l f s = ⟨none, s + (l.map g).sum⟩ := by
  induction l generalizing s with
  | nil => simp [runLoop]
  | cons a l ih =>
      unfold runLoop
      rw [h a (List.mem_cons_self a l) s]
      simp only
      rw [ih (fun b hb s' => h b (List.mem_cons_of_mem a hb) s')]
      simp [add_assoc]

theorem runLoop_fixed {α σ : Type} (l : List α) (f : α → σ → Run σ) (s : σ)
    (h : ∀ a ∈ l, f a s = ⟨none, s⟩) : runLoop l f s = ⟨none, s⟩ := by
  induction l with
  | nil => rfl
  | cons a l ih =>
      unfold runLoop
      rw [h a (List.mem_cons_self a l)]
      exact ih (fun b hb => h b (List.mem_cons_of_mem a hb))

theorem sum_map_finRange {n : ℕ} {σ : Type} [AddCommMonoid σ] (g : Fin n → σ) :
    ((List.finRange n).map g).sum = ∑ i, g i := by
  rw [Fin.sum_univ_def]

/-! ### The re-layout loop -/

theorem relayout_inner {n : ℕ} (DIM COMP i : ℕ) (src d : TallVals n) (m : ℕ) :
    (List.range m).foldl
      (fun d' j => Function.update d' (i * DIM + j) (src (j * COMP + i))) d =
    fun r => if i * DIM ≤ r ∧ r < i * DIM + m then src ((r - i * DIM) * COMP + i) else d r := by
  induction m with
  | zero =>
      funext r
      have : ¬ (i * DIM ≤ r ∧ r < i * DIM) := by omega
      simp [this]
  | succ m ih =>
      rw [List.range_succ, List.foldl_append, ih]
      funext r
      simp only [List.foldl_cons, List.foldl_nil, Function.update_apply]
      generalize i * DIM = a
      by_cases h1 : r = a + m
      · subst h1
        have : a ≤ a + m ∧ a + m < a + (m + 1) := by omega
        simp [this]
      · by_cases h2 : a ≤ r ∧ r < a + m
        · have : a ≤ r ∧ r < a + (m + 1) := by omega
          simp [h1, h2, this]
        · have : ¬ (a ≤ r ∧ r < a + (m + 1)) := by omega
          simp [h1, h2, this]

theorem relayout_outer {n : ℕ} (DIM COMP : ℕ) (src dst : TallVals n) (m : ℕ) :
    (List.range m).foldl
      (fun d i => (List.range DIM).foldl
        (fun d' j => Function.update d' (i * DIM + j) (src (j * COMP + i))) d) dst =
    fun r => if r < m * DIM then src ((r % DIM) * COMP + r / DIM) else dst r := by
  induction m with
  | zero =>
      funext r
      simp
  | succ m ih =>
      rw [List.range_succ, List.foldl_append, ih]
      simp only [List.foldl_cons, List.foldl_nil]
      rw [relayout_inner]
      funext r
      by_cases h : m * DIM ≤ r ∧ r < m * DIM + DIM
      · have hpos : 0 < DIM := by omega
        have hlt : r < (m + 1) * DIM := by rw [Nat.add_mul, Nat.one_mul]; exact h.2
        have hdiv : r / DIM = m := by
          apply Nat.div_eq_of_lt_le
          · exact h.1
          · exact hlt
        have hmod : r % DIM = r - m * DIM := by
          have := Nat.div_add_mod r DIM
          rw [hdiv, Nat.mul_comm] at this
          omega
        simp [h, hlt, hdiv, hmod]
      · by_cases h2 : r < m * DIM
        · have hlt : r < (m + 1) * DIM := by rw [Nat.add_mul, Nat.one_mul]; omega
          simp [h, h2, hlt]
        · have hlt : ¬ r < (m + 1) * DIM := by rw [Nat.add_mul, Nat.one_mul]; omega
          simp [h, h2, hlt]

theorem relayout_eq {n : ℕ} (DIM COMP : ℕ) (src dst : TallVals n) :
    relayout DIM COMP src dst =
      fun r => if r < COMP * DIM then src ((r % DIM) * COMP + r / DIM) else dst r :=
  relayout_outer DIM COMP src dst COMP

theorem relayout_apply {n : ℕ} (DIM COMP : ℕ) (src dst : TallVals n) (c j : ℕ)
    (hc : c < COMP) (hj : j < DIM) :
    relayout DIM COMP src dst (c * DIM + j) = src (j * COMP + c) := by
  rw [relayout_eq]
  have hlt : c * DIM + j < COMP * DIM := by
    calc c * DIM + j < c * DIM + DIM := by omega
      _ = (c + 1) * DIM := by rw [Nat.add_mul, Nat.one_mul]
      _ ≤ COMP * DIM := Nat.mul_le_mul_right DIM hc
  have hmod : (c * DIM + j) % DIM = j := by
    rw [Nat.add_comm, Nat.add_mul_mod_self_right, Nat.mod_eq_of_lt hj]
  have hdiv : (c * DIM + j) / DIM = c := by
    rw [Nat.add_comm, Nat.add_mul_div_right _ _ (by omega : 0 < DIM), Nat.div_eq_of_lt hj,
      Nat.zero_add]
  simp only [hlt, if_true, hmod, hdiv]

/-! ### `CalcFluxTent` as a sum of contributions -/

theorem CalcFluxTent_volume_eq {DIM COMP ECOMP nels nfac : ℕ}
    (law : T_ConservationLaw DIM COMP ECOMP) (fd : TentDataFE DIM nels nfac) (u : FlatMat COMP)
    (e : Fin nels) (flux : FlatMat COMP) :
    CalcFluxTent.volume law fd u e flux =
      flux + rowInc (fd.ranges e) (fd.ndof e) (fun k c =>
        ∑ q, ∑ j : Fin DIM, (fd.fei e).mappedDShape (fd.miri e) q k j *
          (law.eq.Flux (fd.miri e)
              ((fd.fei e).Evaluate (fd.iri e) (u.Rows (fd.ranges e) (fd.ndof e)))
              (j.val * COMP + c.val) q *
            ((fd.miri e).weight q * fd.adelta e q))) := by
  simp only [CalcFluxTent.volume, setRows_AddGradTrans]
  refine congrArg (fun b => flux + rowInc (fd.ranges e) (fd.ndof e) b) ?_
  funext k c
  apply Finset.sum_congr rfl
  intro q _
  apply Finset.sum_congr rfl
  intro j _
  rw [relayout_apply DIM COMP _ _ c.val j.val c.isLt j.isLt]

theorem CalcFluxTent_innerFacet_eq {DIM COMP ECOMP nels nfac : ℕ}
    (law : T_ConservationLaw DIM COMP ECOMP) (fd : TentDataFE DIM nels nfac) (u : FlatMat COMP)
    (i : Fin nfac) (e1 e2 : Fin nels) (flux : FlatMat COMP) :
    CalcFluxTent.innerFacet law fd u i e1 e2 flux =
      flux +
        (rowInc (fd.ranges e1) (fd.ndof e1) (fun k c =>
          ∑ q, (fd.fei e1).shape ((fd.firi i).1.pt q) k *
            (law.eq.NumFlux (fd.mfiri1 i)
                ((fd.fei e1).Evaluate (fd.firi i).1 (u.Rows (fd.ranges e1) (fd.ndof e1)))
                ((fd.fei e2).Evaluate (fd.firi i).2 (u.Rows (fd.ranges e2) (fd.ndof e2)))
                (fd.anormals i) c q *
              (-1 * fd.adelta_facet i q * (fd.mfiri1 i).weight q))) +
        rowInc (fd.ranges e2) (fd.ndof e2) (fun k c =>
          ∑ q, (fd.fei e2).shape ((fd.firi i).2.pt q) k *
            (law.eq.NumFlux (fd.mfiri1 i)
                ((fd.fei e1).Evaluate (fd.firi i).1 (u.Rows (fd.ranges e1) (fd.ndof e1)))
                ((fd.fei e2).Evaluate (fd.firi i).2 (u.Rows (fd.ranges e2) (fd.ndof e2)))
                (fd.anormals i) c q *
              (-1 * fd.adelta_facet i q * (fd.mfiri1 i).weight q) * -1))) := by
  simp only [CalcFluxTent.innerFacet, setRows_AddTrans, add_assoc]

theorem CalcFluxTent_boundaryFacet_eq {DIM COMP ECOMP nels nfac : ℕ}
    (law : T_ConservationLaw DIM COMP ECOMP) (fd : TentDataFE DIM nels nfac)
    (u u0 : FlatMat COMP) (i : Fin nfac) (facetnr : ℕ) (e1 : Fin nels) (flux : FlatMat COMP)
    (u2 : PntVals COMP (fd.nqf i))
    (h : CalcFluxTent.boundaryTrace law fd u0 i e1
      ((fd.fei e1).Evaluate (fd.firi i).1 (u.Rows (fd.ranges e1) (fd.ndof e1)))
      (law.bcnr facetnr) = Except.ok u2) :
    CalcFluxTent.boundaryFacet law fd u u0 i facetnr e1 flux =
      ⟨none, flux + rowInc (fd.ranges e1) (fd.ndof e1) (fun k c =>
          ∑ q, (fd.fei e1).shape ((fd.firi i).1.pt q) k *
            (law.eq.NumFlux (fd.mfiri1 i)
                ((fd.fei e1).Evaluate (fd.firi i).1 (u.Rows (fd.ranges e1) (fd.ndof e1)))
                u2 (fd.anormals i) c q *
              (-1 * fd.adelta_facet i q * (fd.mfiri1 i).weight q)))⟩ := by
  have h' : CalcFluxTent.boundaryTrace law fd u0 i e1
      ((fd.fei e1).Evaluate (fd.firi i).1 (u.Rows (fd.ranges e1) (fd.fei e1).ndof))
      (law.bcnr facetnr) = Except.ok u2 := h
  simp only [CalcFluxTent.boundaryFacet, h', setRows_AddTrans]

theorem SolveMBlock_zero {DIM W : ℕ} (ma : MeshAccess) (tent : Tent DIM)
    (fd : TentDataFE DIM tent.nels tent.nfac) (loci : Fin tent.nels) :
    SolveMBlock ma tent fd loci (fun _ _ => (0 : Scal)) = (fun _ _ => 0 : Block (fd.ndof loci) W) := by
  funext k c
  by_cases h : ma.is_curved (tent.els loci) = true
  · rw [SolveMBlock_curved ma tent fd loci h]
    simp [twoPass]
  · have h' : ma.is_curved (tent.els loci) = false := by simpa using h
    rw [SolveMBlock_straight ma tent fd loci h']
    simp

theorem SolveM_zero {DIM W : ℕ} (ma : MeshAccess) (tent : Tent DIM)
    (fd : TentDataFE DIM tent.nels tent.nfac) (hfd : tent.fedata = some fd)
    (loci : Fin tent.nels) (first : ℕ) :
    SolveM ma tent loci (0 : FlatMat W) first = ⟨none, 0⟩ := by
  simp only [SolveM, hfd]
  have : (0 : FlatMat W).Rows first (fd.ndof loci) = fun _ _ => 0 := rfl
  rw [this, SolveMBlock_zero]
  congr 1
  funext r c
  by_cases h : first ≤ r ∧ r < first + fd.ndof loci <;> simp [FlatMat.setRows, h]

theorem rowInc_ite {W : ℕ} (first n : ℕ) (p : Prop) [Decidable p] (a : Block n W) :
    rowInc first n (fun k c => if p then a k c else 0) = if p then rowInc first n a else 0 := by
  by_cases hp : p
  · simp [hp]
  · simp only [hp, if_false]
    exact rowInc_zero first n

/-- The contributions of a constant state to the rows of element `e`, summed over the
volume term and the facets of the tent at `e`, are the constant flux tested with the
discrete gradient of the tent height. -/
theorem restState_element_sum {DIM COMP nels nfac : ℕ} (fd : TentDataFE DIM nels nfac)
    (F : Fin DIM → Fin COMP → Scal) (e : Fin nels) (k : Fin (fd.ndof e)) (c : Fin COMP) :
    (∑ q, ∑ j : Fin DIM, (fd.fei e).mappedDShape (fd.miri e) q k j *
        (F j c * ((fd.miri e).weight q * fd.adelta e q)))
    + (∑ f, if (fd.felpos f).1 = e then
        ∑ q, (fd.fei e).shape ((fd.firi f).1.pt q) k *
          ((∑ j, F j c * fd.anormals f j q) *
            (-1 * fd.adelta_facet f q * (fd.mfiri1 f).weight q)) else 0)
    + (∑ f, if (fd.felpos f).2 = some e then
        ∑ q, (fd.fei e).shape ((fd.firi f).2.pt q) k *
          ((∑ j, F j c * fd.anormals f j q) *
            (-1 * fd.adelta_facet f q * (fd.mfiri1 f).weight q) * -1) else 0)
    = ∑ j, F j c * heightDefect fd e k j := by
  have hV : (∑ q, ∑ j : Fin DIM, (fd.fei e).mappedDShape (fd.miri e) q k j *
        (F j c * ((fd.miri e).weight q * fd.adelta e q)))
      = ∑ j, F j c * ∑ q, (fd.fei e).mappedDShape (fd.miri e) q k j *
          ((fd.miri e).weight q * fd.adelta e q) := by
    rw [Finset.sum_comm]
    apply Finset.sum_congr rfl
    intro j _
    rw [Finset.mul_sum]
    apply Finset.sum_congr rfl
    intro q _
    ring
  have hA1 : ∀ (pt : (f : Fin nfac) → Fin (fd.nqf f) → RefPt DIM) (f : Fin nfac),
      (∑ q, (fd.fei e).shape (pt f q) k *
          ((∑ j, F j c * fd.anormals f j q) *
            (-1 * fd.adelta_facet f q * (fd.mfiri1 f).weight q)))
      = -∑ j, F j c * ∑ q, (fd.fei e).shape (pt f q) k *
          (fd.anormals f j q * (fd.adelta_facet f q * (fd.mfiri1 f).weight q)) := by
    intro pt f
    rw [← Finset.sum_neg_distrib]
    simp only [Finset.mul_sum, Finset.sum_mul]
    rw [Finset.sum_comm]
    apply Finset.sum_congr rfl
    intro j _
    rw [← Finset.sum_neg_distrib]
    apply Finset.sum_congr rfl
    intro q _
    ring
  have hA2 : ∀ (pt : (f : Fin nfac) → Fin (fd.nqf f) → RefPt DIM) (f : Fin nfac),
      (∑ q, (fd.fei e).shape (pt f q) k *
          ((∑ j, F j c * fd.anormals f j q) *
            (-1 * fd.adelta_facet f q * (fd.mfiri1 f).weight q) * -1))
      = ∑ j, F j c * ∑ q, (fd.fei e).shape (pt f q) k *
          (fd.anormals f j q * (fd.adelta_facet f q * (fd.mfiri1 f).weight q)) := by
    intro pt f
    simp only [Finset.mul_sum, Finset.sum_mul]
    rw [Finset.sum_comm]
    apply Finset.sum_congr rfl
    intro j _
    apply Finset.sum_congr rfl
    intro q _
    ring
  have h1 : (∑ f, if (fd.felpos f).1 = e then
        ∑ q, (fd.fei e).shape ((fd.firi f).1.pt q) k *
          ((∑ j, F j c * fd.anormals f j q) *
            (-1 * fd.adelta_facet f q * (fd.mfiri1 f).weight q)) else 0)
      = -∑ j, F j c * ∑ f, if (fd.felpos f).1 = e then
          ∑ q, (fd.fei e).shape ((fd.firi f).1.pt q) k *
            (fd.anormals f j q * (fd.adelta_facet f q * (fd.mfiri1 f).weight q)) else 0 := by
    have hper : ∀ f, (if (fd.felpos f).1 = e then
        ∑ q, (fd.fei e).shape ((fd.firi f).1.pt q) k *
          ((∑ j, F j c * fd.anormals f j q) *
            (-1 * fd.adelta_facet f q * (fd.mfiri1 f).weight q)) else 0)
        = -∑ j, F j c * (if (fd.felpos f).1 = e then
          ∑ q, (fd.fei e).shape ((fd.firi f).1.pt q) k *
            (fd.anormals f j q * (fd.adelta_facet f q * (fd.mfiri1 f).weight q)) else 0) := by
      intro f
      by_cases hf : (fd.felpos f).1 = e
      · simp only [hf, if_true]
        exact hA1 (fun f q => (fd.firi f).1.pt q) f
      · simp [hf]
    rw [Finset.sum_congr rfl (fun f _ => hper f), Finset.sum_neg_distrib, Finset.sum_comm]
    congr 1
    apply Finset.sum_congr rfl
    intro j _
    rw [Finset.mul_sum]
  have h2 : (∑ f, if (fd.felpos f).2 = some e then
        ∑ q, (fd.fei e).shape ((fd.firi f).2.pt q) k *
          ((∑ j, F j c * fd.anormals f j q) *
            (-1 * fd.adelta_facet f q * (fd.mfiri1 f).weight q) * -1) else 0)
      = ∑ j, F j c * ∑ f, if (fd.felpos f).2 = some e then
          ∑ q, (fd.fei e).shape ((fd.firi f).2.pt q) k *
            (fd.anormals f j q * (fd.adelta_facet f q * (fd.mfiri1 f).weight q)) else 0 := by
    have hper : ∀ f, (if (fd.felpos f).2 = some e then
        ∑ q, (fd.fei e).shape ((fd.firi f).2.pt q) k *
          ((∑ j, F j c * fd.anormals f j q) *
            (-1 * fd.adelta_facet f q * (fd.mfiri1 f).weight q) * -1) else 0)
        = ∑ j, F j c * (if (fd.felpos f).2 = some e then
          ∑ q, (fd.fei e).shape ((fd.firi f).2.pt q) k *
            (fd.anormals f j q * (fd.adelta_facet f q * (fd.mfiri1 f).weight q)) else 0) := by
      intro f
      by_cases hf : (fd.felpos f).2 = some e
      · simp only [hf, if_true]
        exact hA2 (fun f q => (fd.firi f).2.pt q) f
      · simp [hf]
    rw [Finset.sum_congr rfl (fun f _ => hper f), Finset.sum_comm]
    apply Finset.sum_congr rfl
    intro j _
    rw [Finset.mul_sum]
  rw [hV, h1, h2]
  simp only [heightDefect, mul_add, mul_sub, Finset.sum_add_distrib, Finset.sum_sub_distrib]
  ring

theorem sum_rowInc_fst {DIM nels nfac W : ℕ} (fd : TentDataFE DIM nels nfac) (e' : Fin nels)
    (X : (e : Fin nels) → Block (fd.ndof e) W) :
    (∑ e, if e' = e then rowInc (fd.ranges e) (fd.ndof e) (X e) else 0) =
      rowInc (fd.ranges e') (fd.ndof e') (X e') := by
  rw [Finset.sum_ite_eq]
  simp

theorem restState_assembled {DIM COMP ECOMP : ℕ}
    (law : T_ConservationLaw DIM COMP ECOMP)
    (tent : Tent DIM) (fd : TentDataFE DIM tent.nels tent.nfac)
    (u u0 : FlatMat COMP)
    (cst : Fin COMP → Scal) (F : Fin DIM → Fin COMP → Scal)
    (hvol : ∀ e, (fd.fei e).Evaluate (fd.iri e) (u.Rows (fd.ranges e) (fd.ndof e)) =
      fun c _ => cst c)
    (hfac1 : ∀ f, (fd.fei (fd.felpos f).1).Evaluate (fd.firi f).1
      (u.Rows (fd.ranges (fd.felpos f).1) (fd.ndof (fd.felpos f).1)) = fun c _ => cst c)
    (hfac2 : ∀ f e2, (fd.felpos f).2 = some e2 →
      (fd.fei e2).Evaluate (fd.firi f).2 (u.Rows (fd.ranges e2) (fd.ndof e2)) = fun c _ => cst c)
    (hbc : ∀ f, (fd.felpos f).2 = none →
      CalcFluxTent.boundaryTrace law fd u0 f (fd.felpos f).1 (fun c _ => cst c)
        (law.bcnr (tent.internal_facets f)) = Except.ok (fun c _ => cst c))
    (hFlux : ∀ e (j : Fin DIM) (c : Fin COMP) (q : Fin (fd.nq e)),
      law.eq.Flux (fd.miri e) (fun c _ => cst c) (j.val * COMP + c.val) q = F j c)
    (hNum : ∀ f (c : Fin COMP) (q : Fin (fd.nqf f)),
      law.eq.NumFlux (fd.mfiri1 f) (fun c _ => cst c) (fun c _ => cst c) (fd.anormals f) c q =
        ∑ j, F j c * fd.anormals f j q) :
    runLoop (List.finRange tent.nfac)
      (fun i flux => CalcFluxTent.facet law tent fd u u0 i flux)
      ((List.finRange tent.nels).foldl
        (fun flux i => CalcFluxTent.volume law fd u i flux) (fun _ _ => 0)) =
      ⟨none, ∑ e, rowInc (fd.ranges e) (fd.ndof e)
        (fun k c => ∑ j, F j c * heightDefect fd e k j)⟩ := by
  -- the contributions, for an arbitrary element `e`
  let V : (e : Fin tent.nels) → Block (fd.ndof e) COMP := fun e k c =>
    ∑ q, ∑ j : Fin DIM, (fd.fei e).mappedDShape (fd.miri e) q k j *
      (F j c * ((fd.miri e).weight q * fd.adelta e q))
  let A1 : Fin tent.nfac → (e : Fin tent.nels) → Block (fd.ndof e) COMP := fun f e k c =>
    ∑ q, (fd.fei e).shape ((fd.firi f).1.pt q) k *
      ((∑ j, F j c * fd.anormals f j q) * (-1 * fd.adelta_facet f q * (fd.mfiri1 f).weight q))
  let A2 : Fin tent.nfac → (e : Fin tent.nels) → Block (fd.ndof e) COMP := fun f e k c =>
    ∑ q, (fd.fei e).shape ((fd.firi f).2.pt q) k *
      ((∑ j, F j c * fd.anormals f j q) *
        (-1 * fd.adelta_facet f q * (fd.mfiri1 f).weight q) * -1)
  let facInc : Fin tent.nfac → FlatMat COMP := fun f =>
    rowInc (fd.ranges (fd.felpos f).1) (fd.ndof (fd.felpos f).1) (A1 f (fd.felpos f).1) +
      match (fd.felpos f).2 with
      | some e2 => rowInc (fd.ranges e2) (fd.ndof e2) (A2 f e2)
      | none => 0
  -- volume loop
  have hvolstep : (fun (flux : FlatMat COMP) (i : Fin tent.nels) =>
      CalcFluxTent.volume law fd u i flux) =
      fun flux i => flux + rowInc (fd.ranges i) (fd.ndof i) (V i) := by
    funext flux i
    rw [CalcFluxTent_volume_eq, hvol]
    refine congrArg (fun b => flux + rowInc (fd.ranges i) (fd.ndof i) b) ?_
    funext k c
    apply Finset.sum_congr rfl
    intro q _
    apply Finset.sum_congr rfl
    intro j _
    rw [hFlux]
  -- facet loop
  have hfacstep : ∀ f ∈ List.finRange tent.nfac, ∀ flux : FlatMat COMP,
      CalcFluxTent.facet law tent fd u u0 f flux = ⟨none, flux + facInc f⟩ := by
    intro f _ flux
    cases hb : (fd.felpos f).2 with
    | some e2 =>
        simp only [CalcFluxTent.facet, hb, CalcFluxTent_innerFacet_eq, hfac1 f, hfac2 f e2 hb,
          hNum, facInc, A1, A2]
    | none =>
        have htr := hbc f hb
        rw [← hfac1 f] at htr
        simp only [CalcFluxTent.facet, hb]
        rw [CalcFluxTent_boundaryFacet_eq law fd u u0 f _ _ flux _ htr]
        simp only [hfac1 f, hNum, facInc, A1, hb, add_zero]
  -- the sum of all contributions, element by element
  have hsum : (∑ e, rowInc (fd.ranges e) (fd.ndof e) (V e)) + ∑ f, facInc f =
      ∑ e, rowInc (fd.ranges e) (fd.ndof e)
        (fun k c => ∑ j, F j c * heightDefect fd e k j) := by
    have hfac : ∀ f, facInc f =
        (∑ e, if (fd.felpos f).1 = e then rowInc (fd.ranges e) (fd.ndof e) (A1 f e) else 0) +
        ∑ e, if (fd.felpos f).2 = some e then rowInc (fd.ranges e) (fd.ndof e) (A2 f e) else 0 := by
      intro f
      rw [sum_rowInc_fst fd (fd.felpos f).1 (A1 f)]
      cases hb : (fd.felpos f).2 with
      | none => simp [facInc, hb]
      | some e2 =>
          simp only [facInc, hb, Option.some.injEq]
          rw [Finset.sum_ite_eq]
          simp
    rw [Finset.sum_congr rfl (fun f _ => hfac f), Finset.sum_add_distrib,
      Finset.sum_comm, Finset.sum_comm (s := Finset.univ) (t := Finset.univ)
        (f := fun f e => if (fd.felpos f).2 = some e then
          rowInc (fd.ranges e) (fd.ndof e) (A2 f e) else 0),
      ← add_assoc, ← Finset.sum_add_distrib, ← Finset.sum_add_distrib]
    apply Finset.sum_congr rfl
    intro e _
    have hblock : (fun k c => V e k c + (∑ f, if (fd.felpos f).1 = e then A1 f e k c else 0)
        + ∑ f, if (fd.felpos f).2 = some e then A2 f e k c else 0)
        = fun (k : Fin (fd.ndof e)) (c : Fin COMP) => ∑ j, F j c * heightDefect fd e k j := by
      funext k c
      rw [restState_element_sum fd F e k c]
    have hs1 : rowInc (fd.ranges e) (fd.ndof e)
        (fun k c => ∑ f, if (fd.felpos f).1 = e then A1 f e k c else 0) =
        ∑ f, if (fd.felpos f).1 = e then rowInc (fd.ranges e) (fd.ndof e) (A1 f e) else 0 :=
      (rowInc_sum Finset.univ _ _
        (fun f k c => if (fd.felpos f).1 = e then A1 f e k c else 0)).trans
        (Finset.sum_congr rfl (fun f _ => rowInc_ite _ _ _ _))
    have hs2 : rowInc (fd.ranges e) (fd.ndof e)
        (fun k c => ∑ f, if (fd.felpos f).2 = some e then A2 f e k c else 0) =
        ∑ f, if (fd.felpos f).2 = some e then rowInc (fd.ranges e) (fd.ndof e) (A2 f e) else 0 :=
      (rowInc_sum Finset.univ _ _
        (fun f k c => if (fd.felpos f).2 = some e then A2 f e k c else 0)).trans
        (Finset.sum_congr rfl (fun f _ => rowInc_ite _ _ _ _))
    have := congrArg (rowInc (W := COMP) (fd.ranges e) (fd.ndof e)) hblock
    rw [rowInc_add, rowInc_add, hs1, hs2] at this
    exact this
  rw [hvolstep, foldl_add_eq, runLoop_add_eq _ _ facInc hfacstep, sum_map_finRange,
    sum_map_finRange]
  have h0 : (fun (_ : ℕ) (_ : Fin COMP) => (0 : Scal)) = 0 := rfl
  rw [h0, zero_add, hsum]

theorem finRange_two : List.finRange 2 = [0, 1] := by decide

theorem finRange_one : List.finRange 1 = [0] := by decide

/-- C4 as stated fails. On the tent of two unit intervals around `x = 1` (linear
elements, Simpson's rule, hat-shaped tent height, one interior facet and no other), for
the advection equation with upwind flux, the coefficients of the constant `1` evaluate
to `1` at every volume and facet point, and `CalcFluxTent` returns `-1` in row `0` and
`+1` in row `2`: minus the flux tested with the gradient of the tent height. -/
theorem CalcFluxTent_rest_state_fails :
    ((fdHat.felpos (0 : Fin 1)).2 = some 1) ∧
    (∀ (e : Fin 2) (q : Fin 3), (fdHat.fei e).Evaluate (fdHat.iri e)
      ((constP1 1).Rows (fdHat.ranges e) (fdHat.ndof e)) 0 q = 1) ∧
    ((fdHat.fei 0).Evaluate (fdHat.firi 0).1
      ((constP1 1).Rows (fdHat.ranges 0) (fdHat.ndof 0)) 0 (0 : Fin 1) = 1) ∧
    ((fdHat.fei 1).Evaluate (fdHat.firi 0).2
      ((constP1 1).Rows (fdHat.ranges 1) (fdHat.ndof 1)) 0 (0 : Fin 1) = 1) ∧
    (CalcFluxTent (lawAdvection 0) (mkTent2 (some fdHat)) (constP1 1) (constP1 1)
      ⟨fun _ _ => 0, 0⟩ (1 / 2)).exc = none ∧
    (CalcFluxTent (lawAdvection 0) (mkTent2 (some fdHat)) (constP1 1) (constP1 1)
      ⟨fun _ _ => 0, 0⟩ (1 / 2)).out.flux 0 0 = -1 ∧
    (CalcFluxTent (lawAdvection 0) (mkTent2 (some fdHat)) (constP1 1) (constP1 1)
      ⟨fun _ _ => 0, 0⟩ (1 / 2)).out.flux 2 0 = 1 := by
  refine ⟨rfl, ?_, ?_, ?_, ?_, ?_, ?_⟩
  · intro e q
    fin_cases e <;> fin_cases q <;>
      simp [fdHat, mkFedata2, felP1, irSimpson, constP1, DGFiniteElement.Evaluate, FlatMat.Rows,
        Fin.sum_univ_two, TentDataFE.ndof]
  · simp [fdHat, mkFedata2, felP1, irPoint, constP1, DGFiniteElement.Evaluate, FlatMat.Rows,
      Fin.sum_univ_two, TentDataFE.ndof]
  · simp [fdHat, mkFedata2, felP1, irPoint, constP1, DGFiniteElement.Evaluate, FlatMat.Rows,
      Fin.sum_univ_two, TentDataFE.ndof]
  · simp [CalcFluxTent, finRange_two, finRange_one, runLoop, CalcFluxTent.facet, fdHat,
      mkFedata2, SolveM]
  · simp [CalcFluxTent, finRange_two, finRange_one, runLoop, CalcFluxTent.volume,
      CalcFluxTent.facet, CalcFluxTent.innerFacet, fdHat, mkFedata2, SolveM, SolveMBlock,
      lawAdvection, meshStraight, eqAdvection, relayout, FlatMat.setRows, FlatMat.Rows,
      DGFiniteElement.Evaluate, DGFiniteElement.AddTrans, DGFiniteElement.AddGradTrans,
      DGFiniteElement.mappedDShape, felP1, irSimpson, irPoint, mkMir, constP1,
      TentDataFE.measure0, TentDataFE.ndof, Fin.sum_univ_two, Fin.sum_univ_three,
      List.range_succ, Function.update]
  · simp [CalcFluxTent, finRange_two, finRange_one, runLoop, CalcFluxTent.volume,
      CalcFluxTent.facet, CalcFluxTent.innerFacet, fdHat, mkFedata2, SolveM, SolveMBlock,
      lawAdvection, meshStraight, eqAdvection, relayout, FlatMat.setRows, FlatMat.Rows,
      DGFiniteElement.Evaluate, DGFiniteElement.AddTrans, DGFiniteElement.AddGradTrans,
      DGFiniteElement.mappedDShape, felP1, irSimpson, irPoint, mkMir, constP1,
      TentDataFE.measure0, TentDataFE.ndof, Fin.sum_univ_two, Fin.sum_univ_three,
      List.range_succ, Function.update]

/-! ### The round trip `Cyl2Tent ∘ Tent2Cyl` -/

theorem Evaluate_projBlock {DIM nels nfac W : ℕ} {fd : TentDataFE DIM nels nfac} {i : Fin nels}
    (h : Collocated fd i) (y : PntVals W (fd.nq i)) (c : Fin W) (q : Fin (fd.nq i))
    (hq : (fd.iri i).weight q ≠ 0) :
    (fd.fei i).Evaluate (fd.iri i) (projBlock fd i y) c q = y c q := by
  have := h.right (Matrix.of (fun q c => y c q)) q hq c
  simpa [Matrix.mul_apply, shapeMat, DGFiniteElement.Evaluate, projBlock] using this

theorem projBlock_Evaluate {DIM nels nfac W : ℕ} {fd : TentDataFE DIM nels nfac} {i : Fin nels}
    (h : MassExact fd i) (x : Block (fd.ndof i) W) :
    projBlock fd i ((fd.fei i).Evaluate (fd.iri i) x) = x := by
  have h1 : projMat fd i * (shapeMat fd i * Matrix.of x) = Matrix.of x := by
    rw [← Matrix.mul_assoc, h.left, Matrix.one_mul]
  have h2 : Matrix.of (fun q c => (fd.fei i).Evaluate (fd.iri i) x c q) =
      shapeMat fd i * Matrix.of x := by
    ext q c
    simp [Matrix.mul_apply, shapeMat, DGFiniteElement.Evaluate]
  unfold projBlock
  rw [h2, h1]
  rfl

theorem projBlock_congr {DIM nels nfac W : ℕ} (fd : TentDataFE DIM nels nfac) (i : Fin nels)
    (y y' : PntVals W (fd.nq i))
    (h : ∀ q, (fd.iri i).weight q ≠ 0 → ∀ c, y c q = y' c q) :
    projBlock fd i y = projBlock fd i y' :=
  projMat_mul_congr fd i _ _ (fun q hq c => h q hq c)

theorem SolveMBlock_AddTrans_weight {DIM W : ℕ} (ma : MeshAccess) (tent : Tent DIM)
    (fd : TentDataFE DIM tent.nels tent.nfac) (hc : fd.Consistent ma tent)
    (i : Fin tent.nels) (h : Collocated fd i) (y : PntVals W (fd.nq i)) :
    SolveMBlock ma tent fd i
      ((fd.fei i).AddTrans (fd.iri i) (fun c q => y c q * (fd.miri i).weight q) (fun _ _ => 0)) =
      projBlock fd i y := by
  by_cases hcur : ma.is_curved (tent.els i) = true
  · rw [SolveMBlock_curved ma tent fd i hcur]
    have hs : (fun q => (fd.iri i).weight q / (fd.miri i).measure q) =
        fun q => (fd.iri i).weight q * ((fd.miri i).measure q)⁻¹ := by
      funext q
      rw [div_eq_mul_inv]
    rw [hs, twoPass_eq_mul]
    have hr : rowScaled fd i
        ((fd.fei i).AddTrans (fd.iri i) (fun c q => y c q * (fd.miri i).weight q) (fun _ _ => 0)) =
        projMat fd i * pntScaled (fd.miri i).measure (Matrix.of (fun q c => y c q)) := by
      ext k c
      simp only [rowScaled, DGFiniteElement.AddTrans, projMat, pntScaled, Matrix.mul_apply,
        Matrix.of_apply, zero_add, Finset.mul_sum]
      apply Finset.sum_congr rfl
      intro q _
      rw [hc.weight_eq]
      ring
    rw [hr]
    apply projMat_mul_congr
    intro q hq c
    have hJ := hc.measure_ne i q
    have hright := h.right (pntScaled (fd.miri i).measure (Matrix.of (fun q c => y c q))) q hq c
    simp only [pntScaled, Matrix.of_apply] at hright ⊢
    rw [hright]
    field_simp
  · have hstr : ma.is_curved (tent.els i) = false := by simpa using hcur
    rw [SolveMBlock_straight ma tent fd i hstr]
    funext k c
    have hm : fd.measure0 i ≠ 0 := by
      have := hc.measure_ne i ⟨0, fd.nq_pos i⟩
      exact this
    have hd := h.massExact.1 k
    simp only [DGFiniteElement.AddTrans, projBlock, projMat, Matrix.mul_apply, Matrix.of_apply,
      zero_add, Finset.sum_mul]
    apply Finset.sum_congr rfl
    intro q _
    rw [hc.weight_eq, hc.measure_const i hstr q]
    field_simp
    ring

theorem runLoop_disjoint {W n : ℕ} (first len : Fin n → ℕ)
    (G : (i : Fin n) → Block (len i) W → Block (len i) W)
    (step : Fin n → FlatMat W → Run (FlatMat W))
    (hstep : ∀ i s, step i s =
      ⟨none, s.setRows (first i) (len i) (G i (s.Rows (first i) (len i)))⟩)
    (hdisj : ∀ i j, i ≠ j → first i + len i ≤ first j ∨ first j + len j ≤ first i)
    (l : List (Fin n)) (hl : l.Nodup) (s0 : FlatMat W) :
    (runLoop l step s0).exc = none ∧
    (∀ i ∈ l, (runLoop l step s0).out.Rows (first i) (len i) = G i (s0.Rows (first i) (len i))) ∧
    (∀ r, (∀ i ∈ l, ¬ (first i ≤ r ∧ r < first i + len i)) → (runLoop l step s0).out r = s0 r) := by
  induction l generalizing s0 with
  | nil =>
      refine ⟨rfl, ?_, ?_⟩
      · intro i hi
        simp at hi
      · intro r _
        rfl
  | cons a l ih =>
      have hnd := List.nodup_cons.mp hl
      have hrun : runLoop (a :: l) step s0 =
          runLoop l step (s0.setRows (first a) (len a) (G a (s0.Rows (first a) (len a)))) := by
        rw [runLoop, hstep a s0]
      rw [hrun]
      obtain ⟨h1, h2, h3⟩ := ih hnd.2 (s0.setRows (first a) (len a) (G a (s0.Rows (first a) (len a))))
      refine ⟨h1, ?_, ?_⟩
      · intro i hi
        rcases List.mem_cons.mp hi with hia | hil
        · subst hia
          funext k c
          have hr : ∀ j ∈ l, ¬ (first j ≤ first i + k.val ∧ first i + k.val < first j + len j) := by
            intro j hj
            have hne : i ≠ j := fun hij => hnd.1 (hij ▸ hj)
            have := hdisj i j hne
            have hk := k.isLt
            omega
          have := h3 (first i + k.val) hr
          simp only [FlatMat.Rows]
          rw [this, setRows_inside]
        · have hrows : (s0.setRows (first a) (len a) (G a (s0.Rows (first a) (len a)))).Rows
              (first i) (len i) = s0.Rows (first i) (len i) := by
            funext k c
            have hne : a ≠ i := fun hai => hnd.1 (hai ▸ hil)
            have := hdisj a i hne
            have hk := k.isLt
            simp only [FlatMat.Rows]
            rw [setRows_outside _ _ _ _ _ (by omega)]
          rw [h2 i hil, hrows]
      · intro r hr
        rw [h3 r (fun i hi => hr i (List.mem_cons_of_mem a hi))]
        exact setRows_outside _ _ _ _ _ (hr a (List.mem_cons_self a l))

theorem Tent2Cyl_element_eq {DIM COMP ECOMP : ℕ} (law : T_ConservationLaw DIM COMP ECOMP)
    (tent : Tent DIM) (fd : TentDataFE DIM tent.nels tent.nfac) (hfd : tent.fedata = some fd)
    (tstar : Scal) (u : FlatMat COMP) (i : Fin tent.nels) (uhat : FlatMat COMP) :
    Tent2Cyl.element law tent fd tstar u true i uhat =
      ⟨none, uhat.setRows (fd.ranges i) (fd.ndof i)
        (SolveMBlock law.ma tent fd i
          ((fd.fei i).AddTrans (fd.iri i) (Tent2Cyl.pointValues law fd tstar u i)
            (uhat.Rows (fd.ranges i) (fd.ndof i))))⟩ := by
  simp only [Tent2Cyl.element, if_true, SolveM, hfd]
  have := Rows_setRows uhat (fd.ranges i) (fd.ndof i)
    ((fd.fei i).AddTrans (fd.iri i) (Tent2Cyl.pointValues law fd tstar u i)
      (uhat.Rows (fd.ranges i) (fd.ndof i)))
  rw [this, setRows_setRows]

theorem Cyl2Tent_element_eq {DIM COMP ECOMP : ℕ} (law : T_ConservationLaw DIM COMP ECOMP)
    (tent : Tent DIM) (fd : TentDataFE DIM tent.nels tent.nfac) (hfd : tent.fedata = some fd)
    (tstar : Scal) (uhat : FlatMat COMP) (i : Fin tent.nels) (u : FlatMat COMP) :
    Cyl2Tent.element law tent fd tstar uhat i u =
      ⟨none, u.setRows (fd.ranges i) (fd.ndof i)
        (SolveMBlock law.ma tent fd i
          ((fd.fei i).AddTrans (fd.miri i).IR
            (fun c k => law.eq.InverseMap (fd.miri i) (fd.gradphi tstar i)
              ((fd.fei i).Evaluate (fd.miri i).IR (uhat.Rows (fd.ranges i) (fd.ndof i))) c k *
                (fd.miri i).weight k)
            (fun _ _ => 0)))⟩ := by
  simp only [Cyl2Tent.element, SolveM, hfd]
  have h1 := Rows_setRows u (fd.ranges i) (fd.ndof i) (fun _ _ => (0 : Scal))
  rw [h1, setRows_setRows, Rows_setRows, setRows_setRows]

theorem Tent2Cyl_pointValues_eq {DIM COMP ECOMP nels nfac : ℕ}
    (law : T_ConservationLaw DIM COMP ECOMP) (fd : TentDataFE DIM nels nfac) (tstar : Scal)
    (u : FlatMat COMP) (i : Fin nels) :
    Tent2Cyl.pointValues law fd tstar u i =
      fun c q => cylValues law fd tstar i
        ((fd.fei i).Evaluate (fd.iri i) (u.Rows (fd.ranges i) (fd.ndof i))) c q *
          (fd.miri i).weight q := by
  funext c q
  simp only [Tent2Cyl.pointValues, cylValues, sub_mul, Finset.sum_mul]
  congr 1
  apply Finset.sum_congr rfl
  intro k _
  ring

/-- C5, amended. On a tent whose fedata is consistent and whose volume rules are all
collocated with the bases (as many points of non-zero weight as dofs, padding slots not
counted), for every `tstar` and every `u`, with an `InverseMap` that inverts the map
`u ↦ u - gradphi·Flux(u)` on the points of non-zero weight of every element (values that
agree with `v - gradphi·Flux(v)` at those points are mapped to values that agree with `v`
there): `Tent2Cyl` with `solvemass = true` and then `Cyl2Tent` at the same `tstar` throw
nothing and return `u` on every element range of the tent. -/
theorem Cyl2Tent_Tent2Cyl_roundtrip {DIM COMP ECOMP : ℕ} (law : T_ConservationLaw DIM COMP ECOMP)
    (tent : Tent DIM) (fd : TentDataFE DIM tent.nels tent.nfac) (hfd : tent.fedata = some fd)
    (hc : fd.Consistent law.ma tent) (hcol : ∀ i, Collocated fd i) (tstar : Scal)
    (hinv : ∀ i (v y : PntVals COMP (fd.nq i)),
      (∀ q, (fd.iri i).weight q ≠ 0 → ∀ c, y c q = cylValues law fd tstar i v c q) →
      ∀ q, (fd.iri i).weight q ≠ 0 → ∀ c,
        law.eq.InverseMap (fd.miri i) (fd.gradphi tstar i) y c q = v c q)
    (u uhat0 u1 : FlatMat COMP) :
    (Tent2Cyl law tent tstar u uhat0 true).exc = none ∧
    (Cyl2Tent law tent tstar (Tent2Cyl law tent tstar u uhat0 true).out u1).exc = none ∧
    ∀ (i : Fin tent.nels) (k : Fin (fd.ndof i)) (c : Fin COMP),
      (Cyl2Tent law tent tstar (Tent2Cyl law tent tstar u uhat0 true).out u1).out
        (fd.ranges i + k.val) c = u (fd.ranges i + k.val) c := by
  have hT : Tent2Cyl law tent tstar u uhat0 true =
      runLoop (List.finRange tent.nels)
        (fun i uhat => Tent2Cyl.element law tent fd tstar u true i uhat) (fun _ _ => 0) := by
    simp only [Tent2Cyl, hfd]
  have hT' := runLoop_disjoint (W := COMP) fd.ranges (fun i => fd.ndof i)
    (fun i blk => SolveMBlock law.ma tent fd i
      ((fd.fei i).AddTrans (fd.iri i) (Tent2Cyl.pointValues law fd tstar u i) blk))
    (fun i uhat => Tent2Cyl.element law tent fd tstar u true i uhat)
    (fun i s => Tent2Cyl_element_eq law tent fd hfd tstar u i s)
    hc.ranges_disjoint (List.finRange tent.nels) (List.nodup_finRange _) (fun _ _ => 0)
  rw [← hT] at hT'
  obtain ⟨hT1, hT2, _⟩ := hT'
  have huhat : ∀ i, (Tent2Cyl law tent tstar u uhat0 true).out.Rows (fd.ranges i) (fd.ndof i) =
      projBlock fd i (cylValues law fd tstar i
        ((fd.fei i).Evaluate (fd.iri i) (u.Rows (fd.ranges i) (fd.ndof i)))) := by
    intro i
    rw [hT2 i (List.mem_finRange i), Tent2Cyl_pointValues_eq]
    exact SolveMBlock_AddTrans_weight law.ma tent fd hc i (hcol i) _
  have hC : ∀ uhat : FlatMat COMP, Cyl2Tent law tent tstar uhat u1 =
      runLoop (List.finRange tent.nels)
        (fun i u => Cyl2Tent.element law tent fd tstar uhat i u) u1 := by
    intro uhat
    simp only [Cyl2Tent, hfd]
  have hC' := runLoop_disjoint (W := COMP) fd.ranges (fun i => fd.ndof i)
    (fun i _ => SolveMBlock law.ma tent fd i
      ((fd.fei i).AddTrans (fd.miri i).IR
        (fun c k => law.eq.InverseMap (fd.miri i) (fd.gradphi tstar i)
          ((fd.fei i).Evaluate (fd.miri i).IR
            ((Tent2Cyl law tent tstar u uhat0 true).out.Rows (fd.ranges i) (fd.ndof i))) c k *
            (fd.miri i).weight k)
        (fun _ _ => 0)))
    (fun i s => Cyl2Tent.element law tent fd tstar (Tent2Cyl law tent tstar u uhat0 true).out i s)
    (fun i s => Cyl2Tent_element_eq law tent fd hfd tstar _ i s)
    hc.ranges_disjoint (List.finRange tent.nels) (List.nodup_finRange _) u1
  rw [← hC] at hC'
  obtain ⟨hC1, hC2, _⟩ := hC'
  refine ⟨hT1, hC1, ?_⟩
  intro i k c
  have h := hC2 i (List.mem_finRange i)
  simp only at h
  have hback : projBlock fd i (law.eq.InverseMap (fd.miri i) (fd.gradphi tstar i)
      ((fd.fei i).Evaluate (fd.iri i) (projBlock fd i (cylValues law fd tstar i
        ((fd.fei i).Evaluate (fd.iri i) (u.Rows (fd.ranges i) (fd.ndof i))))))) =
      projBlock fd i ((fd.fei i).Evaluate (fd.iri i) (u.Rows (fd.ranges i) (fd.ndof i))) :=
    projBlock_congr fd i _ _ (hinv i _ _
      (fun q hq c => Evaluate_projBlock (hcol i) _ c q hq))
  rw [hc.IR_eq i, huhat i, SolveMBlock_AddTrans_weight law.ma tent fd hc i (hcol i), hback,
    projBlock_Evaluate (hcol i).massExact] at h
  have := congrFun (congrFun h k) c
  simpa [FlatMat.Rows] using this

theorem consistent_fdCurved : fdCurved.Consistent meshCurved (mkTent1 fdCurved) where
  weight_eq := fun _ _ => rfl
  IR_eq := fun _ => rfl
  measure_ne := by
    intro i q
    simp only [fdCurved, mkFedata1, mkMir]
    split <;> norm_num
  measure_const := by
    intro i h
    simp [meshCurved] at h
  ranges_disjoint := by
    intro i j hij
    exact absurd (Subsingleton.elim i j) hij

theorem consistent_fdStraight : fdStraight.Consistent meshStraight (mkTent1 fdStraight) where
  weight_eq := fun _ _ => rfl
  IR_eq := fun _ => rfl
  measure_ne := by
    intro i q
    simp [fdStraight, mkFedata1, mkMir]
  measure_const := fun _ _ _ => rfl
  ranges_disjoint := by
    intro i j hij
    exact absurd (Subsingleton.elim i j) hij

/-- C5 as stated fails. On the tent of one curved element with one dof (`φ = 1`, `d = 1`),
the two-point rule and measures `(1, 2)`, with `gradphi_top = gradphi_bot = 0`, consistent
fedata and the advection equation, whose `InverseMap` inverts `u ↦ u - gradphi·Flux(u)`
there, `Tent2Cyl` maps `u = 1` to `9/8` and `Cyl2Tent` maps that to `81/64`. -/
theorem Cyl2Tent_Tent2Cyl_not_identity :
    (∀ i, fdCurved.agradphi_top i = fdCurved.agradphi_bot i) ∧
    fdCurved.Consistent lawAdvectionCurved.ma (mkTent1 fdCurved) ∧
    (∀ (i : Fin 1) (v : PntVals 1 (fdCurved.nq i)),
      lawAdvectionCurved.eq.InverseMap (fdCurved.miri i) (fdCurved.gradphi (1 / 2) i)
        (cylValues lawAdvectionCurved fdCurved (1 / 2) i v) = v) ∧
    (Tent2Cyl lawAdvectionCurved (mkTent1 fdCurved) (1 / 2) (oneRow 1) (oneRow 0) true).out 0 0
      = 9 / 8 ∧
    (Cyl2Tent lawAdvectionCurved (mkTent1 fdCurved) (1 / 2)
      (Tent2Cyl lawAdvectionCurved (mkTent1 fdCurved) (1 / 2) (oneRow 1) (oneRow 0) true).out
      (oneRow 0)).out 0 0 = 81 / 64 ∧
    (oneRow 1) 0 0 = 1 := by
  have hT : (Tent2Cyl lawAdvectionCurved (mkTent1 fdCurved) (1 / 2) (oneRow 1) (oneRow 0)
      true).out = oneRow (9 / 8) := by
    funext r c
    simp [Tent2Cyl, Tent2Cyl.element, Tent2Cyl.pointValues, finRange_one, runLoop, SolveM,
      SolveMBlock, lawAdvectionCurved, lawAdvection, meshCurved, eqAdvection, fdCurved,
      mkFedata1, mkMir, felConst, irTrap, oneRow, TentDataFE.gradphi, TentDataFE.ndof,
      FlatMat.setRows, FlatMat.Rows, DGFiniteElement.Evaluate, DGFiniteElement.AddTrans,
      Fin.sum_univ_two]
    split <;> norm_num
  refine ⟨fun _ => rfl, consistent_fdCurved, ?_, ?_, ?_, ?_⟩
  · intro i v
    funext c q
    simp [lawAdvectionCurved, lawAdvection, eqAdvection, cylValues, TentDataFE.gradphi,
      fdCurved, mkFedata1]
  · rw [hT]
    simp [oneRow]
  · rw [hT]
    simp [Cyl2Tent, Cyl2Tent.element, finRange_one, runLoop, SolveM,
      SolveMBlock, lawAdvectionCurved, lawAdvection, meshCurved, eqAdvection, fdCurved,
      mkFedata1, mkMir, felConst, irTrap, oneRow, TentDataFE.gradphi, TentDataFE.ndof,
      FlatMat.setRows, FlatMat.Rows, DGFiniteElement.Evaluate, DGFiniteElement.AddTrans,
      Fin.sum_univ_two]
    norm_num
  · simp [oneRow]

theorem consistent_fdRadau : fdRadau.Consistent meshCurved (mkTent1 fdRadau) where
  weight_eq := fun _ _ => rfl
  IR_eq := fun _ => rfl
  measure_ne := by
    intro i q
    simp only [fdRadau, mkFedata1, mkMir]
    positivity
  measure_const := by
    intro i h
    simp [meshCurved] at h
  ranges_disjoint := by
    intro i j hij
    exact absurd (Subsingleton.elim i j) hij

/-- C5 amended, evaluated on the tent of one curved linear element with the padded
two-point Radau rule, measures `|J| = (1, 2, 3)` and the front gradient `1/4` at
`tstar = 1/2` (so that `Flux` and `InverseMap` act): the round trip returns `u = (5, 7)`. -/
theorem Cyl2Tent_Tent2Cyl_roundtrip_witness :
    (Cyl2Tent lawAdvectionCurved (mkTent1 fdRadau) (1 / 2)
      (Tent2Cyl lawAdvectionCurved (mkTent1 fdRadau) (1 / 2) (twoRows 5 7) (twoRows 0 0) true).out
      (twoRows 0 0)).out 0 0 = 5 ∧
    (Cyl2Tent lawAdvectionCurved (mkTent1 fdRadau) (1 / 2)
      (Tent2Cyl lawAdvectionCurved (mkTent1 fdRadau) (1 / 2) (twoRows 5 7) (twoRows 0 0) true).out
      (twoRows 0 0)).out 1 0 = 7 := by
  have h := (Cyl2Tent_Tent2Cyl_roundtrip lawAdvectionCurved (mkTent1 fdRadau) fdRadau rfl
    consistent_fdRadau (fun i => by
      have : i = 0 := Subsingleton.elim _ _
      subst this
      exact collocated_fdRadau) (1 / 2)
    (by
      intro i v y hy q hq c
      have hyq := hy q hq c
      have hc0 : c = 0 := Subsingleton.elim _ _
      subst hc0
      simp only [lawAdvectionCurved, lawAdvection, eqAdvection, cylValues, TentDataFE.gradphi,
        fdRadau, mkFedata1, Finset.univ_unique, Fin.default_eq_zero, Finset.sum_singleton]
        at hyq ⊢
      rw [hyq]
      field_simp
      ring)
    (twoRows 5 7) (twoRows 0 0) (twoRows 0 0)).2.2 (0 : Fin 1)
  have hr : fdRadau.ranges 0 = 0 := rfl
  have h0 := h (0 : Fin 2) 0
  have h1 := h (1 : Fin 2) 0
  simp only [hr, Fin.val_zero, Fin.val_one, add_zero, zero_add] at h0 h1
  rw [h0, h1]
  simp [twoRows]

/-! ### C11 – C12: the entropy residual -/

theorem finRange_eq_cons {n : ℕ} (h : 0 < n) : ∃ a l, List.finRange n = a :: l := by
  have hne : List.finRange n ≠ [] := by
    intro hnil
    have := congrArg List.length hnil
    simp at this
    omega
  exact List.exists_cons_of_ne_nil hne

theorem runLoop_cons_exc {α σ : Type} (a : α) (l : List α) (f : α → σ → Run σ) (s : σ)
    (e : Exception) (h : (f a s).exc = some e) : (runLoop (a :: l) f s).exc = some e := by
  unfold runLoop
  cases hf : f a s with
  | mk exc out =>
      rw [hf] at h
      simp only at h
      subst h
      rfl

theorem CalcEntropyResidualTent_volume_throws {DIM COMP ECOMP nels nfac : ℕ}
    (law : T_ConservationLaw DIM COMP ECOMP) (fd : TentDataFE DIM nels nfac)
    (u ut : FlatMat COMP) (tstar : Scal) (lh : LocalHeap) (i : Fin nels) (res : FlatMat ECOMP)
    (h : 1 < ECOMP) :
    CalcEntropyResidualTent.volume law fd u ut tstar lh i res =
      ⟨some Exception.moreThanOneEntropy, res⟩ := by
  obtain ⟨k, l, hkl⟩ := finRange_eq_cons (fd.nq_pos i)
  have hloop : ∀ EF : TallVals (fd.nq i) × TallVals (fd.nq i),
      (runLoop (List.finRange (fd.nq i))
        (fun k EF => CalcEntropyResidualTent.scalePoint ECOMP (fd.miri i) (fd.adelta i) k EF)
        EF).exc = some Exception.moreThanOneEntropy := by
    intro EF
    rw [hkl]
    apply runLoop_cons_exc
    simp only [CalcEntropyResidualTent.scalePoint, h, if_true]
  unfold CalcEntropyResidualTent.volume
  simp only
  generalize law.eq.CalcEntropy _ _ _ = EF
  have := hloop EF
  cases hr : runLoop (List.finRange (fd.nq i))
      (fun k EF => CalcEntropyResidualTent.scalePoint ECOMP (fd.miri i) (fd.adelta i) k EF) EF with
  | mk exc out =>
      rw [hr] at this
      simp only at this
      subst this
      rfl

theorem CalcEntropyResidualTent_volume_exc {DIM COMP ECOMP nels nfac : ℕ}
    (law : T_ConservationLaw DIM COMP ECOMP) (fd : TentDataFE DIM nels nfac)
    (u ut : FlatMat COMP) (tstar : Scal) (lh : LocalHeap) (i : Fin nels) (res : FlatMat ECOMP)
    (h : ECOMP ≤ 1) :
    (CalcEntropyResidualTent.volume law fd u ut tstar lh i res).exc = none := by
  have hnot : ¬ 1 < ECOMP := by omega
  have hloop : ∀ EF : TallVals (fd.nq i) × TallVals (fd.nq i),
      (runLoop (List.finRange (fd.nq i))
        (fun k EF => CalcEntropyResidualTent.scalePoint ECOMP (fd.miri i) (fd.adelta i) k EF)
        EF).exc = none := by
    intro EF
    apply runLoop_exc_none
    intro a _ s'
    simp only [CalcEntropyResidualTent.scalePoint, hnot, if_false]
  unfold CalcEntropyResidualTent.volume
  simp only
  generalize law.eq.CalcEntropy _ _ _ = EF
  have := hloop EF
  cases hr : runLoop (List.finRange (fd.nq i))
      (fun k EF => CalcEntropyResidualTent.scalePoint ECOMP (fd.miri i) (fd.adelta i) k EF) EF with
  | mk exc out =>
      rw [hr] at this
      simp only at this
      subst this
      obtain ⟨Ei, Fi⟩ := out
      simp only
      split <;> rfl

theorem Cyl2Tent_exc_none {DIM COMP ECOMP : ℕ} (law : T_ConservationLaw DIM COMP ECOMP)
    (tent : Tent DIM) (fd : TentDataFE DIM tent.nels tent.nfac) (hfd : tent.fedata = some fd)
    (tstar : Scal) (uhat u : FlatMat COMP) : (Cyl2Tent law tent tstar uhat u).exc = none := by
  simp only [Cyl2Tent, hfd]
  apply runLoop_exc_none
  intro a _ s'
  rw [Cyl2Tent_element_eq law tent fd hfd]

theorem CalcEntropyResidualTent_facet_exc {DIM COMP ECOMP : ℕ}
    (law : T_ConservationLaw DIM COMP ECOMP) (tent : Tent DIM)
    (fd : TentDataFE DIM tent.nels tent.nfac) (temp u0 : FlatMat COMP) (lh : LocalHeap)
    (i : Fin tent.nfac) (res : FlatMat ECOMP) (e : Exception)
    (h : (CalcEntropyResidualTent.facet law tent fd temp u0 lh i res).exc = some e) :
    (∃ s, e = Exception.noBoundaryCondition s) ∨ ∃ msg, e = Exception.equation msg := by
  cases hb : (fd.felpos i).2 with
  | some e2 =>
      simp [CalcEntropyResidualTent.facet, hb] at h
  | none =>
      simp only [CalcEntropyResidualTent.facet, hb, CalcEntropyResidualTent.boundaryFacet] at h
      cases ht : CalcEntropyResidualTent.boundaryTrace law fd u0 i (fd.felpos i).1
          ((fd.fei (fd.felpos i).1).Evaluate (fd.firi i).1
            (temp.Rows (fd.ranges (fd.felpos i).1) (fd.fei (fd.felpos i).1).ndof))
          (law.bcnr (tent.internal_facets i)) with
      | ok u2 =>
          rw [ht] at h
          simp only at h
          split at h <;> simp at h
      | error e' =>
          rw [ht] at h
          simp only [Option.some.injEq] at h
          subst h
          unfold CalcEntropyResidualTent.boundaryTrace at ht
          simp only at ht
          split_ifs at ht with h0 h1 h2 h3
          · right
            cases hu : law.eq.u_transparent (fd.mfiri1 i)
                ((fd.fei (fd.felpos i).1).Evaluate (fd.firi i).1
                  (temp.Rows (fd.ranges (fd.felpos i).1) (fd.fei (fd.felpos i).1).ndof))
                (fd.anormals i) with
            | ok u2 => rw [hu] at ht; simp at ht
            | error msg =>
                rw [hu] at ht
                simp only [Except.error.injEq] at ht
                exact ⟨msg, ht.symm⟩
          · left
            simp only [Except.error.injEq] at ht
            exact ⟨_, ht.symm⟩

/-- C11 as stated fails. With two entropy components, on the tent that has no element
(fedata set) `CalcEntropyResidualTent` returns without any exception: the `throw` sits in
the loop over the points of an element; and on a tent whose fedata is null the
exception is "fedata not set". -/
theorem CalcEntropyResidualTent_no_entropy_error :
    (CalcEntropyResidualTent lawAdvection2 mkTent0 (oneRow 1) (oneRow 0) (fun _ _ => 5)
      (oneRow 0) (1 / 2) (fun _ _ _ _ => 0)).exc = none ∧
    (CalcEntropyResidualTent lawAdvection2 (mkTent2 none) (oneRow 1) (oneRow 0) (fun _ _ => 5)
      (oneRow 0) (1 / 2) (fun _ _ _ _ => 0)).exc = some Exception.fedataNotSet := by
  constructor
  · have h0 : List.finRange 0 = [] := rfl
    simp [CalcEntropyResidualTent, Cyl2Tent, h0, runLoop]
  · rfl

/-- C11, amended. With more than one entropy component, on every tent with fedata set and
at least one element, `CalcEntropyResidualTent` throws "not yet implemented for more than
one entropy function" (with `res` zeroed); with at most one entropy component it never
throws that exception, on any tent. -/
theorem CalcEntropyResidualTent_more_than_one_entropy {DIM COMP ECOMP : ℕ}
    (law : T_ConservationLaw DIM COMP ECOMP) (tent : Tent DIM) (u ut : FlatMat COMP)
    (res : FlatMat ECOMP) (u0 : FlatMat COMP) (tstar : Scal) (lh : LocalHeap) :
    (1 < ECOMP → ∀ fd, tent.fedata = some fd → 0 < tent.nels →
      CalcEntropyResidualTent law tent u ut res u0 tstar lh =
        ⟨some Exception.moreThanOneEntropy, fun _ _ => 0⟩ ∧
      Exception.moreThanOneEntropy.what =
        "not yet implemented for more than one entropy function") ∧
    (ECOMP ≤ 1 →
      (CalcEntropyResidualTent law tent u ut res u0 tstar lh).exc ≠
        some Exception.moreThanOneEntropy) := by
  constructor
  · intro hE fd hfd hels
    refine ⟨?_, rfl⟩
    obtain ⟨a, l, hal⟩ := finRange_eq_cons hels
    simp only [CalcEntropyResidualTent, hfd, hal, runLoop,
      CalcEntropyResidualTent_volume_throws law fd u ut tstar lh a _ hE]
  · intro hE
    cases hfd : tent.fedata with
    | none => simp [CalcEntropyResidualTent, hfd]
    | some fd =>
        intro hexc
        simp only [CalcEntropyResidualTent, hfd] at hexc
        cases hv : runLoop (List.finRange tent.nels)
            (fun i res => CalcEntropyResidualTent.volume law fd u ut tstar lh i res)
            (fun _ _ => 0) with
        | mk exc1 res1 =>
            have hv1 : exc1 = none := by
              have := runLoop_exc_none (List.finRange tent.nels)
                (fun i res => CalcEntropyResidualTent.volume law fd u ut tstar lh i res)
                (fun _ _ => 0)
                (fun a _ s' => CalcEntropyResidualTent_volume_exc law fd u ut tstar lh a s' hE)
              rw [hv] at this
              exact this
            subst hv1
            rw [hv] at hexc
            simp only at hexc
            cases hc : Cyl2Tent law tent tstar u (fun r c => lh 2 0 r c.val) with
            | mk exc2 temp =>
                have hc1 : exc2 = none := by
                  have := Cyl2Tent_exc_none law tent fd hfd tstar u (fun r c => lh 2 0 r c.val)
                  rw [hc] at this
                  exact this
                subst hc1
                rw [hc] at hexc
                simp only at hexc
                cases hf : runLoop (List.finRange tent.nfac)
                    (fun i res => CalcEntropyResidualTent.facet law tent fd temp u0 lh i res)
                    res1 with
                | mk exc3 res2 =>
                    rw [hf] at hexc
                    cases exc3 with
                    | some e3 =>
                        simp only [Option.some.injEq] at hexc
                        subst hexc
                        have h3 : (runLoop (List.finRange tent.nfac)
                            (fun i res =>
                              CalcEntropyResidualTent.facet law tent fd temp u0 lh i res)
                            res1).exc = some Exception.moreThanOneEntropy := by rw [hf]
                        obtain ⟨i, _, s', hs'⟩ := runLoop_exc_some _ _ _ _ h3
                        rcases CalcEntropyResidualTent_facet_exc law tent fd temp u0 lh i s' _ hs'
                          with ⟨s, hs⟩ | ⟨msg, hm⟩
                        · exact Exception.noConfusion hs
                        · exact Exception.noConfusion hm
                    | none =>
                        simp only at hexc
                        have := runLoop_exc_none (List.finRange tent.nels)
                          (fun i res => SolveM law.ma tent i res (fd.ranges i)) res2
                          (fun a _ s' => SolveM_exc_of_fedata law.ma tent fd hfd a s' (fd.ranges a))
                        rw [this] at hexc
                        exact Option.noConfusion hexc

/-- C11 amended, evaluated on the tent of one element with two entropy components. -/
theorem CalcEntropyResidualTent_more_than_one_entropy_witness :
    CalcEntropyResidualTent lawAdvection2 (mkTent1 fdStraight) (oneRow 1) (oneRow 0)
      (fun _ _ => 5) (oneRow 0) (1 / 2) (fun _ _ _ _ => 0) =
        ⟨some Exception.moreThanOneEntropy, fun _ _ => 0⟩ :=
  ((CalcEntropyResidualTent_more_than_one_entropy lawAdvection2 (mkTent1 fdStraight) (oneRow 1)
    (oneRow 0) (fun _ _ => 5) (oneRow 0) (1 / 2) (fun _ _ _ _ => 0)).1 (by decide) fdStraight rfl
    Nat.one_pos).1

theorem setRows_Rows_self {W : ℕ} (M : FlatMat W) (first n : ℕ) :
    M.setRows first n (M.Rows first n) = M := by
  funext r c
  by_cases h : first ≤ r ∧ r < first + n
  · have hr : first + (r - first) = r := by omega
    simp [FlatMat.setRows, FlatMat.Rows, h, hr]
  · simp [FlatMat.setRows, h]

theorem setColRange_ColRange_self {W : ℕ} (M : FlatMat W) (j : Fin W) (first n : ℕ) :
    M.setColRange j first n (M.ColRange j first n) = M := by
  funext r c
  by_cases h : (first ≤ r ∧ r < first + n) ∧ c = j
  · have hr : first + (r - first) = r := by omega
    simp [FlatMat.setColRange, FlatMat.ColRange, h, hr]
  · simp [FlatMat.setColRange, h]

theorem AddTrans_zero {DIM n W : ℕ} (fel : DGFiniteElement DIM)
    (ir : SIMD_IntegrationRule DIM n) (coefs : Block fel.ndof W) :
    fel.AddTrans ir (fun _ _ => 0) coefs = coefs := by
  funext k c
  simp [DGFiniteElement.AddTrans]

theorem AddGradTrans1_zero {DIM n : ℕ} (fel : DGFiniteElement DIM)
    (mir : SIMD_MappedIntegrationRule DIM n) (coefs : Fin fel.ndof → Scal) :
    fel.AddGradTrans1 mir (fun _ _ => 0) coefs = coefs := by
  funext k
  simp [DGFiniteElement.AddGradTrans1]

theorem CalcEntropyResidualTent_scalePoint_zero {DIM n : ℕ}
    (mir : SIMD_MappedIntegrationRule DIM n) (di : Fin n → Scal) (k : Fin n) :
    CalcEntropyResidualTent.scalePoint 1 mir di k (fun _ _ => 0, fun _ _ => 0) =
      ⟨none, (fun _ _ => 0, fun _ _ => 0)⟩ := by
  simp [CalcEntropyResidualTent.scalePoint]

theorem CalcEntropyResidualTent_volume_zero {DIM COMP nels nfac : ℕ}
    (law : T_ConservationLaw DIM COMP 1) (fd : TentDataFE DIM nels nfac)
    (hCE : ∀ (n : ℕ) (adu : Fin COMP → Fin n → AutoDiff1) (grad : Fin DIM → Fin n → AutoDiff1)
      (EF : TallVals n × TallVals n),
      law.eq.CalcEntropy adu grad EF = T_ConservationLaw.CalcEntropy adu grad EF)
    (u ut : FlatMat COMP) (tstar : Scal) (lh : LocalHeap)
    (h0 : ∀ p r c, lh 0 p r c = 0) (h1 : ∀ p r c, lh 1 p r c = 0)
    (i : Fin nels) (res : FlatMat 1) :
    CalcEntropyResidualTent.volume law fd u ut tstar lh i res = ⟨none, res⟩ := by
  have hE : (fun (r : ℕ) (q : Fin (fd.nq i)) => lh 0 i.val r q.val) = fun _ _ => 0 := by
    funext r q; exact h0 _ _ _
  have hF : (fun (r : ℕ) (q : Fin (fd.nq i)) => lh 1 i.val r q.val) = fun _ _ => 0 := by
    funext r q; exact h1 _ _ _
  simp only [CalcEntropyResidualTent.volume, hCE, T_ConservationLaw.CalcEntropy, hE, hF]
  rw [runLoop_fixed _ _ _ (fun k _ => CalcEntropyResidualTent_scalePoint_zero (fd.miri i)
    (fd.adelta i) k)]
  simp only [AddTrans_zero, setRows_Rows_self, AddGradTrans1_zero, setColRange_ColRange_self]
  simp

theorem CalcEntropyResidualTent_facet_zero {DIM COMP : ℕ}
    (law : T_ConservationLaw DIM COMP 1) (tent : Tent DIM)
    (fd : TentDataFE DIM tent.nels tent.nfac)
    (hEF : ∀ (n : ℕ) (ml mr : PntVals COMP n) (nv : PntVals DIM n) (flux : PntVals 1 n),
      law.eq.EntropyFlux ml mr nv flux = T_ConservationLaw.EntropyFlux ml mr nv flux)
    (temp u0 : FlatMat COMP) (lh : LocalHeap)
    (h3 : ∀ p r c, lh 3 p r c = 0) (h4 : ∀ p r c, lh 4 p r c = 0)
    (i : Fin tent.nfac)
    (hbc : (fd.felpos i).2 = none → AcceptedEntropy law (law.bcnr (tent.internal_facets i)))
    (res : FlatMat 1) :
    CalcEntropyResidualTent.facet law tent fd temp u0 lh i res = ⟨none, res⟩ := by
  have hz3 : (fun (c : Fin 1) (q : Fin (fd.nqf i)) => lh 3 i.val c.val q.val) = fun _ _ => 0 := by
    funext c q; exact h3 _ _ _
  have hz4 : (fun (c : Fin 1) (q : Fin (fd.nqf i)) => lh 4 i.val c.val q.val) = fun _ _ => 0 := by
    funext c q; exact h4 _ _ _
  cases hb : (fd.felpos i).2 with
  | some e2 =>
      simp only [CalcEntropyResidualTent.facet, hb, CalcEntropyResidualTent.innerFacet, hEF,
        T_ConservationLaw.EntropyFlux, hz3, zero_mul, AddTrans_zero, setRows_Rows_self]
  | none =>
      have hacc := hbc hb
      simp only [CalcEntropyResidualTent.facet, hb, CalcEntropyResidualTent.boundaryFacet]
      have htr : ∃ u2, CalcEntropyResidualTent.boundaryTrace law fd u0 i (fd.felpos i).1
          ((fd.fei (fd.felpos i).1).Evaluate (fd.firi i).1
            (temp.Rows (fd.ranges (fd.felpos i).1) (fd.fei (fd.felpos i).1).ndof))
          (law.bcnr (tent.internal_facets i)) = Except.ok u2 := by
        unfold CalcEntropyResidualTent.boundaryTrace
        rcases hacc with h | h | h | ⟨h, ht⟩
        · simp [h]
        · simp [h]
        · simp [h]
        · obtain ⟨u2, hu2⟩ := ht _ (fd.mfiri1 i)
            ((fd.fei (fd.felpos i).1).Evaluate (fd.firi i).1
              (temp.Rows (fd.ranges (fd.felpos i).1) (fd.fei (fd.felpos i).1).ndof))
            (fd.anormals i)
          simp [h, hu2]
      obtain ⟨u2, hu2⟩ := htr
      rw [hu2]
      simp only [hEF, T_ConservationLaw.EntropyFlux, hz4, zero_mul, AddTrans_zero,
        setRows_Rows_self]
      split <;> rfl

/-- C12 as stated fails. The equation `eqDefaults` overloads neither `CalcEntropy` nor
`EntropyFlux`; on the tent of one straight element (measure `2`, no boundary facet) with a
local heap that holds `1` everywhere, `CalcEntropyResidualTent` completes without error
and returns `res = 1` in row `0`: the fallbacks leave `Ei` and `Fi` as allocated, and the
kernel transposes that content into `res`. -/
theorem CalcEntropyResidualTent_defaults_nonzero :
    (CalcEntropyResidualTent lawDefaults (mkTent1 fdStraight) (oneRow 1) (oneRow 0)
      (fun _ _ => 0) (oneRow 0) (1 / 2) (fun _ _ _ _ => 1)).exc = none ∧
    (CalcEntropyResidualTent lawDefaults (mkTent1 fdStraight) (oneRow 1) (oneRow 0)
      (fun _ _ => 0) (oneRow 0) (1 / 2) (fun _ _ _ _ => 1)).out 0 0 = 1 := by
  have h1 : List.finRange 1 = [0] := rfl
  have h0 : List.finRange 0 = [] := rfl
  constructor <;>
  simp [CalcEntropyResidualTent, CalcEntropyResidualTent.volume, lawDefaults, eqDefaults,
    lawAdvection, eqAdvection, T_ConservationLaw.CalcEntropy, fdStraight, mkFedata1, h1, h0,
    runLoop, CalcEntropyResidualTent.scalePoint, Cyl2Tent, Cyl2Tent.element, SolveM, SolveMBlock,
    SolveMDelta, SolveMDeltaBlock,
    meshStraight, FlatMat.setRows, FlatMat.Rows, FlatMat.setColRange, FlatMat.ColRange,
    DGFiniteElement.AddTrans, DGFiniteElement.AddGradTrans1, DGFiniteElement.Evaluate,
    DGFiniteElement.mappedDShape, felConst, irMid, mkMir, TentDataFE.ndof, TentDataFE.measure0]

theorem CalcEntropyResidualTent_boundaryTrace_ok {DIM COMP ECOMP nels nfac : ℕ}
    (law : T_ConservationLaw DIM COMP ECOMP) (fd : TentDataFE DIM nels nfac) (u0 : FlatMat COMP)
    (i : Fin nfac) (elnr1 : Fin nels) (u1 : PntVals COMP (fd.nqf i)) (b : ℤ)
    (h : AcceptedEntropy law b) :
    ∃ u2, CalcEntropyResidualTent.boundaryTrace law fd u0 i elnr1 u1 b = Except.ok u2 := by
  unfold CalcEntropyResidualTent.boundaryTrace
  rcases h with h | h | h | ⟨h, ht⟩
  · simp [h]
  · simp [h]
  · simp [h]
  · obtain ⟨u2, hu2⟩ := ht _ (fd.mfiri1 i) u1 (fd.anormals i)
    simp [h, hu2]

theorem CalcEntropyResidualTent_volume_indep {DIM COMP ECOMP nels nfac : ℕ}
    (law : T_ConservationLaw DIM COMP ECOMP) (fd : TentDataFE DIM nels nfac)
    (hCE : ∀ (n : ℕ) (adu : Fin COMP → Fin n → AutoDiff1) (grad : Fin DIM → Fin n → AutoDiff1)
      (EF : TallVals n × TallVals n),
      law.eq.CalcEntropy adu grad EF = T_ConservationLaw.CalcEntropy adu grad EF)
    (u ut u' ut' : FlatMat COMP) (tstar tstar' : Scal) (lh : LocalHeap) (i : Fin nels)
    (res : FlatMat ECOMP) :
    CalcEntropyResidualTent.volume law fd u ut tstar lh i res =
      CalcEntropyResidualTent.volume law fd u' ut' tstar' lh i res := by
  simp only [CalcEntropyResidualTent.volume, hCE, T_ConservationLaw.CalcEntropy]

theorem CalcEntropyResidualTent_facet_indep {DIM COMP ECOMP : ℕ}
    (law : T_ConservationLaw DIM COMP ECOMP) (tent : Tent DIM)
    (fd : TentDataFE DIM tent.nels tent.nfac)
    (hEF : ∀ (n : ℕ) (ml mr : PntVals COMP n) (nv : PntVals DIM n) (flux : PntVals ECOMP n),
      law.eq.EntropyFlux ml mr nv flux = T_ConservationLaw.EntropyFlux ml mr nv flux)
    (temp u0 temp' u0' : FlatMat COMP) (lh : LocalHeap) (i : Fin tent.nfac)
    (hbc : (fd.felpos i).2 = none → AcceptedEntropy law (law.bcnr (tent.internal_facets i)))
    (res : FlatMat ECOMP) :
    CalcEntropyResidualTent.facet law tent fd temp u0 lh i res =
      CalcEntropyResidualTent.facet law tent fd temp' u0' lh i res ∧
    (CalcEntropyResidualTent.facet law tent fd temp u0 lh i res).exc = none := by
  cases hb : (fd.felpos i).2 with
  | some e2 =>
      simp only [CalcEntropyResidualTent.facet, hb, CalcEntropyResidualTent.innerFacet, hEF,
        T_ConservationLaw.EntropyFlux, and_self]
  | none =>
      have hacc := hbc hb
      obtain ⟨u2, hu2⟩ := CalcEntropyResidualTent_boundaryTrace_ok law fd u0 i (fd.felpos i).1
        ((fd.fei (fd.felpos i).1).Evaluate (fd.firi i).1
          (temp.Rows (fd.ranges (fd.felpos i).1) (fd.fei (fd.felpos i).1).ndof))
        (law.bcnr (tent.internal_facets i)) hacc
      obtain ⟨u2', hu2'⟩ := CalcEntropyResidualTent_boundaryTrace_ok law fd u0' i (fd.felpos i).1
        ((fd.fei (fd.felpos i).1).Evaluate (fd.firi i).1
          (temp'.Rows (fd.ranges (fd.felpos i).1) (fd.fei (fd.felpos i).1).ndof))
        (law.bcnr (tent.internal_facets i)) hacc
      simp only [CalcEntropyResidualTent.facet, hb, CalcEntropyResidualTent.boundaryFacet, hu2,
        hu2', hEF, T_ConservationLaw.EntropyFlux]
      split <;> simp

/-- With the fallbacks of the base class, `CalcEntropyResidualTent` is the closing `SolveM`
loop run on what the volume and facet loops transpose from the buffers; the arguments
`u`, `ut`, `res`, `u0` and `tstar` play no role. -/
theorem entropyDefaults_normal_form {DIM COMP : ℕ}
    (law : T_ConservationLaw DIM COMP 1) (tent : Tent DIM)
    (fd : TentDataFE DIM tent.nels tent.nfac) (hfd : tent.fedata = some fd)
    (hCE : ∀ (n : ℕ) (adu : Fin COMP → Fin n → AutoDiff1) (grad : Fin DIM → Fin n → AutoDiff1)
      (EF : TallVals n × TallVals n),
      law.eq.CalcEntropy adu grad EF = T_ConservationLaw.CalcEntropy adu grad EF)
    (hEF : ∀ (n : ℕ) (ml mr : PntVals COMP n) (nv : PntVals DIM n) (flux : PntVals 1 n),
      law.eq.EntropyFlux ml mr nv flux = T_ConservationLaw.EntropyFlux ml mr nv flux)
    (hbc : ∀ i, (fd.felpos i).2 = none →
      AcceptedEntropy law (law.bcnr (tent.internal_facets i)))
    (u ut : FlatMat COMP) (res : FlatMat 1) (u0 : FlatMat COMP) (tstar : Scal) (lh : LocalHeap) :
    CalcEntropyResidualTent law tent u ut res u0 tstar lh =
      runLoop (List.finRange tent.nels) (fun i res => SolveM law.ma tent i res (fd.ranges i))
        (runLoop (List.finRange tent.nfac)
          (fun i res => CalcEntropyResidualTent.facet law tent fd (fun _ _ => 0) (fun _ _ => 0)
            lh i res)
          (runLoop (List.finRange tent.nels)
            (fun i res => CalcEntropyResidualTent.volume law fd (fun _ _ => 0) (fun _ _ => 0) 0
              lh i res)
            (fun _ _ => 0)).out).out := by
  simp only [CalcEntropyResidualTent, hfd]
  have hv : (fun i res => CalcEntropyResidualTent.volume law fd u ut tstar lh i res) =
      fun i res => CalcEntropyResidualTent.volume law fd (fun _ _ => 0) (fun _ _ => 0) 0
        lh i res := by
    funext i res
    exact CalcEntropyResidualTent_volume_indep law fd hCE _ _ _ _ _ _ lh i res
  rw [hv]
  cases hvr : runLoop (List.finRange tent.nels)
      (fun i res => CalcEntropyResidualTent.volume law fd (fun _ _ => 0) (fun _ _ => 0) 0
        lh i res) (fun _ _ => 0) with
  | mk exc1 res1 =>
      have hv1 : exc1 = none := by
        have := runLoop_exc_none (List.finRange tent.nels)
          (fun i res => CalcEntropyResidualTent.volume law fd (fun _ _ => 0) (fun _ _ => 0) 0
            lh i res) (fun _ _ => 0)
          (fun a _ s' => CalcEntropyResidualTent_volume_exc law fd _ _ _ lh a s' (le_refl 1))
        rw [hvr] at this
        exact this
      subst hv1
      simp only
      cases hc : Cyl2Tent law tent tstar u (fun r c => lh 2 0 r c.val) with
      | mk exc2 temp =>
          have hc1 : exc2 = none := by
            have := Cyl2Tent_exc_none law tent fd hfd tstar u (fun r c => lh 2 0 r c.val)
            rw [hc] at this
            exact this
          subst hc1
          simp only
          have hf : (fun i res => CalcEntropyResidualTent.facet law tent fd temp u0 lh i res) =
              fun i res => CalcEntropyResidualTent.facet law tent fd (fun _ _ => 0)
                (fun _ _ => 0) lh i res := by
            funext i res
            exact (CalcEntropyResidualTent_facet_indep law tent fd hEF temp u0 _ _ lh i (hbc i)
              res).1
          rw [hf]
          cases hfr : runLoop (List.finRange tent.nfac)
              (fun i res => CalcEntropyResidualTent.facet law tent fd (fun _ _ => 0)
                (fun _ _ => 0) lh i res) res1 with
          | mk exc3 res2 =>
              have hf1 : exc3 = none := by
                have := runLoop_exc_none (List.finRange tent.nfac)
                  (fun i res => CalcEntropyResidualTent.facet law tent fd (fun _ _ => 0)
                    (fun _ _ => 0) lh i res) res1
                  (fun a _ s' => (CalcEntropyResidualTent_facet_indep law tent fd hEF
                    (fun _ _ => 0) (fun _ _ => 0) (fun _ _ => 0) (fun _ _ => 0) lh a (hbc a)
                    s').2)
                rw [hfr] at this
                exact this
              subst hf1
              rfl

/-- C12, amended. When the equation overloads neither `CalcEntropy` nor `EntropyFlux`,
`ECOMP = 1`, fedata is set and every boundary facet of the tent carries an accepted
condition number: (1) `CalcEntropyResidualTent` completes without error, whatever the
fresh buffers `Ei`, `Fi`, `Fn` hold when they are allocated; (2) the `res` it returns is
determined by the content of those buffers alone: it is the same for all `u`, `ut`, `u0`,
`tstar` and incoming `res`; (3) when the buffers hold zeros, `res = 0` in every row. -/
theorem CalcEntropyResidualTent_defaults {DIM COMP : ℕ}
    (law : T_ConservationLaw DIM COMP 1) (tent : Tent DIM)
    (fd : TentDataFE DIM tent.nels tent.nfac) (hfd : tent.fedata = some fd)
    (hCE : ∀ (n : ℕ) (adu : Fin COMP → Fin n → AutoDiff1) (grad : Fin DIM → Fin n → AutoDiff1)
      (EF : TallVals n × TallVals n),
      law.eq.CalcEntropy adu grad EF = T_ConservationLaw.CalcEntropy adu grad EF)
    (hEF : ∀ (n : ℕ) (ml mr : PntVals COMP n) (nv : PntVals DIM n) (flux : PntVals 1 n),
      law.eq.EntropyFlux ml mr nv flux = T_ConservationLaw.EntropyFlux ml mr nv flux)
    (hbc : ∀ i, (fd.felpos i).2 = none →
      AcceptedEntropy law (law.bcnr (tent.internal_facets i)))
    (u ut : FlatMat COMP) (res : FlatMat 1) (u0 : FlatMat COMP) (tstar : Scal) (lh : LocalHeap) :
    (CalcEntropyResidualTent law tent u ut res u0 tstar lh).exc = none ∧
    (∀ (u' ut' : FlatMat COMP) (res' : FlatMat 1) (u0' : FlatMat COMP) (tstar' : Scal),
      CalcEntropyResidualTent law tent u' ut' res' u0' tstar' lh =
        CalcEntropyResidualTent law tent u ut res u0 tstar lh) ∧
    ((∀ p r c, lh 0 p r c = 0 ∧ lh 1 p r c = 0 ∧ lh 3 p r c = 0 ∧ lh 4 p r c = 0) →
      CalcEntropyResidualTent law tent u ut res u0 tstar lh = ⟨none, fun _ _ => 0⟩) := by
  refine ⟨?_, ?_, ?_⟩
  · rw [entropyDefaults_normal_form law tent fd hfd hCE hEF hbc]
    exact runLoop_exc_none _ _ _
      (fun a _ s' => SolveM_exc_of_fedata law.ma tent fd hfd a s' (fd.ranges a))
  · intro u' ut' res' u0' tstar'
    rw [entropyDefaults_normal_form law tent fd hfd hCE hEF hbc,
      entropyDefaults_normal_form law tent fd hfd hCE hEF hbc]
  · intro hlh
    simp only [CalcEntropyResidualTent, hfd]
    rw [runLoop_fixed _ _ _ (fun i _ => CalcEntropyResidualTent_volume_zero law fd hCE u ut tstar
      lh (fun p r c => (hlh p r c).1) (fun p r c => (hlh p r c).2.1) i _)]
    simp only
    cases hc : Cyl2Tent law tent tstar u (fun r c => lh 2 0 r c.val) with
    | mk exc2 temp =>
        have hc1 : exc2 = none := by
          have := Cyl2Tent_exc_none law tent fd hfd tstar u (fun r c => lh 2 0 r c.val)
          rw [hc] at this
          exact this
        subst hc1
        simp only
        rw [runLoop_fixed _ _ _ (fun i _ => CalcEntropyResidualTent_facet_zero law tent fd hEF
          temp u0 lh (fun p r c => (hlh p r c).2.2.1) (fun p r c => (hlh p r c).2.2.2) i (hbc i)
          _)]
        simp only
        exact runLoop_fixed _ _ _ (fun i _ => SolveM_zero law.ma tent fd hfd i (fd.ranges i))

/-- C12 amended, evaluated on the tent of one element with a boundary facet (outflow): with
a local heap that holds zeros the kernel returns `res = 0` without error, and with a local
heap that holds `1` everywhere it completes without error as well. -/
theorem CalcEntropyResidualTent_defaults_witness :
    CalcEntropyResidualTent lawDefaults (mkTentB (some fdBoundary)) (oneRow 1) (oneRow 0)
      (fun _ _ => 5) (oneRow 0) (1 / 2) (fun _ _ _ _ => 0) = ⟨none, fun _ _ => 0⟩ ∧
    (CalcEntropyResidualTent lawDefaults (mkTentB (some fdBoundary)) (oneRow 1) (oneRow 0)
      (fun _ _ => 5) (oneRow 0) (1 / 2) (fun _ _ _ _ => 1)).exc = none :=
  ⟨(CalcEntropyResidualTent_defaults lawDefaults (mkTentB (some fdBoundary)) fdBoundary rfl
      (fun _ _ _ _ => rfl) (fun _ _ _ _ _ => rfl) (fun _ _ => Or.inl rfl)
      (oneRow 1) (oneRow 0) (fun _ _ => 5) (oneRow 0) (1 / 2) (fun _ _ _ _ => 0)).2.2
      (fun _ _ _ => ⟨rfl, rfl, rfl, rfl⟩),
    (CalcEntropyResidualTent_defaults lawDefaults (mkTentB (some fdBoundary)) fdBoundary rfl
      (fun _ _ _ _ => rfl) (fun _ _ _ _ _ => rfl) (fun _ _ => Or.inl rfl)
      (oneRow 1) (oneRow 0) (fun _ _ => 5) (oneRow 0) (1 / 2) (fun _ _ _ _ => 1)).1⟩

/-! ### C13: the viscosity coefficient of a tent -/

theorem CalcViscosityCoefficientTent_element_eq {DIM COMP ECOMP : ℕ}
    (law : T_ConservationLaw DIM COMP ECOMP) (tent : Tent DIM)
    (fd : TentDataFE DIM tent.nels tent.nfac) (u : FlatMat COMP) (res : FlatMat ECOMP)
    (tstar : Scal) (i : Fin tent.nels) (st : ViscCoeffOut) :
    CalcViscosityCoefficientTent.element law tent fd u res tstar i st =
      ⟨Function.update st.nu (tent.els i)
          (viscCoeffEl law tent fd u res tstar i (st.nu (tent.els i))),
        if viscCoeffEl law tent fd u res tstar i (st.nu (tent.els i)) > st.nu_tent then
          viscCoeffEl law tent fd u res tstar i (st.nu (tent.els i))
        else st.nu_tent⟩ := by
  simp [CalcViscosityCoefficientTent.element, viscCoeffEl]

theorem CalcViscosityCoefficientTent_fold {DIM COMP ECOMP : ℕ}
    (law : T_ConservationLaw DIM COMP ECOMP) (tent : Tent DIM)
    (fd : TentDataFE DIM tent.nels tent.nfac) (hinj : Function.Injective tent.els)
    (u : FlatMat COMP) (res : FlatMat ECOMP) (tstar : Scal) (nu : ℕ → Scal)
    (l : List (Fin tent.nels)) (hl : l.Nodup) (st : ViscCoeffOut)
    (hst : ∀ i ∈ l, st.nu (tent.els i) = nu (tent.els i)) :
    (∀ i ∈ l, (l.foldl (fun st i =>
        CalcViscosityCoefficientTent.element law tent fd u res tstar i st) st).nu (tent.els i) =
      viscCoeffEl law tent fd u res tstar i (nu (tent.els i))) ∧
    (∀ m, (∀ i ∈ l, tent.els i ≠ m) → (l.foldl (fun st i =>
        CalcViscosityCoefficientTent.element law tent fd u res tstar i st) st).nu m = st.nu m) ∧
    st.nu_tent ≤ (l.foldl (fun st i =>
        CalcViscosityCoefficientTent.element law tent fd u res tstar i st) st).nu_tent ∧
    (∀ i ∈ l, viscCoeffEl law tent fd u res tstar i (nu (tent.els i)) ≤ (l.foldl (fun st i =>
        CalcViscosityCoefficientTent.element law tent fd u res tstar i st) st).nu_tent) ∧
    ((l.foldl (fun st i =>
        CalcViscosityCoefficientTent.element law tent fd u res tstar i st) st).nu_tent =
        st.nu_tent ∨
      ∃ i ∈ l, (l.foldl (fun st i =>
        CalcViscosityCoefficientTent.element law tent fd u res tstar i st) st).nu_tent =
        viscCoeffEl law tent fd u res tstar i (nu (tent.els i))) := by
  induction l generalizing st with
  | nil => simp
  | cons a l ih =>
      have hal : a ∉ l := (List.nodup_cons.mp hl).1
      have hl' : l.Nodup := (List.nodup_cons.mp hl).2
      have hne : ∀ i ∈ l, tent.els i ≠ tent.els a := fun i hi h =>
        hal (by rw [← hinj h]; exact hi)
      have ha0 : st.nu (tent.els a) = nu (tent.els a) := hst a (List.mem_cons_self a l)
      have hst' : ∀ i ∈ l,
          (CalcViscosityCoefficientTent.element law tent fd u res tstar a st).nu (tent.els i) =
            nu (tent.els i) := by
        intro i hi
        rw [CalcViscosityCoefficientTent_element_eq]
        simp only [Function.update_apply, hne i hi, if_false]
        exact hst i (List.mem_cons_of_mem a hi)
      obtain ⟨h1, h2, h3, h4, h5⟩ := ih hl'
        (CalcViscosityCoefficientTent.element law tent fd u res tstar a st) hst'
      have hnu : (CalcViscosityCoefficientTent.element law tent fd u res tstar a st).nu =
          Function.update st.nu (tent.els a)
            (viscCoeffEl law tent fd u res tstar a (nu (tent.els a))) := by
        rw [CalcViscosityCoefficientTent_element_eq, ha0]
      have hnt : (CalcViscosityCoefficientTent.element law tent fd u res tstar a st).nu_tent =
          if viscCoeffEl law tent fd u res tstar a (nu (tent.els a)) > st.nu_tent then
            viscCoeffEl law tent fd u res tstar a (nu (tent.els a))
          else st.nu_tent := by
        rw [CalcViscosityCoefficientTent_element_eq, ha0]
      have hge1 : st.nu_tent ≤
          (CalcViscosityCoefficientTent.element law tent fd u res tstar a st).nu_tent := by
        rw [hnt]
        split_ifs with hc
        · exact le_of_lt hc
        · exact le_refl _
      have hge2 : viscCoeffEl law tent fd u res tstar a (nu (tent.els a)) ≤
          (CalcViscosityCoefficientTent.element law tent fd u res tstar a st).nu_tent := by
        rw [hnt]
        split_ifs with hc
        · exact le_refl _
        · exact not_lt.mp hc
      simp only [List.foldl_cons]
      refine ⟨?_, ?_, le_trans hge1 h3, ?_, ?_⟩
      · intro i hi
        rcases List.mem_cons.mp hi with rfl | hi'
        · rw [h2 (tent.els i) (fun j hj => hne j hj), hnu]
          simp
        · exact h1 i hi'
      · intro m hm
        rw [h2 m (fun i hi => hm i (List.mem_cons_of_mem a hi)), hnu]
        simp only [Function.update_apply]
        rw [if_neg (fun h => hm a (List.mem_cons_self a l) h.symm)]
      · intro i hi
        rcases List.mem_cons.mp hi with rfl | hi'
        · exact le_trans hge2 h3
        · exact h4 i hi'
      · rcases h5 with h5 | ⟨i, hi, h5⟩
        · rw [h5, hnt]
          split_ifs with hc
          · exact Or.inr ⟨a, List.mem_cons_self a l, rfl⟩
          · exact Or.inl rfl
        · exact Or.inr ⟨i, List.mem_cons_of_mem a hi, h5⟩

/-- C13 as stated fails. With a `CalcViscCoeffEl` that produces `-1`, on the tent of one
element `CalcViscosityCoefficientTent` stores `nu = -1` for the element and returns
`nu_tent = 0`, not the maximum `-1` of the coefficients: `nu_tent` starts from `0.0`. -/
theorem CalcViscosityCoefficientTent_not_max :
    (CalcViscosityCoefficientTent lawNegVisc (mkTent1 fdStraight) (oneRow 1) (oneRow 0) (1 / 2)
      (fun _ => 0)).out.nu 0 = -1 ∧
    (CalcViscosityCoefficientTent lawNegVisc (mkTent1 fdStraight) (oneRow 1) (oneRow 0) (1 / 2)
      (fun _ => 0)).out.nu_tent = 0 := by
  have h1 : List.finRange 1 = [0] := rfl
  constructor <;>
  simp [CalcViscosityCoefficientTent, CalcViscosityCoefficientTent.element, lawNegVisc,
    eqNegVisc, h1]

/-- C13, amended. On every tent with fedata set whose elements are distinct mesh elements,
`CalcViscosityCoefficientTent` throws nothing, stores for each element `e` of the tent the
coefficient `nu_e` produced by `CalcViscCoeffEl` into the global `nu` at the mesh number of
`e`, leaves the other entries of `nu` as they were, and returns the maximum of `0` and the
`nu_e`: `nu_tent` is at least `0` and at least every `nu_e`, and it is `0` or one of the
`nu_e`; it is one of the `nu_e` (their maximum) as soon as one of them is not negative. -/
theorem CalcViscosityCoefficientTent_nu_tent {DIM COMP ECOMP : ℕ}
    (law : T_ConservationLaw DIM COMP ECOMP) (tent : Tent DIM)
    (fd : TentDataFE DIM tent.nels tent.nfac) (hfd : tent.fedata = some fd)
    (hinj : Function.Injective tent.els)
    (u : FlatMat COMP) (res : FlatMat ECOMP) (tstar : Scal) (nu : ℕ → Scal) :
    (CalcViscosityCoefficientTent law tent u res tstar nu).exc = none ∧
    (∀ e, (CalcViscosityCoefficientTent law tent u res tstar nu).out.nu (tent.els e) =
      viscCoeffEl law tent fd u res tstar e (nu (tent.els e))) ∧
    (∀ m, (∀ e, tent.els e ≠ m) →
      (CalcViscosityCoefficientTent law tent u res tstar nu).out.nu m = nu m) ∧
    0 ≤ (CalcViscosityCoefficientTent law tent u res tstar nu).out.nu_tent ∧
    (∀ e, viscCoeffEl law tent fd u res tstar e (nu (tent.els e)) ≤
      (CalcViscosityCoefficientTent law tent u res tstar nu).out.nu_tent) ∧
    ((CalcViscosityCoefficientTent law tent u res tstar nu).out.nu_tent = 0 ∨
      ∃ e, (CalcViscosityCoefficientTent law tent u res tstar nu).out.nu_tent =
        viscCoeffEl law tent fd u res tstar e (nu (tent.els e))) ∧
    ((∃ e, 0 ≤ viscCoeffEl law tent fd u res tstar e (nu (tent.els e))) →
      ∃ e, (CalcViscosityCoefficientTent law tent u res tstar nu).out.nu_tent =
        viscCoeffEl law tent fd u res tstar e (nu (tent.els e))) := by
  obtain ⟨h1, h2, h3, h4, h5⟩ := CalcViscosityCoefficientTent_fold law tent fd hinj u res tstar
    nu (List.finRange tent.nels) (List.nodup_finRange tent.nels) ⟨nu, 0⟩ (fun _ _ => rfl)
  simp only [CalcViscosityCoefficientTent, hfd]
  refine ⟨trivial, fun e => h1 e (List.mem_finRange e),
    fun m hm => h2 m (fun i _ => hm i), h3, fun e => h4 e (List.mem_finRange e), ?_, ?_⟩
  · rcases h5 with h5 | ⟨i, _, h5⟩
    · exact Or.inl h5
    · exact Or.inr ⟨i, h5⟩
  · rintro ⟨e, he⟩
    rcases h5 with h5 | ⟨i, _, h5⟩
    · refine ⟨e, le_antisymm ?_ (h4 e (List.mem_finRange e))⟩
      rw [h5]
      exact he
    · exact ⟨i, h5⟩

/-- C13 amended, evaluated on the tent of two linear elements. -/
theorem CalcViscosityCoefficientTent_nu_tent_witness :
    0 ≤ (CalcViscosityCoefficientTent (lawAdvection 0) (mkTent2 (some fdHat)) (constP1 1)
      (constP1 0) (1 / 2) (fun _ => 3)).out.nu_tent :=
  (CalcViscosityCoefficientTent_nu_tent (lawAdvection 0) (mkTent2 (some fdHat)) fdHat rfl
    (fun _ _ h => Fin.ext h) (constP1 1) (constP1 0) (1 / 2) (fun _ => 3)).2.2.2.1

/-! ### C15: the two contributions of an interior facet -/

/-- C15. In `CalcFluxTent`, on an interior facet `i` with sides `e1 = felpos[i][0]` and
`e2 = felpos[i][1]`, the values `v1` handed to `AddTrans` into `flux.Rows(range(e1))` are
`-delta_f(q) · w(q) · NumFlux(u1, u2, n)(c, q)` and the values `v2` handed to `AddTrans`
into `flux.Rows(range(e2))` are their negation, so `v1 + v2 = 0` at every point; the facet
throws nothing, and the rows of `flux` outside the two ranges are as they were. -/
theorem CalcFluxTent_inner_facet_contributions {DIM COMP ECOMP : ℕ}
    (law : T_ConservationLaw DIM COMP ECOMP) (tent : Tent DIM)
    (fd : TentDataFE DIM tent.nels tent.nfac) (u u0 flux : FlatMat COMP) (i : Fin tent.nfac)
    (e2 : Fin tent.nels) (hb : (fd.felpos i).2 = some e2) :
    ∃ v1 v2 : PntVals COMP (fd.nqf i),
      (∀ c q, v1 c q = -(fd.adelta_facet i q) * (fd.mfiri1 i).weight q *
        law.eq.NumFlux (fd.mfiri1 i)
          ((fd.fei (fd.felpos i).1).Evaluate (fd.firi i).1
            (u.Rows (fd.ranges (fd.felpos i).1) (fd.fei (fd.felpos i).1).ndof))
          ((fd.fei e2).Evaluate (fd.firi i).2 (u.Rows (fd.ranges e2) (fd.fei e2).ndof))
          (fd.anormals i) c q) ∧
      (∀ c q, v2 c q = -v1 c q) ∧
      (∀ c q, v1 c q + v2 c q = 0) ∧
      CalcFluxTent.facet law tent fd u u0 i flux =
        ⟨none,
          (flux.setRows (fd.ranges (fd.felpos i).1) (fd.fei (fd.felpos i).1).ndof
            ((fd.fei (fd.felpos i).1).AddTrans (fd.firi i).1 v1
              (flux.Rows (fd.ranges (fd.felpos i).1) (fd.fei (fd.felpos i).1).ndof))).setRows
            (fd.ranges e2) (fd.fei e2).ndof
            ((fd.fei e2).AddTrans (fd.firi i).2 v2
              ((flux.setRows (fd.ranges (fd.felpos i).1) (fd.fei (fd.felpos i).1).ndof
                ((fd.fei (fd.felpos i).1).AddTrans (fd.firi i).1 v1
                  (flux.Rows (fd.ranges (fd.felpos i).1) (fd.fei (fd.felpos i).1).ndof))).Rows
                (fd.ranges e2) (fd.fei e2).ndof))⟩ ∧
      ∀ r,
        ¬ (fd.ranges (fd.felpos i).1 ≤ r ∧
          r < fd.ranges (fd.felpos i).1 + (fd.fei (fd.felpos i).1).ndof) →
        ¬ (fd.ranges e2 ≤ r ∧ r < fd.ranges e2 + (fd.fei e2).ndof) →
        (CalcFluxTent.facet law tent fd u u0 i flux).out r = flux r := by
  refine ⟨fun c q => law.eq.NumFlux (fd.mfiri1 i)
      ((fd.fei (fd.felpos i).1).Evaluate (fd.firi i).1
        (u.Rows (fd.ranges (fd.felpos i).1) (fd.fei (fd.felpos i).1).ndof))
      ((fd.fei e2).Evaluate (fd.firi i).2 (u.Rows (fd.ranges e2) (fd.fei e2).ndof))
      (fd.anormals i) c q * (-1 * fd.adelta_facet i q * (fd.mfiri1 i).weight q),
    fun c q => law.eq.NumFlux (fd.mfiri1 i)
      ((fd.fei (fd.felpos i).1).Evaluate (fd.firi i).1
        (u.Rows (fd.ranges (fd.felpos i).1) (fd.fei (fd.felpos i).1).ndof))
      ((fd.fei e2).Evaluate (fd.firi i).2 (u.Rows (fd.ranges e2) (fd.fei e2).ndof))
      (fd.anormals i) c q * (-1 * fd.adelta_facet i q * (fd.mfiri1 i).weight q) * -1,
    ?_, ?_, ?_, ?_, ?_⟩
  · intro c q
    ring
  · intro c q
    ring
  · intro c q
    ring
  · simp only [CalcFluxTent.facet, hb, CalcFluxTent.innerFacet]
  · intro r h1 h2
    simp only [CalcFluxTent.facet, hb, CalcFluxTent.innerFacet]
    rw [setRows_outside _ _ _ _ r h2, setRows_outside _ _ _ _ r h1]

/-- C15, evaluated on the facet between the two linear elements of the hat-shaped tent: row
`4` of `flux` lies outside both ranges. -/
theorem CalcFluxTent_inner_facet_contributions_witness :
    (CalcFluxTent.facet (lawAdvection 0) (mkTent2 (some fdHat)) fdHat (constP1 1) (constP1 0)
      0 (constP1 2)).out 4 = constP1 2 4 := by
  obtain ⟨_, _, _, _, _, _, h⟩ := CalcFluxTent_inner_facet_contributions (lawAdvection 0)
    (mkTent2 (some fdHat)) fdHat (constP1 1) (constP1 0) (constP1 2) 0 1 rfl
  exact h 4 (by decide) (by decide)

/-! ### C16: scaling and re-layout in the volume part of `CalcFluxTent` -/

theorem existsUnique_row (A B r : ℕ) (h : r < A * B) :
    ∃! p : Fin A × Fin B, p.1.val * B + p.2.val = r := by
  have hB : 0 < B := by
    rcases Nat.eq_zero_or_pos B with h0 | h0
    · rw [h0, Nat.mul_zero] at h
      exact absurd h (Nat.not_lt_zero r)
    · exact h0
  have hd : r / B < A := by
    rw [Nat.div_lt_iff_lt_mul hB]
    exact h
  refine ⟨(⟨r / B, hd⟩, ⟨r % B, Nat.mod_lt r hB⟩), ?_, ?_⟩
  · show r / B * B + r % B = r
    rw [Nat.mul_comm]
    exact Nat.div_add_mod r B
  · rintro ⟨⟨a, ha⟩, ⟨b, hb⟩⟩ hp
    simp only at hp
    have h1 : r / B = a := by
      rw [← hp, Nat.add_comm, Nat.add_mul_div_right _ _ hB, Nat.div_eq_of_lt hb, Nat.zero_add]
    have h2 : r % B = b := by
      rw [← hp, Nat.add_comm, Nat.add_mul_mod_self_right, Nat.mod_eq_of_lt hb]
    simp only [Prod.mk.injEq, Fin.mk.injEq]
    exact ⟨h1.symm, h2.symm⟩

/-- C16. In the volume part of `CalcFluxTent`, the matrix handed to `AddGradTrans` is the
re-layout of the flux values whose column `q` was scaled by `w(q) · delta_e(q)`; the
re-layout copies input row `j·COMP + i` to output row `i·DIM + j` for every `i < COMP`,
`j < DIM`, and leaves the rows from `COMP·DIM` on alone; every output row below `COMP·DIM`
is `i·DIM + j` for exactly one pair `(i, j)` and every input row below `DIM·COMP` is
`j·COMP + i` for exactly one pair. -/
theorem CalcFluxTent_volume_relayout {DIM COMP ECOMP nels nfac : ℕ}
    (law : T_ConservationLaw DIM COMP ECOMP) (fd : TentDataFE DIM nels nfac) (u : FlatMat COMP)
    (e : Fin nels) (flux : FlatMat COMP) :
    CalcFluxTent.volume law fd u e flux =
      flux.setRows (fd.ranges e) (fd.fei e).ndof
        ((fd.fei e).AddGradTrans (fd.miri e)
          (relayout DIM COMP
            (fun r q => law.eq.Flux (fd.miri e)
                ((fd.fei e).Evaluate (fd.iri e) (u.Rows (fd.ranges e) (fd.fei e).ndof)) r q *
              ((fd.miri e).weight q * fd.adelta e q))
            (fun _ _ => 0))
          (flux.Rows (fd.ranges e) (fd.fei e).ndof)) ∧
    (∀ (src dst : TallVals (fd.nq e)) (i : Fin COMP) (j : Fin DIM),
      relayout DIM COMP src dst (i.val * DIM + j.val) = src (j.val * COMP + i.val)) ∧
    (∀ (src dst : TallVals (fd.nq e)) (r : ℕ), COMP * DIM ≤ r →
      relayout DIM COMP src dst r = dst r) ∧
    (∀ r, r < COMP * DIM → ∃! p : Fin COMP × Fin DIM, p.1.val * DIM + p.2.val = r) ∧
    (∀ r, r < DIM * COMP → ∃! p : Fin COMP × Fin DIM, p.2.val * COMP + p.1.val = r) := by
  refine ⟨rfl, ?_, ?_, ?_, ?_⟩
  · intro src dst i j
    exact relayout_apply DIM COMP src dst i.val j.val i.isLt j.isLt
  · intro src dst r hr
    rw [relayout_eq]
    simp only [not_lt.mpr hr, if_false]
  · intro r hr
    exact existsUnique_row COMP DIM r hr
  · intro r hr
    obtain ⟨p, hp, hu⟩ := existsUnique_row DIM COMP r hr
    refine ⟨(p.2, p.1), hp, ?_⟩
    intro q hq
    have := hu (q.2, q.1) hq
    rw [← this]

/-! ### C17: the curved branch of `SolveM` as a product of five matrices -/

theorem diagonal_mul_eq_of {m n : ℕ} (d : Fin m → ℚ) (M : Matrix (Fin m) (Fin n) ℚ) :
    Matrix.diagonal d * M = Matrix.of fun i j => d i * M i j := by
  funext i j
  rw [Matrix.diagonal_mul]
  rfl

theorem SolveMBlock_curved_mul {DIM W : ℕ} (ma : MeshAccess) (tent : Tent DIM)
    (fd : TentDataFE DIM tent.nels tent.nfac) (loci : Fin tent.nels)
    (h : ma.is_curved (tent.els loci) = true) (mat : Block (fd.ndof loci) W) :
    Matrix.of (SolveMBlock ma tent fd loci mat) =
      diagMassInv fd loci * ((shapeMat fd loci).transpose *
        (pointWeightMat fd loci * (shapeMat fd loci * (diagMassInv fd loci * Matrix.of mat)))) := by
  funext k c
  simp only [diagMassInv, pointWeightMat, diagonal_mul_eq_of]
  simp only [Matrix.mul_apply, Matrix.transpose_apply, shapeMat, Matrix.of_apply, SolveMBlock, h,
    if_true, DGFiniteElement.AddTrans, DGFiniteElement.Evaluate, zero_add]
  rw [div_eq_mul_inv, mul_comm]
  congr 1
  apply Finset.sum_congr rfl
  intro q _
  have : (∑ j, (fd.fei loci).shape ((fd.iri loci).pt q) j * (mat j c / (fd.fei loci).diagmass j)) =
      ∑ j, (fd.fei loci).shape ((fd.iri loci).pt q) j *
        (((fd.fei loci).diagmass j)⁻¹ * mat j c) := by
    apply Finset.sum_congr rfl
    intro j _
    rw [div_eq_mul_inv, mul_comm (mat j c)]
  rw [this]
  ring

/-- C17. For a curved element (fedata set) and every coefficient matrix `mat`, the
unweighted `SolveM` throws nothing and replaces the rows of the element by
`D⁻¹ · (Bᵀ · (diag(w/|J|) · (B · (D⁻¹ · mat))))`: `D⁻¹ = diag(1/d_k)` with `d` the diagonal
mass matrix of the element (the inverse of `D = diag(d)` when no `d_k` is zero), `B` the
evaluation of the basis at the points of the volume rule, `Bᵀ` its transpose. -/
theorem SolveM_curved_five_steps {DIM W : ℕ} (ma : MeshAccess) (tent : Tent DIM)
    (fd : TentDataFE DIM tent.nels tent.nfac) (hfd : tent.fedata = some fd)
    (loci : Fin tent.nels) (h : ma.is_curved (tent.els loci) = true) (mat : FlatMat W)
    (first : ℕ) :
    SolveM ma tent loci mat first =
      ⟨none, mat.setRows first (fd.ndof loci)
        (diagMassInv fd loci * ((shapeMat fd loci).transpose *
          (pointWeightMat fd loci * (shapeMat fd loci *
            (diagMassInv fd loci * Matrix.of (mat.Rows first (fd.ndof loci)))))))⟩ ∧
    ((∀ k, (fd.fei loci).diagmass k ≠ 0) →
      Matrix.diagonal (fd.fei loci).diagmass * diagMassInv fd loci = 1 ∧
      diagMassInv fd loci * Matrix.diagonal (fd.fei loci).diagmass = 1) := by
  constructor
  · simp only [SolveM, hfd]
    rw [← SolveMBlock_curved_mul ma tent fd loci h]
    rfl
  · intro hd
    constructor
    · have hk : (fun k => (fd.fei loci).diagmass k * ((fd.fei loci).diagmass k)⁻¹) =
          fun _ => 1 := funext fun k => mul_inv_cancel₀ (hd k)
      rw [diagMassInv, Matrix.diagonal_mul_diagonal, hk]
      exact Matrix.diagonal_one
    · have hk : (fun k => ((fd.fei loci).diagmass k)⁻¹ * (fd.fei loci).diagmass k) =
          fun _ => 1 := funext fun k => inv_mul_cancel₀ (hd k)
      rw [diagMassInv, Matrix.diagonal_mul_diagonal, hk]
      exact Matrix.diagonal_one

/-- C17, evaluated on the curved element with the two-point rule: the row of the element
becomes `(1/2 · 1/1 + 1/2 · 1/2) · 4 = 3`. -/
theorem SolveM_curved_five_steps_witness :
    (SolveM meshCurved (mkTent1 fdCurved) 0 (oneRow 4) 0).out 0 0 = 3 := by
  rw [(SolveM_curved_five_steps meshCurved (mkTent1 fdCurved) fdCurved rfl 0 rfl (oneRow 4) 0).1]
  simp [FlatMat.setRows, FlatMat.Rows, diagMassInv, pointWeightMat, shapeMat, Matrix.mul_apply,
    Matrix.diagonal, fdCurved, mkFedata1, felConst, irTrap, mkMir, TentDataFE.ndof, oneRow,
    Fin.sum_univ_two]
  norm_num

/-! ### C18: `ApplyM1` -/

theorem ApplyM1_pointValues_zero {DIM COMP ECOMP nels nfac : ℕ}
    (law : T_ConservationLaw DIM COMP ECOMP) (fd : TentDataFE DIM nels nfac) (u : FlatMat COMP)
    (i : Fin nels) (h : fd.agradphi_top i = fd.agradphi_bot i) :
    ApplyM1.pointValues law fd u i = fun _ _ => 0 := by
  funext l j
  simp [ApplyM1.pointValues, h]

/-- C18. In `ApplyM1` (fedata set), on every element the values handed to `AddTrans` into
`res.Rows(dn)` are, for component `l` and point `q`,
`Σ_k (gradphi_top(k,q) - gradphi_bot(k,q)) · w(q) · F(COMP·k + l, q)` with `F` the `Flux` of
the evaluated `u`, and `SolveM` follows; when `gradphi_top = gradphi_bot` on every element
`ApplyM1` throws nothing and returns `res = 0`, for every `u`. -/
theorem ApplyM1_values_and_flat_tent {DIM COMP ECOMP : ℕ}
    (law : T_ConservationLaw DIM COMP ECOMP) (tent : Tent DIM)
    (fd : TentDataFE DIM tent.nels tent.nfac) (hfd : tent.fedata = some fd)
    (tstar : Scal) (u res : FlatMat COMP) :
    (∀ (i : Fin tent.nels) (res1 : FlatMat COMP),
      ApplyM1.element law tent fd u i res1 =
        SolveM law.ma tent i
          (res1.setRows (fd.ranges i) (fd.fei i).ndof
            ((fd.fei i).AddTrans (fd.iri i)
              (fun l q => ∑ k : Fin DIM,
                (fd.agradphi_top i k q - fd.agradphi_bot i k q) * (fd.miri i).weight q *
                  law.eq.Flux (fd.miri i)
                    ((fd.fei i).Evaluate (fd.iri i) (u.Rows (fd.ranges i) (fd.fei i).ndof))
                    (COMP * k.val + l.val) q)
              (res1.Rows (fd.ranges i) (fd.fei i).ndof)))
          (fd.ranges i)) ∧
    (ApplyM1 law tent tstar u res).exc = none ∧
    ((∀ i, fd.agradphi_top i = fd.agradphi_bot i) →
      ApplyM1 law tent tstar u res = ⟨none, fun _ _ => 0⟩) := by
  refine ⟨fun i res1 => rfl, ?_, ?_⟩
  · simp only [ApplyM1, hfd]
    apply runLoop_exc_none
    intro a _ s'
    exact SolveM_exc_of_fedata law.ma tent fd hfd a _ _
  · intro h
    simp only [ApplyM1, hfd]
    apply runLoop_fixed
    intro i _
    simp only [ApplyM1.element, ApplyM1_pointValues_zero law fd u i (h i), AddTrans_zero,
      setRows_Rows_self]
    exact SolveM_zero law.ma tent fd hfd i (fd.ranges i)

/-- C18, evaluated on the one-element tent whose top and bottom fronts are both flat. -/
theorem ApplyM1_values_and_flat_tent_witness :
    ApplyM1 (lawAdvection 0) (mkTent1 fdStraight) (1 / 2) (oneRow 5) (oneRow 7) =
      ⟨none, fun _ _ => 0⟩ :=
  (ApplyM1_values_and_flat_tent (lawAdvection 0) (mkTent1 fdStraight) fdStraight rfl (1 / 2)
    (oneRow 5) (oneRow 7)).2.2 (fun _ => rfl)

/-! ### C19: the overhead of the SIMD rule in `CalcViscosityCoefficientTent` -/

/-- C19. In `CalcViscosityCoefficientTent`, the values `ui` and `resi` handed to
`InverseMap` and `CalcViscCoeffEl` for element `i` are zero at every flat point number
`q ≥ N_ip`, and at every `q < N_ip` they are `u` as evaluated and the residual as
evaluated divided by `delta(q)`. -/
theorem CalcViscosityCoefficientTent_clear_overhead {DIM COMP ECOMP : ℕ}
    (law : T_ConservationLaw DIM COMP ECOMP) (tent : Tent DIM)
    (fd : TentDataFE DIM tent.nels tent.nfac) (u : FlatMat COMP) (res : FlatMat ECOMP)
    (tstar : Scal) (i : Fin tent.nels) (st : ViscCoeffOut) :
    (∃ hi, (CalcViscosityCoefficientTent.element law tent fd u res tstar i st).nu =
      Function.update st.nu (tent.els i)
        (law.eq.CalcViscCoeffEl (fd.miri i)
          (law.eq.InverseMap (fd.miri i) (fd.gradphi tstar i)
            (CalcViscosityCoefficientTent.pointValues fd u res i).1)
          (CalcViscosityCoefficientTent.pointValues fd u res i).2 hi (st.nu (tent.els i)))) ∧
    (∀ c q, (fd.iri i).nip ≤ q.val →
      (CalcViscosityCoefficientTent.pointValues fd u res i).1 c q = 0) ∧
    (∀ c q, (fd.iri i).nip ≤ q.val →
      (CalcViscosityCoefficientTent.pointValues fd u res i).2 c q = 0) ∧
    (∀ c q, q.val < (fd.iri i).nip →
      (CalcViscosityCoefficientTent.pointValues fd u res i).1 c q =
        (fd.fei i).Evaluate (fd.iri i) (u.Rows (fd.ranges i) (fd.fei i).ndof) c q) ∧
    (∀ c q, q.val < (fd.iri i).nip →
      (CalcViscosityCoefficientTent.pointValues fd u res i).2 c q =
        (fd.fei i).Evaluate (fd.iri i) (res.Rows (fd.ranges i) (fd.fei i).ndof) c q /
          fd.adelta i q) := by
  refine ⟨⟨_, rfl⟩, ?_, ?_, ?_, ?_⟩
  · intro c q h
    simp [CalcViscosityCoefficientTent.pointValues, clearOverhead, h]
  · intro c q h
    simp [CalcViscosityCoefficientTent.pointValues, clearOverhead, h]
  · intro c q h
    simp [CalcViscosityCoefficientTent.pointValues, clearOverhead, not_le.mpr h]
  · intro c q h
    simp [CalcViscosityCoefficientTent.pointValues, clearOverhead, not_le.mpr h]

/-- C19, evaluated on the padded one-point rule: the evaluated `u = 5` is kept at point
`0` and cleared in the overhead slot `1`; the residual `6` becomes `6 / 3 = 2` at point `0`
and `0` in the overhead slot. -/
theorem CalcViscosityCoefficientTent_clear_overhead_witness :
    (CalcViscosityCoefficientTent.pointValues fdPadded (oneRow 5) (oneRow 6) 0).1 0 (1 : Fin 2) = 0 ∧
    (CalcViscosityCoefficientTent.pointValues fdPadded (oneRow 5) (oneRow 6) 0).2 0 (1 : Fin 2) = 0 ∧
    (CalcViscosityCoefficientTent.pointValues fdPadded (oneRow 5) (oneRow 6) 0).1 0 (0 : Fin 2) = 5 ∧
    (CalcViscosityCoefficientTent.pointValues fdPadded (oneRow 5) (oneRow 6) 0).2 0 (0 : Fin 2) = 2 := by
  obtain ⟨_, h1, h2, h3, h4⟩ := CalcViscosityCoefficientTent_clear_overhead (lawAdvection 0)
    (mkTent1 fdPadded) fdPadded (oneRow 5) (oneRow 6) (1 / 2) 0 ⟨fun _ => 0, 0⟩
  refine ⟨h1 0 (1 : Fin 2) (by decide), h2 0 (1 : Fin 2) (by decide), ?_, ?_⟩
  · rw [h3 0 (0 : Fin 2) (by decide)]
    simp [DGFiniteElement.Evaluate, FlatMat.Rows, fdPadded, mkFedata1, felConst, oneRow]
  · rw [h4 0 (0 : Fin 2) (by decide)]
    simp [DGFiniteElement.Evaluate, FlatMat.Rows, fdPadded, mkFedata1, felConst, oneRow]
    norm_num

/-! ### C20: the boundary condition numbers -/

theorem CheckBC_fold (ma : MeshAccess) (b0 : ℕ → ℤ) (n : ℕ)
    (hwf : ∀ i, i < n → ∃ f l, ma.GetElFacetsBND i = f :: l ∧ f < ma.GetNFacets) :
    ∃ b, (List.range n).foldlM (fun b i => T_ConservationLaw.CheckBC.step ma i b) b0 = some b ∧
      (∀ f, (∀ i, i < n → (ma.GetElFacetsBND i).head? ≠ some f) → b f = b0 f) ∧
      (∀ f i, i < n → (ma.GetElFacetsBND i).head? = some f →
        (∀ j, i < j → j < n → (ma.GetElFacetsBND j).head? ≠ some f) →
        b f = ma.GetElIndexBND i) ∧
      (∀ f, b f = b0 f ∨ ∃ i, i < n ∧ b f = ma.GetElIndexBND i) := by
  induction n with
  | zero =>
      refine ⟨b0, rfl, fun f _ => rfl, ?_, fun f => Or.inl rfl⟩
      intro f i hi
      exact absurd hi (Nat.not_lt_zero i)
  | succ n ih =>
      obtain ⟨b, hb, h1, h2, h3⟩ := ih (fun i hi => hwf i (Nat.lt_succ_of_lt hi))
      obtain ⟨fn, l, hfn, hlt⟩ := hwf n (Nat.lt_succ_self n)
      have hstep : T_ConservationLaw.CheckBC.step ma n b =
          some (Function.update b fn (ma.GetElIndexBND n)) := by
        simp [T_ConservationLaw.CheckBC.step, hfn, hlt]
      have hhead : (ma.GetElFacetsBND n).head? = some fn := by rw [hfn]; rfl
      refine ⟨Function.update b fn (ma.GetElIndexBND n), ?_, ?_, ?_, ?_⟩
      · rw [List.range_succ, List.foldlM_append, hb]
        simp [hstep]
      · intro f hf
        have hne : f ≠ fn := by
          intro h
          apply hf n (Nat.lt_succ_self n)
          rw [hhead, h]
        rw [Function.update_noteq hne]
        exact h1 f (fun i hi => hf i (Nat.lt_succ_of_lt hi))
      · intro f i hi hif hlast
        rcases Nat.lt_succ_iff_lt_or_eq.mp hi with hi' | rfl
        · have hne : f ≠ fn := by
            intro h
            apply hlast n hi' (Nat.lt_succ_self n)
            rw [hhead, h]
          rw [Function.update_noteq hne]
          exact h2 f i hi' hif (fun j hij hj => hlast j hij (Nat.lt_succ_of_lt hj))
        · rw [hhead] at hif
          have : fn = f := Option.some.inj hif
          rw [← this, Function.update_same]
      · intro f
        by_cases hf : f = fn
        · right
          exact ⟨n, Nat.lt_succ_self n, by rw [hf, Function.update_same]⟩
        · rw [Function.update_noteq hf]
          rcases h3 f with h | ⟨i, hi, h⟩
          · exact Or.inl h
          · exact Or.inr ⟨i, Nat.lt_succ_of_lt hi, h⟩

/-- C20. After construction every entry of `bcnr` is `-1`. On a mesh where every boundary
element has a first facet that is a facet number of the mesh, `CheckBC` with `def_bcnr`
false returns; then `bcnr[f]` is `-1` when no boundary element has `f` as its first facet
and the mesh index of the last boundary element whose first facet is `f` otherwise, so
with non-negative mesh indices `bcnr[f] ≥ -1` for every facet. With `def_bcnr` true
`CheckBC` leaves `bcnr` unchanged. -/
theorem CheckBC_bcnr (ma : MeshAccess)
    (hwf : ∀ i, i < ma.GetNSE → ∃ f l, ma.GetElFacetsBND i = f :: l ∧ f < ma.GetNFacets) :
    (∀ f, T_ConservationLaw.initialBcnr ma f = -1) ∧
    (∃ b, T_ConservationLaw.CheckBC ma false (T_ConservationLaw.initialBcnr ma) = some b ∧
      (∀ f, (∀ i, i < ma.GetNSE → (ma.GetElFacetsBND i).head? ≠ some f) → b f = -1) ∧
      (∀ f i, i < ma.GetNSE → (ma.GetElFacetsBND i).head? = some f →
        (∀ j, i < j → j < ma.GetNSE → (ma.GetElFacetsBND j).head? ≠ some f) →
        b f = ma.GetElIndexBND i) ∧
      ((∀ i, i < ma.GetNSE → 0 ≤ ma.GetElIndexBND i) → ∀ f, -1 ≤ b f)) ∧
    (∀ bcnr, T_ConservationLaw.CheckBC ma true bcnr = some bcnr) := by
  refine ⟨fun f => rfl, ?_, fun bcnr => rfl⟩
  obtain ⟨b, hb, h1, h2, h3⟩ := CheckBC_fold ma (T_ConservationLaw.initialBcnr ma) ma.GetNSE hwf
  refine ⟨b, ?_, h1, h2, ?_⟩
  · simp only [T_ConservationLaw.CheckBC, Bool.not_false, if_true]
    exact hb
  · intro hpos f
    rcases h3 f with h | ⟨i, hi, h⟩
    · rw [h]
      exact le_refl _
    · rw [h]
      exact le_trans (by decide) (hpos i hi)

/-- C20, evaluated on the mesh with three facets and three boundary elements: `CheckBC`
returns, and facet `0` carries the index `3` of the last of its two boundary elements. -/
theorem CheckBC_bcnr_witness :
    ∃ b, T_ConservationLaw.CheckBC meshBoundary false
        (T_ConservationLaw.initialBcnr meshBoundary) = some b ∧ b 0 = 3 ∧ b 1 = -1 := by
  have hwf : ∀ i, i < meshBoundary.GetNSE →
      ∃ f l, meshBoundary.GetElFacetsBND i = f :: l ∧ f < meshBoundary.GetNFacets := by
    intro i _
    by_cases h : i = 1
    · exact ⟨2, [], by simp [meshBoundary, h], by decide⟩
    · exact ⟨0, [], by simp [meshBoundary, h], by decide⟩
  obtain ⟨_, ⟨b, hb, h1, h2, _⟩, _⟩ := CheckBC_bcnr meshBoundary hwf
  refine ⟨b, hb, ?_, ?_⟩
  · have := h2 0 2 (by decide) (by decide) (fun j hj hj2 => by
      have : j < 3 := hj2
      omega)
    rw [this]
    rfl
  · apply h1 1
    intro i _
    by_cases h : i = 1 <;> simp [meshBoundary, h]

/-! ### C21: `Tent2Cyl` is affine in `tstar` with slope `ApplyM1` -/

theorem SolveMBlock_affine {DIM W : ℕ} (ma : MeshAccess) (tent : Tent DIM)
    (fd : TentDataFE DIM tent.nels tent.nfac) (i : Fin tent.nels) (t : Scal)
    (a b : Block (fd.ndof i) W) :
    SolveMBlock ma tent fd i (fun k c => a k c - t * b k c) =
      fun k c => SolveMBlock ma tent fd i a k c - t * SolveMBlock ma tent fd i b k c := by
  by_cases hcur : ma.is_curved (tent.els i) = true
  · simp only [SolveMBlock_curved ma tent fd i hcur]
    funext k c
    simp only [twoPass]
    have inner : ∀ q, (∑ j, (fd.fei i).shape ((fd.iri i).pt q) j *
          ((a j c - t * b j c) / (fd.fei i).diagmass j)) =
        (∑ j, (fd.fei i).shape ((fd.iri i).pt q) j * (a j c / (fd.fei i).diagmass j)) -
          t * ∑ j, (fd.fei i).shape ((fd.iri i).pt q) j * (b j c / (fd.fei i).diagmass j) := by
      intro q
      rw [Finset.mul_sum, ← Finset.sum_sub_distrib]
      apply Finset.sum_congr rfl
      intro j _
      ring
    simp only [inner]
    rw [← mul_div_assoc, ← sub_div, Finset.mul_sum, ← Finset.sum_sub_distrib]
    congr 1
    apply Finset.sum_congr rfl
    intro q _
    ring
  · have h' : ma.is_curved (tent.els i) = false := by simpa using hcur
    simp only [SolveMBlock_straight ma tent fd i h']
    funext k c
    ring

theorem AddTrans_affine {DIM n W : ℕ} (fel : DGFiniteElement DIM)
    (ir : SIMD_IntegrationRule DIM n) (t : Scal) (v1 v2 : PntVals W n)
    (a b : Block fel.ndof W) :
    fel.AddTrans ir (fun c q => v1 c q - t * v2 c q) (fun k c => a k c - t * b k c) =
      fun k c => fel.AddTrans ir v1 a k c - t * fel.AddTrans ir v2 b k c := by
  funext k c
  simp only [DGFiniteElement.AddTrans]
  have : (∑ q, fel.shape (ir.pt q) k * (v1 c q - t * v2 c q)) =
      (∑ q, fel.shape (ir.pt q) k * v1 c q) - t * ∑ q, fel.shape (ir.pt q) k * v2 c q := by
    rw [Finset.mul_sum, ← Finset.sum_sub_distrib]
    apply Finset.sum_congr rfl
    intro q _
    ring
  rw [this]
  ring

theorem setRows_affine {W : ℕ} (t : Scal) (M N : FlatMat W) (first n : ℕ) (A B : Block n W) :
    FlatMat.setRows (fun r c => M r c - t * N r c) first n (fun k c => A k c - t * B k c) =
      fun r c => M.setRows first n A r c - t * N.setRows first n B r c := by
  funext r c
  by_cases h : first ≤ r ∧ r < first + n <;> simp [FlatMat.setRows, h]

theorem ApplyM1_element_eq {DIM COMP ECOMP : ℕ} (law : T_ConservationLaw DIM COMP ECOMP)
    (tent : Tent DIM) (fd : TentDataFE DIM tent.nels tent.nfac) (hfd : tent.fedata = some fd)
    (u : FlatMat COMP) (i : Fin tent.nels) (res : FlatMat COMP) :
    ApplyM1.element law tent fd u i res =
      ⟨none, res.setRows (fd.ranges i) (fd.ndof i)
        (SolveMBlock law.ma tent fd i
          ((fd.fei i).AddTrans (fd.iri i) (ApplyM1.pointValues law fd u i)
            (res.Rows (fd.ranges i) (fd.ndof i))))⟩ := by
  simp only [ApplyM1.element, SolveM, hfd]
  have := Rows_setRows res (fd.ranges i) (fd.ndof i)
    ((fd.fei i).AddTrans (fd.iri i) (ApplyM1.pointValues law fd u i)
      (res.Rows (fd.ranges i) (fd.ndof i)))
  rw [this, setRows_setRows]

theorem Tent2Cyl_pointValues_affine {DIM COMP ECOMP nels nfac : ℕ}
    (law : T_ConservationLaw DIM COMP ECOMP) (fd : TentDataFE DIM nels nfac) (tstar : Scal)
    (u : FlatMat COMP) (i : Fin nels) :
    Tent2Cyl.pointValues law fd tstar u i =
      fun c q => Tent2Cyl.pointValues law fd 0 u i c q -
        tstar * ApplyM1.pointValues law fd u i c q := by
  funext c q
  simp only [Tent2Cyl.pointValues, ApplyM1.pointValues, TentDataFE.gradphi]
  rw [Finset.mul_sum, sub_sub, ← Finset.sum_add_distrib]
  congr 1
  apply Finset.sum_congr rfl
  intro k _
  ring

theorem runLoop_affine {α : Type} {W : ℕ} (l : List α) (t : Scal)
    (fA fB fC : α → FlatMat W → Run (FlatMat W)) (gA gB gC : α → FlatMat W → FlatMat W)
    (hA : ∀ a s, fA a s = ⟨none, gA a s⟩) (hB : ∀ a s, fB a s = ⟨none, gB a s⟩)
    (hC : ∀ a s, fC a s = ⟨none, gC a s⟩)
    (hlin : ∀ a (s1 s2 : FlatMat W),
      gA a (fun r c => s1 r c - t * s2 r c) = fun r c => gB a s1 r c - t * gC a s2 r c)
    (s1 s2 : FlatMat W) :
    runLoop l fA (fun r c => s1 r c - t * s2 r c) =
      ⟨none, fun r c => (runLoop l fB s1).out r c - t * (runLoop l fC s2).out r c⟩ ∧
    (runLoop l fB s1).exc = none ∧ (runLoop l fC s2).exc = none := by
  induction l generalizing s1 s2 with
  | nil => exact ⟨rfl, rfl, rfl⟩
  | cons a l ih =>
      simp only [runLoop, hA, hB, hC, hlin]
      exact ih (gB a s1) (gC a s2)

/-- C21. For every tent with fedata set, every tent-local `u` and every `tstar`,
`Tent2Cyl` with `solvemass = true` at `tstar` equals `Tent2Cyl` with `solvemass = true` at
`0` minus `tstar` times `ApplyM1`, in every row (so on every element range of the tent),
and none of the three throws. The incoming content of the output buffers plays no role:
each kernel zeroes its buffer first. -/
theorem Tent2Cyl_affine_in_tstar {DIM COMP ECOMP : ℕ} (law : T_ConservationLaw DIM COMP ECOMP)
    (tent : Tent DIM) (fd : TentDataFE DIM tent.nels tent.nfac) (hfd : tent.fedata = some fd)
    (tstar t1 : Scal) (u uhat uhat0 res : FlatMat COMP) :
    Tent2Cyl law tent tstar u uhat true =
      ⟨none, fun r c => (Tent2Cyl law tent 0 u uhat0 true).out r c -
        tstar * (ApplyM1 law tent t1 u res).out r c⟩ ∧
    (Tent2Cyl law tent 0 u uhat0 true).exc = none ∧
    (ApplyM1 law tent t1 u res).exc = none := by
  simp only [Tent2Cyl, ApplyM1, hfd]
  have h0 : (fun (_ : ℕ) (_ : Fin COMP) => (0 : Scal)) =
      fun r c => (fun (_ : ℕ) (_ : Fin COMP) => (0 : Scal)) r c -
        tstar * (fun (_ : ℕ) (_ : Fin COMP) => (0 : Scal)) r c := by
    funext r c
    simp
  have := runLoop_affine (List.finRange tent.nels) tstar
    (fun i uhat => Tent2Cyl.element law tent fd tstar u true i uhat)
    (fun i uhat => Tent2Cyl.element law tent fd 0 u true i uhat)
    (fun i res => ApplyM1.element law tent fd u i res)
    (fun i uhat => uhat.setRows (fd.ranges i) (fd.ndof i)
      (SolveMBlock law.ma tent fd i
        ((fd.fei i).AddTrans (fd.iri i) (Tent2Cyl.pointValues law fd tstar u i)
          (uhat.Rows (fd.ranges i) (fd.ndof i)))))
    (fun i uhat => uhat.setRows (fd.ranges i) (fd.ndof i)
      (SolveMBlock law.ma tent fd i
        ((fd.fei i).AddTrans (fd.iri i) (Tent2Cyl.pointValues law fd 0 u i)
          (uhat.Rows (fd.ranges i) (fd.ndof i)))))
    (fun i res => res.setRows (fd.ranges i) (fd.ndof i)
      (SolveMBlock law.ma tent fd i
        ((fd.fei i).AddTrans (fd.iri i) (ApplyM1.pointValues law fd u i)
          (res.Rows (fd.ranges i) (fd.ndof i)))))
    (fun i s => Tent2Cyl_element_eq law tent fd hfd tstar u i s)
    (fun i s => Tent2Cyl_element_eq law tent fd hfd 0 u i s)
    (fun i s => ApplyM1_element_eq law tent fd hfd u i s)
    (by
      intro i s1 s2
      simp only
      have hr : FlatMat.Rows (fun r c => s1 r c - tstar * s2 r c) (fd.ranges i) (fd.ndof i) =
          fun k c => s1.Rows (fd.ranges i) (fd.ndof i) k c -
            tstar * s2.Rows (fd.ranges i) (fd.ndof i) k c := rfl
      rw [hr, Tent2Cyl_pointValues_affine law fd tstar u i]
      have ha := AddTrans_affine (fd.fei i) (fd.iri i) tstar
        (Tent2Cyl.pointValues law fd 0 u i) (ApplyM1.pointValues law fd u i)
        (s1.Rows (fd.ranges i) (fd.ndof i)) (s2.Rows (fd.ranges i) (fd.ndof i))
      rw [ha, SolveMBlock_affine, setRows_affine])
    (fun _ _ => 0) (fun _ _ => 0)
  rw [← h0] at this
  exact this

/-- C21, evaluated on the hat-shaped tent of two linear elements at `tstar = 1/2`. -/
theorem Tent2Cyl_affine_in_tstar_witness :
    Tent2Cyl (lawAdvection 0) (mkTent2 (some fdHat)) (1 / 2) (constP1 1) (constP1 5) true =
      ⟨none, fun r c =>
        (Tent2Cyl (lawAdvection 0) (mkTent2 (some fdHat)) 0 (constP1 1) (constP1 6) true).out r c -
          1 / 2 * (ApplyM1 (lawAdvection 0) (mkTent2 (some fdHat)) 0 (constP1 1)
            (constP1 7)).out r c⟩ :=
  (Tent2Cyl_affine_in_tstar (lawAdvection 0) (mkTent2 (some fdHat)) fdHat rfl (1 / 2) 0
    (constP1 1) (constP1 5) (constP1 6) (constP1 7)).1

/-! ### C22: `CalcViscosityTent` with a vanishing viscosity coefficient -/

theorem foldl_fixed {α σ : Type} (l : List α) (f : σ → α → σ) (s : σ)
    (h : ∀ a ∈ l, f s a = s) : l.foldl f s = s := by
  induction l with
  | nil => rfl
  | cons a l ih =>
      rw [List.foldl_cons, h a (List.mem_cons_self a l)]
      exact ih (fun b hb => h b (List.mem_cons_of_mem a hb))

theorem CalcViscosityTent_volume_zero {DIM COMP nels nfac : ℕ} (fd : TentDataFE DIM nels nfac)
    (u : FlatMat COMP) (nu : ℕ → Scal) (i : Fin nels) (hnu : nu i.val = 0)
    (visc : FlatMat COMP) : CalcViscosityTent.volume fd u nu i visc = visc := by
  simp only [CalcViscosityTent.volume]
  apply foldl_fixed
  intro j _
  simp only [hnu, zero_mul, mul_zero, AddGradTrans1_zero, setColRange_ColRange_self]

theorem CalcViscosityTent_outerFacet_zero {DIM COMP ECOMP nels nfac : ℕ}
    (law : T_ConservationLaw DIM COMP ECOMP) (fd : TentDataFE DIM nels nfac)
    (u ubnd : FlatMat COMP) (nu : ℕ → Scal) (alpha : Scal) (i : Fin nels)
    (hnu : nu i.val = 0) (locfacetnr : ℕ) (visc : FlatMat COMP) :
    CalcViscosityTent.outerFacet law fd u ubnd nu alpha i locfacetnr visc = visc := by
  simp only [CalcViscosityTent.outerFacet, hnu, zero_mul, mul_zero, neg_zero, add_zero,
    AddGradTrans1_zero, setColRange_ColRange_self]
  rw [foldl_fixed _ _ _ (fun _ _ => rfl)]
  rw [AddTrans_zero, setRows_Rows_self]

theorem CalcViscosityTent_element_zero {DIM COMP ECOMP : ℕ}
    (law : T_ConservationLaw DIM COMP ECOMP) (tent : Tent DIM)
    (fd : TentDataFE DIM tent.nels tent.nfac) (u ubnd : FlatMat COMP) (nu : ℕ → Scal)
    (alpha : Scal) (i : Fin tent.nels) (hnu : nu i.val = 0) (visc : FlatMat COMP) :
    CalcViscosityTent.element law tent fd u ubnd nu alpha i visc = visc := by
  simp only [CalcViscosityTent.element, CalcViscosityTent_volume_zero fd u nu i hnu]
  apply foldl_fixed
  intro jf _
  split_ifs
  · rfl
  · exact CalcViscosityTent_outerFacet_zero law fd u ubnd nu alpha i hnu jf.1 visc

theorem CalcViscosityTent_facet_zero {DIM COMP ECOMP nels nfac : ℕ}
    (law : T_ConservationLaw DIM COMP ECOMP) (fd : TentDataFE DIM nels nfac)
    (u : FlatMat COMP) (nu : ℕ → Scal) (hnu : ∀ e : Fin nels, nu e.val = 0) (alpha : Scal)
    (i : Fin nfac) (visc : FlatMat COMP) :
    CalcViscosityTent.facet law fd u nu alpha i visc = visc := by
  cases hb : (fd.felpos i).2 with
  | none => simp only [CalcViscosityTent.facet, hb]
  | some e2 =>
      simp only [CalcViscosityTent.facet, hb, CalcViscosityTent.innerFacet, hnu, zero_mul,
        mul_zero, sub_zero, add_zero, neg_zero, Finset.sum_const_zero, AddGradTrans1_zero,
        setColRange_ColRange_self]
      rw [foldl_fixed _ _ _ (fun _ _ => rfl)]
      rw [AddTrans_zero, setRows_Rows_self, AddTrans_zero, setRows_Rows_self]

theorem SolveMDelta_zero {DIM W : ℕ} (tent : Tent DIM)
    (fd : TentDataFE DIM tent.nels tent.nfac) (hfd : tent.fedata = some fd)
    (loci : Fin tent.nels) (delta : ℕ → Scal) (first : ℕ) :
    SolveMDelta tent loci delta (0 : FlatMat W) first = ⟨none, 0⟩ := by
  simp only [SolveMDelta, hfd]
  congr 1
  funext r c
  by_cases h : first ≤ r ∧ r < first + fd.ndof loci <;>
    simp [FlatMat.setRows, h, SolveMDeltaBlock, FlatMat.Rows, DGFiniteElement.Evaluate,
      DGFiniteElement.AddTrans]

/-- C22. For every tent with fedata set and every `u` and `ubnd`, `CalcViscosityTent`
called with a vector `nu` that is zero on every element of the tent throws nothing and
returns `visc = 0` in every row: the volume part, the facets of the patch boundary and the
interior facets each leave `visc` as it is when the `nu` entries of their elements are
zero, and the closing delta-weighted `SolveM` maps zero to zero. The vector `nu` is
addressed as the kernel addresses it, by the number of the element within the tent
(`nu(i)`, `nu(elnr1)`, `nu(elnr2)`). -/
theorem CalcViscosityTent_zero_viscosity {DIM COMP ECOMP : ℕ}
    (law : T_ConservationLaw DIM COMP ECOMP) (tent : Tent DIM)
    (fd : TentDataFE DIM tent.nels tent.nfac) (hfd : tent.fedata = some fd)
    (u ubnd : FlatMat COMP) (nu : ℕ → Scal) (hnu : ∀ e : Fin tent.nels, nu e.val = 0)
    (visc : FlatMat COMP) :
    CalcViscosityTent law tent u ubnd nu visc = ⟨none, fun _ _ => 0⟩ ∧
    (∀ (alpha : Scal) (i : Fin tent.nels) (v : FlatMat COMP),
      CalcViscosityTent.volume fd u nu i v = v ∧
      CalcViscosityTent.element law tent fd u ubnd nu alpha i v = v) ∧
    (∀ (alpha : Scal) (i : Fin tent.nfac) (v : FlatMat COMP),
      CalcViscosityTent.facet law fd u nu alpha i v = v) ∧
    (∀ i : Fin tent.nels,
      SolveMDelta tent i (toFlatVec (fd.adelta i)) (fun _ _ => (0 : Scal)) (fd.ranges i) =
        ⟨none, (fun _ _ => 0 : FlatMat COMP)⟩) := by
  refine ⟨?_, fun alpha i v => ⟨CalcViscosityTent_volume_zero fd u nu i (hnu i) v,
    CalcViscosityTent_element_zero law tent fd u ubnd nu alpha i (hnu i) v⟩,
    fun alpha i v => CalcViscosityTent_facet_zero law fd u nu hnu alpha i v,
    fun i => SolveMDelta_zero tent fd hfd i _ (fd.ranges i)⟩
  simp only [CalcViscosityTent, hfd]
  rw [foldl_fixed _ _ _ (fun i _ =>
    CalcViscosityTent_element_zero law tent fd u ubnd nu _ i (hnu i) _)]
  rw [foldl_fixed _ _ _ (fun i _ => CalcViscosityTent_facet_zero law fd u nu hnu _ i _)]
  exact runLoop_fixed _ _ _ (fun i _ => SolveMDelta_zero tent fd hfd i _ (fd.ranges i))

/-- C22, evaluated on the hat-shaped tent of two linear elements with `nu = 0`. -/
theorem CalcViscosityTent_zero_viscosity_witness :
    CalcViscosityTent (lawAdvection 0) (mkTent2 (some fdHat)) (constP1 1) (constP1 3)
      (fun _ => 0) (constP1 5) = ⟨none, fun _ _ => 0⟩ :=
  (CalcViscosityTent_zero_viscosity (lawAdvection 0) (mkTent2 (some fdHat)) fdHat rfl
    (constP1 1) (constP1 3) (fun _ => 0) (fun _ => rfl) (constP1 5)).1

/-! ### C23: the delta-weighted `SolveM` against the unweighted one -/

theorem SolveMDeltaBlock_mul {DIM nels nfac W : ℕ} (fd : TentDataFE DIM nels nfac)
    (loci : Fin nels) (delta : Fin (fd.nq loci) → Scal) (mat : Block (fd.ndof loci) W) :
    Matrix.of (SolveMDeltaBlock fd loci delta mat) =
      diagMassInv fd loci * ((shapeMat fd loci).transpose *
        (pointWeightDeltaMat fd loci delta *
          (shapeMat fd loci * (diagMassInv fd loci * Matrix.of mat)))) := by
  funext k c
  simp only [diagMassInv, pointWeightDeltaMat, diagonal_mul_eq_of]
  simp only [Matrix.mul_apply, Matrix.transpose_apply, shapeMat, Matrix.of_apply,
    SolveMDeltaBlock, DGFiniteElement.AddTrans, DGFiniteElement.Evaluate, zero_add]
  rw [div_eq_mul_inv, mul_comm]
  congr 1
  apply Finset.sum_congr rfl
  intro q _
  have : (∑ j, (fd.fei loci).shape ((fd.iri loci).pt q) j * (mat j c / (fd.fei loci).diagmass j)) =
      ∑ j, (fd.fei loci).shape ((fd.iri loci).pt q) j *
        (((fd.fei loci).diagmass j)⁻¹ * mat j c) := by
    apply Finset.sum_congr rfl
    intro j _
    rw [div_eq_mul_inv, mul_comm (mat j c)]
  rw [this]
  ring

theorem SolveMDeltaBlock_one {DIM W : ℕ} (ma : MeshAccess) (tent : Tent DIM)
    (fd : TentDataFE DIM tent.nels tent.nfac) (loci : Fin tent.nels)
    (h : ma.is_curved (tent.els loci) = true) (delta : Fin (fd.nq loci) → Scal)
    (hdelta : ∀ q, delta q = 1) (mat : Block (fd.ndof loci) W) :
    SolveMDeltaBlock fd loci delta mat = SolveMBlock ma tent fd loci mat := by
  have hs : (fun q => (fd.iri loci).weight q * delta q / (fd.miri loci).measure q) =
      fun q => (fd.iri loci).weight q / (fd.miri loci).measure q := by
    funext q
    rw [hdelta q, mul_one]
  rw [SolveMBlock_curved ma tent fd loci h, SolveMDeltaBlock_eq, hs]

/-- C23. (1) On a curved element, for every coefficient matrix `mat`, the delta-weighted
`SolveM` called with `delta = 1` at every point of the volume rule returns what the
unweighted `SolveM` returns (both throw the same exception when fedata is null).
(2) Whether or not the element is curved, with fedata set the delta-weighted `SolveM`
throws nothing and replaces the rows of the element by
`D⁻¹ · (Bᵀ · (diag(w·delta/|J|) · (B · (D⁻¹ · mat))))`: it has no branch on `is_curved` and
never takes the lumped division by `d_k · measure`. -/
theorem SolveMDelta_two_pass {DIM W : ℕ} (ma : MeshAccess) (tent : Tent DIM)
    (loci : Fin tent.nels) (delta : ℕ → Scal) (mat : FlatMat W) (first : ℕ) :
    (ma.is_curved (tent.els loci) = true →
      (∀ fd, tent.fedata = some fd → ∀ q : Fin (fd.nq loci), delta q.val = 1) →
      SolveMDelta tent loci delta mat first = SolveM ma tent loci mat first) ∧
    (∀ fd, tent.fedata = some fd →
      SolveMDelta tent loci delta mat first =
        ⟨none, mat.setRows first (fd.ndof loci)
          (diagMassInv fd loci * ((shapeMat fd loci).transpose *
            (pointWeightDeltaMat fd loci (fun q => delta q.val) * (shapeMat fd loci *
              (diagMassInv fd loci * Matrix.of (mat.Rows first (fd.ndof loci)))))))⟩) := by
  constructor
  · intro hcur hdelta
    cases hfd : tent.fedata with
    | none => simp only [SolveMDelta, SolveM, hfd]
    | some fd =>
        simp only [SolveMDelta, SolveM, hfd]
        rw [SolveMDeltaBlock_one ma tent fd loci hcur _ (hdelta fd hfd)]
  · intro fd hfd
    simp only [SolveMDelta, hfd]
    rw [← SolveMDeltaBlock_mul fd loci]
    rfl

/-- C23, evaluated on the one-dof element with the two-point rule (`w = (1/2, 1/2)`,
`|J| = (1, 2)`) and `delta = 1`: on the curved mesh the delta-weighted and the unweighted
`SolveM` agree; on the straight mesh the delta-weighted `SolveM` turns the row `4` into
`3` (two-pass), where the unweighted one divides by `d·measure = 1` and leaves `4`. -/
theorem SolveMDelta_two_pass_witness :
    SolveMDelta (mkTent1 fdCurved) 0 (fun _ => 1) (oneRow 4) 0 =
      SolveM meshCurved (mkTent1 fdCurved) 0 (oneRow 4) 0 ∧
    (SolveMDelta (mkTent1 fdCurved) 0 (fun _ => 1) (oneRow 4) 0).out 0 0 = 3 ∧
    (SolveM meshStraight (mkTent1 fdCurved) 0 (oneRow 4) 0).out 0 0 = 4 := by
  refine ⟨(SolveMDelta_two_pass meshCurved (mkTent1 fdCurved) 0 (fun _ => 1) (oneRow 4) 0).1 rfl
    (fun _ _ _ => rfl), ?_, ?_⟩
  · rw [(SolveMDelta_two_pass meshStraight (mkTent1 fdCurved) 0 (fun _ => 1) (oneRow 4) 0).2
      fdCurved rfl]
    simp [FlatMat.setRows, FlatMat.Rows, diagMassInv, pointWeightDeltaMat, shapeMat,
      Matrix.mul_apply, Matrix.diagonal, fdCurved, mkFedata1, felConst, irTrap, mkMir,
      TentDataFE.ndof, oneRow, Fin.sum_univ_two]
    norm_num
  · simp [SolveM, SolveMBlock, meshStraight, FlatMat.setRows, FlatMat.Rows, fdCurved, mkFedata1,
      felConst, irTrap, mkMir, TentDataFE.ndof, TentDataFE.measure0, oneRow]

/-! ### C4: `CalcFluxTent` on a constant state -/

theorem sum_rowInc_Rows {DIM nels nfac W : ℕ} (fd : TentDataFE DIM nels nfac)
    (hdisj : ∀ i j, i ≠ j →
      fd.ranges i + fd.ndof i ≤ fd.ranges j ∨ fd.ranges j + fd.ndof j ≤ fd.ranges i)
    (X : (e : Fin nels) → Block (fd.ndof e) W) (e : Fin nels) :
    (∑ e', rowInc (fd.ranges e') (fd.ndof e') (X e')).Rows (fd.ranges e) (fd.ndof e) = X e := by
  funext k c
  simp only [FlatMat.Rows, Finset.sum_apply]
  rw [Finset.sum_eq_single e]
  · have hk := k.isLt
    have hin : fd.ranges e ≤ fd.ranges e + k.val ∧ fd.ranges e + k.val < fd.ranges e + fd.ndof e :=
      ⟨by omega, by omega⟩
    simp only [rowInc, hin, and_self, dite_true]
    congr 1
    apply Fin.ext
    simp
  · intro e' _ hne
    have hk := k.isLt
    have := hdisj e' e hne
    have hout : ¬ (fd.ranges e' ≤ fd.ranges e + k.val ∧
        fd.ranges e + k.val < fd.ranges e' + fd.ndof e') := by omega
    simp only [rowInc, hout, dite_false]
  · intro h
    exact absurd (Finset.mem_univ e) h

theorem sum_rowInc_outside {DIM nels nfac W : ℕ} (fd : TentDataFE DIM nels nfac)
    (X : (e : Fin nels) → Block (fd.ndof e) W) (r : ℕ)
    (hr : ∀ e, ¬ (fd.ranges e ≤ r ∧ r < fd.ranges e + fd.ndof e)) :
    (∑ e', rowInc (fd.ranges e') (fd.ndof e') (X e')) r = 0 := by
  funext c
  simp only [Finset.sum_apply]
  apply Finset.sum_eq_zero
  intro e _
  simp only [rowInc, hr e, dite_false]

/-- C4, amended. Let the fedata be set, the dof ranges of the elements be disjoint, the
facets of the tent be interior or carry a boundary condition whose exterior trace is the
interior one, let `u` evaluate to one constant state at all volume and facet points, and
let `Flux` map that state to the constant flux matrix `F` and `NumFlux` to `F·n`. Then
`CalcFluxTent` throws nothing, and for every `tstar`: (1) on the rows of element `e` it
returns `SolveM` of `Σ_j F(j,c)·G_e(k,j)`, `G_e` the discrete gradient of the tent height
tested with the shape functions (`heightDefect`), and zero in the rows of no element;
(2) so it returns `flux = 0` when `F` contracted with `G_e` vanishes (for instance `F = 0`);
(3) when the rules satisfy the discrete divergence theorem for the tent height
(`HeightGreen`), it returns `-ApplyM1(u)` in every row: minus the flux tested with the
gradient of the tent height. -/
theorem CalcFluxTent_rest_state {DIM COMP ECOMP : ℕ} (law : T_ConservationLaw DIM COMP ECOMP)
    (tent : Tent DIM) (fd : TentDataFE DIM tent.nels tent.nfac) (hfd : tent.fedata = some fd)
    (hdisj : ∀ i j, i ≠ j →
      fd.ranges i + fd.ndof i ≤ fd.ranges j ∨ fd.ranges j + fd.ndof j ≤ fd.ranges i)
    (u u0 : FlatMat COMP) (out : FluxOut COMP) (tstar : Scal)
    (cst : Fin COMP → Scal) (F : Fin DIM → Fin COMP → Scal)
    (hvol : ∀ e, (fd.fei e).Evaluate (fd.iri e) (u.Rows (fd.ranges e) (fd.ndof e)) =
      fun c _ => cst c)
    (hfac1 : ∀ f, (fd.fei (fd.felpos f).1).Evaluate (fd.firi f).1
      (u.Rows (fd.ranges (fd.felpos f).1) (fd.ndof (fd.felpos f).1)) = fun c _ => cst c)
    (hfac2 : ∀ f e2, (fd.felpos f).2 = some e2 →
      (fd.fei e2).Evaluate (fd.firi f).2 (u.Rows (fd.ranges e2) (fd.ndof e2)) = fun c _ => cst c)
    (hbc : ∀ f, (fd.felpos f).2 = none →
      CalcFluxTent.boundaryTrace law fd u0 f (fd.felpos f).1 (fun c _ => cst c)
        (law.bcnr (tent.internal_facets f)) = Except.ok (fun c _ => cst c))
    (hFlux : ∀ e (j : Fin DIM) (c : Fin COMP) (q : Fin (fd.nq e)),
      law.eq.Flux (fd.miri e) (fun c _ => cst c) (j.val * COMP + c.val) q = F j c)
    (hNum : ∀ f (c : Fin COMP) (q : Fin (fd.nqf f)),
      law.eq.NumFlux (fd.mfiri1 f) (fun c _ => cst c) (fun c _ => cst c) (fd.anormals f) c q =
        ∑ j, F j c * fd.anormals f j q) :
    (CalcFluxTent law tent u u0 out tstar).exc = none ∧
    (∀ e, (CalcFluxTent law tent u u0 out tstar).out.flux.Rows (fd.ranges e) (fd.ndof e) =
      SolveMBlock law.ma tent fd e (fun k c => ∑ j, F j c * heightDefect fd e k j)) ∧
    (∀ r, (∀ e, ¬ (fd.ranges e ≤ r ∧ r < fd.ranges e + fd.ndof e)) →
      (CalcFluxTent law tent u u0 out tstar).out.flux r = 0) ∧
    ((∀ e (k : Fin (fd.ndof e)) (c : Fin COMP), ∑ j, F j c * heightDefect fd e k j = 0) →
      ∀ r c, (CalcFluxTent law tent u u0 out tstar).out.flux r c = 0) ∧
    (HeightGreen fd → ∀ (t1 : Scal) (res : FlatMat COMP) (r : ℕ) (c : Fin COMP),
      (CalcFluxTent law tent u u0 out tstar).out.flux r c =
        -(ApplyM1 law tent t1 u res).out r c) := by
  have hasm := restState_assembled law tent fd u u0 cst F hvol hfac1 hfac2 hbc
    hFlux hNum
  have hS := runLoop_disjoint (W := COMP) fd.ranges (fun i => fd.ndof i)
    (fun i blk => SolveMBlock law.ma tent fd i blk)
    (fun i flux => SolveM law.ma tent i flux (fd.ranges i))
    (fun i s => by simp only [SolveM, hfd])
    hdisj (List.finRange tent.nels) (List.nodup_finRange _)
    (∑ e, rowInc (fd.ranges e) (fd.ndof e) (fun k c => ∑ j, F j c * heightDefect fd e k j))
  obtain ⟨hS1, hS2, hS3⟩ := hS
  have hres : CalcFluxTent law tent u u0 out tstar =
      ⟨(runLoop (List.finRange tent.nels)
          (fun i flux => SolveM law.ma tent i flux (fd.ranges i))
          (∑ e, rowInc (fd.ranges e) (fd.ndof e)
            (fun k c => ∑ j, F j c * heightDefect fd e k j))).exc,
        ⟨(runLoop (List.finRange tent.nels)
          (fun i flux => SolveM law.ma tent i flux (fd.ranges i))
          (∑ e, rowInc (fd.ranges e) (fd.ndof e)
            (fun k c => ∑ j, F j c * heightDefect fd e k j))).out,
          tent.timebot + tstar * (tent.ttop - tent.tbot)⟩⟩ := by
    simp only [CalcFluxTent, hfd, hasm]
  have hrows : ∀ e, (CalcFluxTent law tent u u0 out tstar).out.flux.Rows (fd.ranges e)
      (fd.ndof e) =
      SolveMBlock law.ma tent fd e (fun k c => ∑ j, F j c * heightDefect fd e k j) := by
    intro e
    rw [hres]
    simp only
    rw [hS2 e (List.mem_finRange e), sum_rowInc_Rows fd hdisj]
  have hout : ∀ r, (∀ e, ¬ (fd.ranges e ≤ r ∧ r < fd.ranges e + fd.ndof e)) →
      (CalcFluxTent law tent u u0 out tstar).out.flux r = 0 := by
    intro r hr
    rw [hres]
    simp only
    rw [hS3 r (fun e _ => hr e)]
    exact sum_rowInc_outside fd _ r hr
  have hentry : ∀ (e : Fin tent.nels) (r : ℕ) (hr : fd.ranges e ≤ r ∧ r < fd.ranges e + fd.ndof e)
      (c : Fin COMP), (CalcFluxTent law tent u u0 out tstar).out.flux r c =
        SolveMBlock law.ma tent fd e (fun k c => ∑ j, F j c * heightDefect fd e k j)
          ⟨r - fd.ranges e, by omega⟩ c := by
    intro e r hr c
    have := congrFun (congrFun (hrows e) ⟨r - fd.ranges e, by omega⟩) c
    simp only [FlatMat.Rows] at this
    rw [← this]
    congr 1
    omega
  refine ⟨?_, hrows, hout, ?_, ?_⟩
  · rw [hres]
    exact hS1
  · intro hdefect r c
    by_cases hr : ∃ e, fd.ranges e ≤ r ∧ r < fd.ranges e + fd.ndof e
    · obtain ⟨e, he⟩ := hr
      rw [hentry e r he c]
      have hz : (fun (k : Fin (fd.ndof e)) (c : Fin COMP) => ∑ j, F j c * heightDefect fd e k j) =
          fun _ _ => 0 := by
        funext k c
        exact hdefect e k c
      rw [hz, SolveMBlock_zero]
    · have := hout r (fun e he => hr ⟨e, he⟩)
      rw [this]
      rfl
  · intro hgreen t1 res r c
    have hA := runLoop_disjoint (W := COMP) fd.ranges (fun i => fd.ndof i)
      (fun i blk => SolveMBlock law.ma tent fd i
        ((fd.fei i).AddTrans (fd.iri i) (ApplyM1.pointValues law fd u i) blk))
      (fun i res => ApplyM1.element law tent fd u i res)
      (fun i s => ApplyM1_element_eq law tent fd hfd u i s)
      hdisj (List.finRange tent.nels) (List.nodup_finRange _) (fun _ _ => 0)
    have hAeq : ApplyM1 law tent t1 u res =
        runLoop (List.finRange tent.nels)
          (fun i res => ApplyM1.element law tent fd u i res) (fun _ _ => 0) := by
      simp only [ApplyM1, hfd]
    rw [← hAeq] at hA
    obtain ⟨_, hA2, hA3⟩ := hA
    by_cases hr : ∃ e, fd.ranges e ≤ r ∧ r < fd.ranges e + fd.ndof e
    · obtain ⟨e, he⟩ := hr
      rw [hentry e r he c]
      have hap := congrFun (congrFun (hA2 e (List.mem_finRange e)) ⟨r - fd.ranges e, by omega⟩) c
      simp only [FlatMat.Rows] at hap
      have hidx : fd.ranges e + (r - fd.ranges e) = r := by omega
      rw [hidx] at hap
      rw [hap]
      have hX : (fun (k : Fin (fd.ndof e)) (c : Fin COMP) => ∑ j, F j c * heightDefect fd e k j) =
          fun k c => (fun (_ : Fin (fd.ndof e)) (_ : Fin COMP) => (0 : Scal)) k c -
            1 * (fd.fei e).AddTrans (fd.iri e) (ApplyM1.pointValues law fd u e)
              (fun _ _ => 0) k c := by
        funext k c
        simp only [DGFiniteElement.AddTrans, ApplyM1.pointValues, hvol e, zero_add, zero_sub,
          one_mul]
        rw [← Finset.sum_neg_distrib]
        have hF : ∀ (j : Fin DIM) (q : Fin (fd.nq e)),
            law.eq.Flux (fd.miri e) (fun c _ => cst c) (COMP * j.val + c.val) q = F j c := by
          intro j q
          rw [Nat.mul_comm]
          exact hFlux e j c q
        simp only [hF]
        rw [show (∑ q, -((fd.fei e).shape ((fd.iri e).pt q) k *
            ∑ j : Fin DIM, (fd.agradphi_top e j q - fd.agradphi_bot e j q) *
              (fd.miri e).weight q * F j c)) =
            ∑ j, F j c * -∑ q, (fd.agradphi_top e j q - fd.agradphi_bot e j q) *
              (fd.miri e).weight q * (fd.fei e).shape ((fd.iri e).pt q) k from by
          simp only [Finset.mul_sum, Finset.sum_neg_distrib, mul_neg, neg_inj]
          rw [Finset.sum_comm]
          apply Finset.sum_congr rfl
          intro j _
          apply Finset.sum_congr rfl
          intro q _
          ring]
        apply Finset.sum_congr rfl
        intro j _
        rw [hgreen e k j]
      have hrows0 : FlatMat.Rows (fun (_ : ℕ) (_ : Fin COMP) => (0 : Scal)) (fd.ranges e)
          (fd.ndof e) = fun _ _ => 0 := rfl
      rw [hX, SolveMBlock_affine, SolveMBlock_zero, hrows0]
      ring
    · have h1 := hout r (fun e he => hr ⟨e, he⟩)
      have h2 := hA3 r (fun e _ he => hr ⟨e, he⟩)
      rw [h1, h2]
      simp

theorem heightGreen_fdHat : HeightGreen fdHat := by
  intro e k j
  have hj : j = 0 := Subsingleton.elim _ _
  subst hj
  fin_cases e <;> fin_cases k <;>
    simp [heightDefect, fdHat, mkFedata2, felP1, irSimpson, irPoint, mkMir,
      DGFiniteElement.mappedDShape, Fin.sum_univ_three, TentDataFE.ndof] <;> norm_num

/-- C4 amended, evaluated on the tent of two unit intervals around `x = 1` with the
hat-shaped tent height (linear elements, Simpson's rule, one interior facet), the advection
equation and the constant state `1`: the volume and facet terms do not cancel, and
`CalcFluxTent` returns `-ApplyM1(u)`: in rows `0` and `2`, `ApplyM1(u)` is `1` and `-1`. -/
theorem CalcFluxTent_rest_state_witness :
    (CalcFluxTent (lawAdvection 0) (mkTent2 (some fdHat)) (constP1 1) (constP1 1)
      ⟨fun _ _ => 0, 0⟩ (1 / 2)).out.flux 0 0 =
      -(ApplyM1 (lawAdvection 0) (mkTent2 (some fdHat)) (1 / 2) (constP1 1)
        (constP1 0)).out 0 0 ∧
    (CalcFluxTent (lawAdvection 0) (mkTent2 (some fdHat)) (constP1 1) (constP1 1)
      ⟨fun _ _ => 0, 0⟩ (1 / 2)).out.flux 2 0 =
      -(ApplyM1 (lawAdvection 0) (mkTent2 (some fdHat)) (1 / 2) (constP1 1)
        (constP1 0)).out 2 0 ∧
    (ApplyM1 (lawAdvection 0) (mkTent2 (some fdHat)) (1 / 2) (constP1 1) (constP1 0)).out 0 0
      = 1 ∧
    (ApplyM1 (lawAdvection 0) (mkTent2 (some fdHat)) (1 / 2) (constP1 1) (constP1 0)).out 2 0
      = -1 := by
  have h := fun r c => (CalcFluxTent_rest_state (lawAdvection 0) (mkTent2 (some fdHat)) fdHat rfl
    (by
      intro i j hij
      fin_cases i <;> fin_cases j <;> simp_all [fdHat, mkFedata2, felP1, TentDataFE.ndof])
    (constP1 1) (constP1 1) ⟨fun _ _ => 0, 0⟩ (1 / 2) (fun _ => 1) (fun _ _ => 1)
    (by
      intro e
      funext c q
      fin_cases e <;> fin_cases q <;>
        simp [fdHat, mkFedata2, felP1, irSimpson, constP1, DGFiniteElement.Evaluate,
          FlatMat.Rows, Fin.sum_univ_two, TentDataFE.ndof])
    (by
      intro f
      funext c q
      simp [fdHat, mkFedata2, felP1, irPoint, constP1, DGFiniteElement.Evaluate, FlatMat.Rows,
        Fin.sum_univ_two, TentDataFE.ndof])
    (by
      intro f e2 h
      have he2 : e2 = 1 := by
        simp only [fdHat, mkFedata2, Option.some.injEq] at h
        exact h.symm
      subst he2
      funext c q
      simp [fdHat, mkFedata2, felP1, irPoint, constP1, DGFiniteElement.Evaluate, FlatMat.Rows,
        Fin.sum_univ_two, TentDataFE.ndof])
    (by
      intro f h
      simp [fdHat, mkFedata2] at h)
    (by
      intro e j c q
      simp [lawAdvection, eqAdvection])
    (by
      intro f c q
      simp [lawAdvection, eqAdvection, fdHat, mkFedata2])).2.2.2.2 heightGreen_fdHat (1 / 2)
      (constP1 0) r c
  refine ⟨h 0 0, h 2 0, ?_, ?_⟩
  · simp [ApplyM1, ApplyM1.element, ApplyM1.pointValues, finRange_two, runLoop, fdHat,
      mkFedata2, SolveM, SolveMBlock, lawAdvection, meshStraight, eqAdvection, FlatMat.setRows,
      FlatMat.Rows, DGFiniteElement.Evaluate, DGFiniteElement.AddTrans, felP1, irSimpson, mkMir,
      constP1, TentDataFE.measure0, TentDataFE.ndof, Fin.sum_univ_two, Fin.sum_univ_three]
    norm_num
  · simp [ApplyM1, ApplyM1.element, ApplyM1.pointValues, finRange_two, runLoop, fdHat,
      mkFedata2, SolveM, SolveMBlock, lawAdvection, meshStraight, eqAdvection, FlatMat.setRows,
      FlatMat.Rows, DGFiniteElement.Evaluate, DGFiniteElement.AddTrans, felP1, irSimpson, mkMir,
      constP1, TentDataFE.measure0, TentDataFE.ndof, Fin.sum_univ_two, Fin.sum_univ_three]
    norm_num

end NgsTents
